import Mathlib

/-!
# Lift-Gripper-Controller

A shallow embedding of the two algorithmic cores of the firmware,

* `src/app/a_fsm.c` / `a_fsm.h`: the hierarchical state machine engine and the
  concrete four-state machine built on it;
* `src/service/s_pid.c` / `s_pid.h`: the configurable PID controller,

followed by the theorems that relate them to the specification.

Conventions of the embedding.

* A `State*` is an `Option Nat`: `none` is the null pointer and `some i` the
  address of the `i`-th statically allocated `State`.  The states themselves are
  a map `Nat → State W` (the forest).
* The `void (*)(void)` callbacks act on the global variables they can reach:
  the pending event `cur_event` (through `a_fsm_trigger_event`) and the rest of
  the program state, the world `W`.  `handle_event` is a function of its
  argument, as its C signature says.
* Every callback that is really invoked is appended to a log, so that the
  order of invocation can be stated.
* `while` loops over parent links take fuel: one unit per evaluation of the
  loop condition.  Running dry, dereferencing a null pointer and writing past
  the end of the `path[FSM_DEPTH]` buffer are reported as faults.
* The `int` depth counters of `find_lca` are natural numbers: a chain of
  parent links cannot be long enough to overflow them.
* `float` is embedded as `ℚ` (exact arithmetic).  Where NaN or rounding decide a
  question, `_calculate` is embedded a second time over `Flt`, a number or NaN,
  with a rounding function applied after every arithmetic operation; without
  rounding and on numbers the two embeddings agree (`calculate_run_f_exact`).
-/

namespace LiftCtl

/-! ## `a_fsm.h` -/

/-- Depth of the state machine, the size of the path buffer (`#define FSM_DEPTH 5`). -/
def FSM_DEPTH : Nat := 5

/-- The events of `event_e`. -/
inductive event_e where
  | EVENT_NONE
  | EVENT_OK
  | EVENT_ERROR
  | EVENT_LIFT_MOVE
  | EVENT_LIFT_STOP
  | EVENT_MAX
  deriving DecidableEq, Repr

/-- A pointer to a state: `none` is the null pointer. -/
abbrev StatePtr := Option Nat

/-- The global variables a callback can reach: the pending event and the
remaining program state `W` (sensors, actuators, serial output). -/
structure Globals (W : Type) where
  cur_event : event_e
  world : W
  deriving DecidableEq, Repr

/-- The record `struct State`: four optional callbacks (a null function pointer
is `none`) and the parent link. -/
structure State (W : Type) where
  name_ : String
  handle_event : Option (event_e → StatePtr)
  action : Option (Globals W → Globals W)
  entry : Option (Globals W → Globals W)
  exit : Option (Globals W → Globals W)
  _parent_ : StatePtr

/-- The statically allocated states, by address. -/
abbrev Forest (W : Type) := Nat → State W

/-- One invocation of a callback of the state at the given address. -/
inductive Call where
  | handle_event (s : Nat) (e : event_e)
  | action (s : Nat)
  | entry (s : Nat)
  | exit (s : Nat)
  deriving DecidableEq, Repr

/-- What can go wrong in a run of the engine that C leaves undefined (or that
the model cannot follow to its end). -/
inductive Fault where
  | out_of_fuel
  | null_deref
  | path_overflow
  deriving DecidableEq, Repr

/-- The whole machine: the globals `cur_event` (inside `globals`) and
`cur_state`, and the log of callbacks invoked so far. -/
structure Fsm (W : Type) where
  globals : Globals W
  cur_state : StatePtr
  log : List Call
  deriving DecidableEq, Repr

/-! ## `a_fsm.c`: the engine -/

/-- The function `a_fsm_trigger_event` as seen from inside a callback:
`cur_event = e`. -/
def a_fsm_trigger_event {W : Type} (e : event_e) (g : Globals W) : Globals W :=
  { g with cur_event := e }

/-- The function `a_fsm_trigger_event` as called from outside the engine. -/
def Fsm.trigger {W : Type} (e : event_e) (m : Fsm W) : Fsm W :=
  { m with globals := a_fsm_trigger_event e m.globals }

/-- The statement `if (f) f();` for a callback `f` of a state: a null pointer is
skipped, a defined callback is logged and run on the globals. -/
def Fsm.invoke {W : Type} (c : Call) (f : Option (Globals W → Globals W)) (m : Fsm W) :
    Fsm W :=
  match f with
  | none => m
  | some g => { m with globals := g m.globals, log := m.log ++ [c] }

/-- The loop of `dispatch_event`: `s` walks from `state` towards the root until a
handler answers; when the walk falls off the root the answer is `state`. -/
def dispatch_loop {W : Type} (F : Forest W) (state : StatePtr) (e : event_e) :
    Nat → StatePtr → Fsm W → Except Fault (StatePtr × Fsm W)
  | 0, _, _ => .error .out_of_fuel
  | _ + 1, none, m => .ok (state, m)
  | fuel + 1, some s, m =>
    match (F s).handle_event with
    | some h =>
      let m1 : Fsm W := { m with log := m.log ++ [Call.handle_event s e] }
      match h e with
      | some next => .ok (some next, m1)
      | none => dispatch_loop F state e fuel (F s)._parent_ m1
    | none => dispatch_loop F state e fuel (F s)._parent_ m

/-- The function `dispatch_event(state, e)`. -/
def dispatch_event {W : Type} (F : Forest W) (fuel : Nat) (state : StatePtr) (e : event_e)
    (m : Fsm W) : Except Fault (StatePtr × Fsm W) :=
  dispatch_loop F state e fuel state m

/-- The loop `while(p) { depth++; p = p->_parent_; }` of `find_lca`. -/
def depth_loop {W : Type} (F : Forest W) : Nat → StatePtr → Nat → Except Fault Nat
  | 0, _, _ => .error .out_of_fuel
  | _ + 1, none, depth => .ok depth
  | fuel + 1, some p, depth => depth_loop F fuel (F p)._parent_ (depth + 1)

/-- The loop `while(diff--) { deeper = deeper->_parent_; }` of `find_lca`. -/
def climb {W : Type} (F : Forest W) : Nat → StatePtr → Except Fault StatePtr
  | 0, deeper => .ok deeper
  | _ + 1, none => .error .null_deref
  | diff + 1, some d => climb F diff (F d)._parent_

/-- The loop `while(deeper != shallower) { ... }` of `find_lca`: both pointers
step to their parents until they coincide. -/
def lockstep {W : Type} (F : Forest W) : Nat → StatePtr → StatePtr → Except Fault StatePtr
  | 0, _, _ => .error .out_of_fuel
  | fuel + 1, deeper, shallower =>
    if deeper ≠ shallower then
      match deeper, shallower with
      | some d, some s => lockstep F fuel (F d)._parent_ (F s)._parent_
      | _, _ => .error .null_deref
    else .ok deeper

/-- The function `find_lca(s1, s2)`. -/
def find_lca {W : Type} (F : Forest W) (fuel : Nat) (s1 s2 : StatePtr) :
    Except Fault StatePtr :=
  if s1 = none ∨ s2 = none then .ok none
  else
    match depth_loop F fuel s1 0 with
    | .error f => .error f
    | .ok depth1 =>
      match depth_loop F fuel s2 0 with
      | .error f => .error f
      | .ok depth2 =>
        let deeper := if depth1 > depth2 then s1 else s2
        let shallower := if depth1 > depth2 then s2 else s1
        let diff := Int.natAbs ((depth1 : Int) - (depth2 : Int))
        match climb F diff deeper with
        | .error f => .error f
        | .ok deeper1 => lockstep F fuel deeper1 shallower

/-- The function `exit_up_to(from, to)`; the loop variable `s` starts at `from`. -/
def exit_up_to {W : Type} (F : Forest W) (to_ : StatePtr) :
    Nat → StatePtr → Fsm W → Except Fault (Fsm W)
  | 0, _, _ => .error .out_of_fuel
  | _ + 1, none, m => .ok m
  | fuel + 1, some s, m =>
    if some s ≠ to_ then
      exit_up_to F to_ fuel (F s)._parent_ (m.invoke (Call.exit s) (F s).exit)
    else .ok m

/-- The first loop of `enter_down_to`: the states from `to` up to (excluding)
`from` are stored in `path[0], path[1], ...`; `path` holds the entries written
so far, `path.length` is the C variable `depth`. -/
def enter_path {W : Type} (F : Forest W) (from_ : StatePtr) :
    Nat → StatePtr → List Nat → Except Fault (List Nat)
  | 0, _, _ => .error .out_of_fuel
  | _ + 1, none, path => .ok path
  | fuel + 1, some s, path =>
    if some s ≠ from_ then
      if path.length < FSM_DEPTH then enter_path F from_ fuel (F s)._parent_ (path ++ [s])
      else .error .path_overflow
    else .ok path

/-- The second loop of `enter_down_to`, `while(depth--) { s = path[depth]; ... }`,
given the entries `path[depth-1], ..., path[0]` in the order they are read. -/
def enter_run {W : Type} (F : Forest W) : List Nat → Fsm W → Fsm W
  | [], m => m
  | s :: rest, m => enter_run F rest (m.invoke (Call.entry s) (F s).entry)

/-- The function `enter_down_to(from, to)`. -/
def enter_down_to {W : Type} (F : Forest W) (fuel : Nat) (from_ to_ : StatePtr) (m : Fsm W) :
    Except Fault (Fsm W) :=
  match enter_path F from_ fuel to_ [] with
  | .error f => .error f
  | .ok path => .ok (enter_run F path.reverse m)

/-- The function `execute_action(state)`. -/
def execute_action {W : Type} (F : Forest W) : Nat → StatePtr → Fsm W → Except Fault (Fsm W)
  | 0, _, _ => .error .out_of_fuel
  | _ + 1, none, m => .ok m
  | fuel + 1, some s, m =>
    execute_action F fuel (F s)._parent_ (m.invoke (Call.action s) (F s).action)

/-- The function `a_fsm_process()`. -/
def a_fsm_process {W : Type} (F : Forest W) (fuel : Nat) (m : Fsm W) : Except Fault (Fsm W) :=
  if m.globals.cur_event = event_e.EVENT_NONE then
    execute_action F fuel m.cur_state m
  else
    match dispatch_event F fuel m.cur_state m.globals.cur_event m with
    | .error f => .error f
    | .ok (next_state, m1) =>
      if next_state ≠ m1.cur_state then
        match find_lca F fuel m1.cur_state next_state with
        | .error f => .error f
        | .ok lca =>
          match exit_up_to F lca fuel m1.cur_state m1 with
          | .error f => .error f
          | .ok m2 =>
            match enter_down_to F fuel lca next_state m2 with
            | .error f => .error f
            | .ok m3 =>
              let m4 : Fsm W :=
                { m3 with
                  cur_state := next_state
                  globals := { m3.globals with cur_event := event_e.EVENT_NONE } }
              execute_action F fuel m4.cur_state m4
      else execute_action F fuel m1.cur_state m1

/-! ## Vocabulary of the specification: chains, paths and callback sequences -/

/-- The list `l` is the chain of `p`: the states met from `p` along the parent
links, in that order, the last one being a root.  A pointer has a chain exactly
when its tree is finite above it. -/
def isChain {W : Type} (F : Forest W) : StatePtr → List Nat → Bool
  | none, [] => true
  | some s, x :: l => decide (s = x) && isChain F (F x)._parent_ l
  | _, _ => false

/-- The pointer to the first state of a list of states (null for the empty list). -/
def headPtr (l : List Nat) : StatePtr := l.head?

/-- The states of `l`, in order, each with its callback of one kind invoked when
it is defined (`c` names the kind in the log, `f` selects the callback). -/
def invoke_all {W : Type} (c : Nat → Call) (f : State W → Option (Globals W → Globals W))
    (F : Forest W) : List Nat → Fsm W → Fsm W
  | [], m => m
  | s :: rest, m => invoke_all c f F rest (m.invoke (c s) (f (F s)))

/-- The log entries left by `invoke_all`: one per state of `l` whose callback is
defined, in the order of `l`. -/
def calls_of {W : Type} (c : Nat → Call) (f : State W → Option (Globals W → Globals W))
    (F : Forest W) (l : List Nat) : List Call :=
  (l.filter (fun s => (f (F s)).isSome)).map c

/-- The effect of `invoke_all` on the globals: the defined callbacks composed in
the order of `l`. -/
def apply_all {W : Type} (f : State W → Option (Globals W → Globals W)) (F : Forest W) :
    List Nat → Globals W → Globals W
  | [], g => g
  | s :: rest, g =>
    apply_all f F rest (match f (F s) with
      | some a => a g
      | none => g)

/-- The answer of the handler of state `s` to the event `e`: null when the state
has no handler or the handler declines. -/
def answer {W : Type} (F : Forest W) (e : event_e) (s : Nat) : StatePtr :=
  match (F s).handle_event with
  | some h => h e
  | none => none

/-- The first non-null answer along a list of states. -/
def first_answer {W : Type} (F : Forest W) (e : event_e) : List Nat → StatePtr
  | [] => none
  | s :: rest =>
    match answer F e s with
    | some t => some t
    | none => first_answer F e rest

/-- The handlers that are asked along a list of states: those of the states
with a handler, up to and including the first that answers. -/
def asked {W : Type} (F : Forest W) (e : event_e) : List Nat → List Call
  | [] => []
  | s :: rest =>
    match (F s).handle_event with
    | some h =>
      match h e with
      | some _ => [Call.handle_event s e]
      | none => Call.handle_event s e :: asked F e rest
    | none => asked F e rest

/-- The deepest state of the chain `cs` that also lies on the chain `ns`. -/
def deepest_common (cs ns : List Nat) : StatePtr :=
  cs.find? (fun x => decide (x ∈ ns))

/-- The states of the chain `cs` that are strictly below every state of `ns`:
the part of `cs` before the first state shared with `ns`. -/
def below_common (cs ns : List Nat) : List Nat :=
  cs.takeWhile (fun x => !decide (x ∈ ns))

/-- The states of the chain `l` from its first state up to but excluding the
state `stop` (the whole chain when `stop` is null or not on it). -/
def up_to_excluding (l : List Nat) (stop : StatePtr) : List Nat :=
  l.takeWhile (fun x => !decide (some x = stop))

/-- The machine after the exit and entry phases of a transition from the chain
`cs` to the chain `ns`, once `cur_state` and `cur_event` are updated and before
the action chain runs. -/
def after_entry {W : Type} (F : Forest W) (cs ns : List Nat) (m : Fsm W) : Fsm W :=
  let lca := deepest_common cs ns
  let m1 : Fsm W := { m with log := m.log ++ asked F m.globals.cur_event cs }
  let m2 := invoke_all Call.exit State.exit F (up_to_excluding cs lca) m1
  let m3 := invoke_all Call.entry State.entry F (up_to_excluding ns lca).reverse m2
  { m3 with
    cur_state := headPtr ns
    globals := { m3.globals with cur_event := event_e.EVENT_NONE } }

/-! ## Small forests on which the engine is exercised -/

/-- A callback that counts its invocations in the world and triggers nothing. -/
def bump (g : Globals Nat) : Globals Nat :=
  { g with world := g.world + 1 }

/-- A forest of two kinds of tree.  State 0 is a root, state 1 its child, and the
leaves 2 and 3 are children of 1, so 2 and 3 are three levels deep; every other
address is a root of its own.  Every action counts and triggers
nothing; the entry of the second root triggers `EVENT_OK`. -/
def demo_forest : Forest Nat
  | 0 =>
    { name_ := "top"
      handle_event := some (fun e => if e = event_e.EVENT_ERROR then some 4 else none)
      action := some bump
      entry := none
      exit := none
      _parent_ := none }
  | 1 =>
    { name_ := "mid"
      handle_event := none
      action := some bump
      entry := some bump
      exit := some bump
      _parent_ := some 0 }
  | 2 =>
    { name_ := "leaf_a"
      handle_event := some (fun e => if e = event_e.EVENT_LIFT_MOVE then some 3 else none)
      action := some bump
      entry := none
      exit := some bump
      _parent_ := some 1 }
  | 3 =>
    { name_ := "leaf_b"
      handle_event := some (fun e => if e = event_e.EVENT_LIFT_STOP then some 2 else none)
      action := none
      entry := some bump
      exit := none
      _parent_ := some 1 }
  | _ =>
    { name_ := "fault"
      handle_event := some (fun e => if e = event_e.EVENT_OK then some 2 else none)
      action := none
      entry := some (a_fsm_trigger_event event_e.EVENT_OK)
      exit := none
      _parent_ := none }

/-- The demo machine in the leaf 2 with the event `e` pending. -/
def demo_start (e : event_e) : Fsm Nat :=
  { globals := { cur_event := e, world := 0 }, cur_state := some 2, log := [] }

/-- A forest deeper than `FSM_DEPTH`: the states 5, 4, 3, 2, 1, 0 form one chain
of six states (0 is its root); every address from 6 on is a root of its own whose
handler answers every event with the state 5.  No state has any other callback. -/
def deep_forest : Forest Unit := fun i =>
  { name_ := "deep"
    handle_event := if 6 ≤ i then some (fun _ => some 5) else none
    action := none
    entry := none
    exit := none
    _parent_ := if i = 0 ∨ 6 ≤ i then none else some (i - 1) }

/-- The deep machine in the lone root 6 with `EVENT_OK` pending. -/
def deep_start : Fsm Unit :=
  { globals := { cur_event := event_e.EVENT_OK, world := () }, cur_state := some 6, log := [] }

/-! ## `a_fsm.c`: the concrete machine -/

/-- Directions of the lift relay. -/
inductive RelayDir where
  | RelayDirA
  | RelayDirB
  deriving DecidableEq, Repr

/-- A call from a state callback to one of the drivers: the lift relay, the
gripper, or the serial output behind `printf`. -/
inductive Ext where
  | relay_set_dir (d : RelayDir)
  | relay_stop
  | gripper_open
  | printf (s : String)
  deriving DecidableEq, Repr

/-- The program state the callbacks of the concrete machine work on: the target
`lift_target_pos_mm`, the position `lift_encoder.get_position` returns, the flag
`tick.flag`, and the calls made to the drivers so far, oldest first. -/
structure World where
  lift_target_pos_mm : ℚ
  position : ℚ
  tick_flag : Bool
  ext : List Ext
  deriving DecidableEq, Repr

/-- Modelled from the spec: the two collaborators of `a_board.h` whose effect is
not in the sources, the link processor `s_wireless_comms_process` (an opaque
step, here any function of the globals) and the sampler `lift_encoder.update`
(any function of the world). -/
structure Board where
  s_wireless_comms_process : Globals World → Globals World
  lift_encoder_update : World → World

/-- The address `&state_normal`. -/
abbrev ptr_normal : Nat := 0

/-- The address `&state_idle`. -/
abbrev ptr_idle : Nat := 1

/-- The address `&state_lift_moving`. -/
abbrev ptr_lift_moving : Nat := 2

/-- The address `&state_error`. -/
abbrev ptr_error : Nat := 3

/-- A driver call made from a callback is recorded in the world. -/
def call_ext (x : Ext) (g : Globals World) : Globals World :=
  { g with world := { g.world with ext := g.world.ext ++ [x] } }

/-- The function `normal_handle_event`. -/
def normal_handle_event (e : event_e) : StatePtr :=
  match e with
  | event_e.EVENT_ERROR => some ptr_error
  | _ => none

/-- The function `normal_action`. -/
def normal_action (B : Board) (g : Globals World) : Globals World :=
  let g1 := B.s_wireless_comms_process g
  if g1.world.tick_flag then
    { g1 with world := B.lift_encoder_update { g1.world with tick_flag := false } }
  else g1

/-- The function `idle_handle_event`. -/
def idle_handle_event (e : event_e) : StatePtr :=
  match e with
  | event_e.EVENT_LIFT_MOVE => some ptr_lift_moving
  | _ => none

/-- The function `idle_action`. -/
def idle_action (g : Globals World) : Globals World :=
  if |g.world.lift_target_pos_mm - g.world.position| > 5 then
    a_fsm_trigger_event event_e.EVENT_LIFT_MOVE g
  else g

/-- The function `lift_moving_handle_event`. -/
def lift_moving_handle_event (e : event_e) : StatePtr :=
  match e with
  | event_e.EVENT_LIFT_STOP => some ptr_idle
  | _ => none

/-- The function `lift_moving_entry`. -/
def lift_moving_entry (g : Globals World) : Globals World :=
  call_ext (Ext.printf "$LIFT:START#") g

/-- The function `lift_moving_exit`. -/
def lift_moving_exit (g : Globals World) : Globals World :=
  call_ext (Ext.printf "$LIFT:END#") g

/-- The function `lift_moving_action`. -/
def lift_moving_action (g : Globals World) : Globals World :=
  let target := g.world.lift_target_pos_mm
  let current := g.world.position
  if target - current > 5 then call_ext (Ext.relay_set_dir RelayDir.RelayDirA) g
  else if target - current < -5 then call_ext (Ext.relay_set_dir RelayDir.RelayDirB) g
  else a_fsm_trigger_event event_e.EVENT_LIFT_STOP (call_ext Ext.relay_stop g)

/-- The function `error_handle_event`. -/
def error_handle_event (e : event_e) : StatePtr :=
  match e with
  | event_e.EVENT_OK => some ptr_idle
  | _ => none

/-- The function `error_entry`. -/
def error_entry (g : Globals World) : Globals World :=
  a_fsm_trigger_event event_e.EVENT_OK (call_ext Ext.gripper_open (call_ext Ext.relay_stop g))

/-- The state `state_normal`. -/
def state_normal (B : Board) : State World :=
  { name_ := "normal"
    handle_event := some normal_handle_event
    action := some (normal_action B)
    entry := none
    exit := none
    _parent_ := none }

/-- The state `state_idle`. -/
def state_idle : State World :=
  { name_ := "idle"
    handle_event := some idle_handle_event
    action := some idle_action
    entry := none
    exit := none
    _parent_ := some ptr_normal }

/-- The state `state_lift_moving`. -/
def state_lift_moving : State World :=
  { name_ := "lift_moving"
    handle_event := some lift_moving_handle_event
    action := some lift_moving_action
    entry := some lift_moving_entry
    exit := some lift_moving_exit
    _parent_ := some ptr_normal }

/-- The state `state_error`. -/
def state_error : State World :=
  { name_ := "error"
    handle_event := some error_handle_event
    action := none
    entry := some error_entry
    exit := none
    _parent_ := none }

/-- The four states of `a_fsm.c` at their addresses (no other address is ever
produced by a handler or a parent link). -/
def machine (B : Board) : Forest World
  | 0 => state_normal B
  | 1 => state_idle
  | 2 => state_lift_moving
  | _ => state_error

/-- The concrete machine in the state `cur` with the event `e` pending, over the
world `w`, with an empty log. -/
def machine_at (cur : Nat) (e : event_e) (w : World) : Fsm World :=
  { globals := { cur_event := e, world := w }, cur_state := some cur, log := [] }

/-- The initial configuration: `cur_event = EVENT_NONE`, `cur_state = &state_idle`. -/
def machine_init (w : World) : Fsm World :=
  machine_at ptr_idle event_e.EVENT_NONE w

/-- A board whose opaque collaborators do nothing. -/
def quiet_board : Board :=
  { s_wireless_comms_process := fun g => g
    lift_encoder_update := fun w => w }

/-- A world at rest: target and position 0, no tick pending, no driver called. -/
def still_world : World :=
  { lift_target_pos_mm := 0, position := 0, tick_flag := false, ext := [] }

/-- A world whose target is 50 units away from the position 0. -/
def far_world : World :=
  { lift_target_pos_mm := 50, position := 0, tick_flag := false, ext := [] }

/-! ## `s_pid.h` -/

/-- Mode bit `PID_MODE_P`. -/
def PID_MODE_P : Nat := 0x04

/-- Mode bit `PID_MODE_I`. -/
def PID_MODE_I : Nat := 0x02

/-- Mode bit `PID_MODE_D`. -/
def PID_MODE_D : Nat := 0x01

/-- Mode `PID_MODE_PI`. -/
def PID_MODE_PI : Nat := 0x06

/-- Mode `PID_MODE_PD`. -/
def PID_MODE_PD : Nat := 0x05

/-- Mode `PID_MODE_PID`. -/
def PID_MODE_PID : Nat := 0x07

/-- Feature mask `PID_FEAT_NONE`. -/
def PID_FEAT_NONE : Nat := 0x00

/-- Feature bit `PID_FEAT_OUTPUT_LIMIT`. -/
def PID_FEAT_OUTPUT_LIMIT : Nat := 1 <<< 0

/-- Feature bit `PID_FEAT_INTEGRAL_SEP`. -/
def PID_FEAT_INTEGRAL_SEP : Nat := 1 <<< 1

/-- Feature bit `PID_FEAT_DEADBAND`. -/
def PID_FEAT_DEADBAND : Nat := 1 <<< 2

/-- Feature bit `PID_FEAT_DIFF_FILTER`. -/
def PID_FEAT_DIFF_FILTER : Nat := 1 <<< 3

/-- Feature bit `PID_FEAT_DIFF_ON_MEAS`. -/
def PID_FEAT_DIFF_ON_MEAS : Nat := 1 <<< 4

/-- Feature bit `PID_FEAT_ANTI_WINDUP`. -/
def PID_FEAT_ANTI_WINDUP : Nat := 1 <<< 5

/-- Feature bit `PID_FEAT_OUTPUT_RATE_LIMIT`. -/
def PID_FEAT_OUTPUT_RATE_LIMIT : Nat := 1 <<< 6

/-- Feature bit `PID_FEAT_FEEDFORWARD`. -/
def PID_FEAT_FEEDFORWARD : Nat := 1 <<< 7

/-- Feature mask `PID_FEAT_ALL`. -/
def PID_FEAT_ALL : Nat := 0xFF

/-- The C test `if (bits & flag)`: the conjunction is non-zero. -/
abbrev has_bit (bits flag : Nat) : Prop := bits &&& flag ≠ 0

/-- The record `pid_cfg_t`. -/
structure pid_cfg_t where
  mode : Nat
  features : Nat
  kp : ℚ
  ki : ℚ
  kd : ℚ
  max_out : ℚ
  integral_separation : ℚ
  dead_band : ℚ
  diff_filter_alpha : ℚ
  output_max_rate : ℚ
  deriving DecidableEq, Repr

/-- The data fields of `struct PID` (the function pointers of the record hold
the functions below and are left out). -/
structure PID where
  mode_ : Nat
  features_ : Nat
  kp_ : ℚ
  ki_ : ℚ
  kd_ : ℚ
  max_out_ : ℚ
  integral_separation_ : ℚ
  dead_band_ : ℚ
  diff_filter_alpha_ : ℚ
  output_max_rate_ : ℚ
  ff_value_ : ℚ
  output_ : ℚ
  integral_ : ℚ
  prev_err_ : ℚ
  _filtered_diff_ : ℚ
  _prev_output_ : ℚ
  _prev_measurement_ : ℚ
  deriving DecidableEq, Repr

/-! ## `s_pid.c` -/

/-- The function-like macro `PID_ABS`. -/
def PID_ABS (x : ℚ) : ℚ := if x ≥ 0 then x else -x

/-- The function-like macro `PID_CLAMP`. -/
def PID_CLAMP (v lo hi : ℚ) : ℚ := if v > hi then hi else if v < lo then lo else v

/-- The function `_init`. -/
def _init (pid : PID) (mode features : Nat) : PID :=
  { pid with
    mode_ := mode
    features_ := features
    kp_ := 0
    ki_ := 0
    kd_ := 0
    max_out_ := 0
    integral_separation_ := 0
    dead_band_ := 0
    diff_filter_alpha_ := 0
    output_max_rate_ := 0
    ff_value_ := 0
    output_ := 0
    integral_ := 0
    prev_err_ := 0
    _filtered_diff_ := 0
    _prev_output_ := 0
    _prev_measurement_ := 0 }

/-- The function `_init_cfg`. -/
def _init_cfg (pid : PID) (cfg : pid_cfg_t) : PID :=
  { _init pid cfg.mode cfg.features with
    kp_ := cfg.kp
    ki_ := cfg.ki
    kd_ := cfg.kd
    max_out_ := cfg.max_out
    integral_separation_ := cfg.integral_separation
    dead_band_ := cfg.dead_band
    diff_filter_alpha_ := cfg.diff_filter_alpha
    output_max_rate_ := cfg.output_max_rate }

/-- The function `_set_gains`. -/
def _set_gains (pid : PID) (kp ki kd : ℚ) : PID :=
  { pid with kp_ := kp, ki_ := ki, kd_ := kd }

/-- The function `_set_params`. -/
def _set_params (pid : PID) (max_out integral_separation dead_band diff_filter_alpha
    output_max_rate : ℚ) : PID :=
  { pid with
    max_out_ := max_out
    integral_separation_ := integral_separation
    dead_band_ := dead_band
    diff_filter_alpha_ := diff_filter_alpha
    output_max_rate_ := output_max_rate }

/-- The function `_set_feedforward`. -/
def _set_feedforward (pid : PID) (ff_value : ℚ) : PID :=
  { pid with ff_value_ := ff_value }

/-- The function `_reset`. -/
def _reset (pid : PID) : PID :=
  { pid with
    output_ := 0
    integral_ := 0
    prev_err_ := 0
    _filtered_diff_ := 0
    _prev_output_ := 0
    _prev_measurement_ := 0 }

/-- What one run of `_calculate` computes: the values of its local variables at
the places the specification speaks of, and the controller it leaves.
`err` is the error after the deadband step, `integral_acc` the accumulator after
the accumulation step, `diff` the derivative value that is multiplied by `kd`,
`total_output` the unclamped sum, `clamped` the output after the output limit and
`out` the returned value. -/
structure CalcRun where
  err : ℚ
  integral_acc : ℚ
  diff : ℚ
  total_output : ℚ
  clamped : ℚ
  out : ℚ
  pid : PID
  deriving DecidableEq, Repr

/-- The body of `_calculate`, statement by statement. -/
def calculate_run (pid : PID) (target actual dt_s : ℚ) : CalcRun :=
  let err0 := target - actual
  let feat := pid.features_
  let mode := pid.mode_
  -- deadband
  let err := if has_bit feat PID_FEAT_DEADBAND ∧ PID_ABS err0 < pid.dead_band_ then 0 else err0
  let out0 : ℚ := 0
  -- proportional term
  let out1 := if has_bit mode PID_MODE_P then out0 + pid.kp_ * err else out0
  -- integral term
  let allow_integral : Bool :=
    if has_bit feat PID_FEAT_ANTI_WINDUP ∧
        ((pid._prev_output_ ≥ pid.max_out_ ∧ err > 0) ∨
          (pid._prev_output_ ≤ -pid.max_out_ ∧ err < 0)) then false
    else true
  let integral1 :=
    if has_bit mode PID_MODE_I ∧ allow_integral = true then
      pid.integral_ + (if dt_s > 0 then err * dt_s else err)
    else pid.integral_
  let allow_separation : Bool :=
    if has_bit feat PID_FEAT_INTEGRAL_SEP ∧ PID_ABS err > pid.integral_separation_ then true
    else false
  let out2 :=
    if has_bit mode PID_MODE_I ∧ allow_separation = false then out1 + pid.ki_ * integral1
    else out1
  -- derivative term
  let on_meas := has_bit feat PID_FEAT_DIFF_ON_MEAS
  let diff0 : ℚ :=
    if on_meas then (if dt_s > 0 then -(actual - pid._prev_measurement_) / dt_s else 0)
    else (if dt_s > 0 then (err - pid.prev_err_) / dt_s else 0)
  let prev_measurement1 :=
    if has_bit mode PID_MODE_D ∧ on_meas then actual else pid._prev_measurement_
  let prev_err1 := if has_bit mode PID_MODE_D ∧ ¬ on_meas then err else pid.prev_err_
  let diff :=
    if has_bit feat PID_FEAT_DIFF_FILTER then
      pid.diff_filter_alpha_ * diff0 + (1 - pid.diff_filter_alpha_) * pid._filtered_diff_
    else diff0
  let filtered_diff1 :=
    if has_bit mode PID_MODE_D ∧ has_bit feat PID_FEAT_DIFF_FILTER then diff
    else pid._filtered_diff_
  let out3 := if has_bit mode PID_MODE_D then out2 + pid.kd_ * diff else out2
  -- feedforward
  let out4 := if has_bit feat PID_FEAT_FEEDFORWARD then out3 + pid.ff_value_ else out3
  -- the unclamped output is kept for the back-calculation
  let total_output := out4
  -- output limit
  let out5 :=
    if has_bit feat PID_FEAT_OUTPUT_LIMIT then PID_CLAMP out4 (-pid.max_out_) pid.max_out_
    else out4
  -- output rate limit
  let max_change := pid.output_max_rate_ * dt_s
  let delta := out5 - pid._prev_output_
  let out6 :=
    if has_bit feat PID_FEAT_OUTPUT_RATE_LIMIT ∧ dt_s > 0 ∧ PID_ABS delta > max_change then
      pid._prev_output_ + (if delta > 0 then max_change else -max_change)
    else out5
  -- back-calculation
  let output_diff := total_output - out6
  let integral2 :=
    if (has_bit mode PID_MODE_I ∧ has_bit feat PID_FEAT_ANTI_WINDUP ∧
        has_bit feat PID_FEAT_OUTPUT_LIMIT) ∧
        (PID_ABS pid.kp_ > 1 / 1000000 ∧ PID_ABS pid.ki_ > 1 / 1000000) then
      integral1 - output_diff * (pid.ki_ / pid.kp_) * dt_s
    else integral1
  { err := err
    integral_acc := integral1
    diff := if has_bit mode PID_MODE_D then diff else 0
    total_output := total_output
    clamped := out5
    out := out6
    pid :=
      { pid with
        integral_ := integral2
        prev_err_ := prev_err1
        _filtered_diff_ := filtered_diff1
        _prev_measurement_ := prev_measurement1
        output_ := out6
        _prev_output_ := out6 } }

/-- The function `_calculate`: the returned output and the controller after the call. -/
def _calculate (pid : PID) (target actual dt_s : ℚ) : ℚ × PID :=
  ((calculate_run pid target actual dt_s).out, (calculate_run pid target actual dt_s).pid)

/-- The outputs of successive `_calculate` calls on the inputs
`(target, actual, dt_s)` of a list, each call starting from the controller the
previous one left. -/
def outputs (pid : PID) : List (ℚ × ℚ × ℚ) → List ℚ
  | [] => []
  | (target, actual, dt_s) :: rest =>
    (_calculate pid target actual dt_s).1 :: outputs (_calculate pid target actual dt_s).2 rest

/-- The controller of the specification's scenario: `_init` with mode PID and the
output limit, gains 0.8, 0.01, 0.5, and `max_out` 10. -/
def scenario_pid (pid : PID) : PID :=
  _set_params (_set_gains (_init pid PID_MODE_PID PID_FEAT_OUTPUT_LIMIT) (8 / 10) (1 / 100)
    (5 / 10)) 10 0 0 0 0

/-- A controller with every field zero, standing for the memory `_init` is given. -/
def blank_pid : PID :=
  { mode_ := 0, features_ := 0, kp_ := 0, ki_ := 0, kd_ := 0, max_out_ := 0,
    integral_separation_ := 0, dead_band_ := 0, diff_filter_alpha_ := 0,
    output_max_rate_ := 0, ff_value_ := 0, output_ := 0, integral_ := 0, prev_err_ := 0,
    _filtered_diff_ := 0, _prev_output_ := 0, _prev_measurement_ := 0 }

/-- The controller reached from `_init_cfg` (PI, output limit and anti-windup,
gains 1 and 1, `max_out` 10) by the two calls `_calculate(-100, 0, 1)` and
`_calculate(50, 0, 1)`: its previous output is saturated at `+max_out` and its
accumulator is -40. -/
def wound_pid : PID :=
  (_calculate (_calculate (_init_cfg blank_pid
      { mode := PID_MODE_PI, features := PID_FEAT_OUTPUT_LIMIT ||| PID_FEAT_ANTI_WINDUP,
        kp := 1, ki := 1, kd := 0, max_out := 10, integral_separation := 0, dead_band := 0,
        diff_filter_alpha := 0, output_max_rate := 0 }) (-100) 0 1).2 50 0 1).2

/-- A PI controller with output limit and anti-windup, gains 1 and 1, `max_out`
10, whose previous output is saturated at `+max_out` with accumulator 20. -/
def saturated_pid : PID :=
  { blank_pid with
    mode_ := PID_MODE_PI
    features_ := PID_FEAT_OUTPUT_LIMIT ||| PID_FEAT_ANTI_WINDUP
    kp_ := 1
    ki_ := 1
    max_out_ := 10
    integral_ := 20
    _prev_output_ := 10 }

/-! ## Fresh controllers -/

/-- The configuration record that carries the mode, features, gains and limits
of the controller `p`. -/
def cfg_of (p : PID) : pid_cfg_t :=
  { mode := p.mode_
    features := p.features_
    kp := p.kp_
    ki := p.ki_
    kd := p.kd_
    max_out := p.max_out_
    integral_separation := p.integral_separation_
    dead_band := p.dead_band_
    diff_filter_alpha := p.diff_filter_alpha_
    output_max_rate := p.output_max_rate_ }

/-- A freshly initialised controller, built in the memory `p0` by `_init`,
`_set_gains`, `_set_params` and `_set_feedforward`, that is given the mode,
features, gains, limits and feedforward value of `p`. -/
def fresh_like (p0 p : PID) : PID :=
  _set_feedforward
    (_set_params (_set_gains (_init p0 p.mode_ p.features_) p.kp_ p.ki_ p.kd_) p.max_out_
      p.integral_separation_ p.dead_band_ p.diff_filter_alpha_ p.output_max_rate_)
    p.ff_value_

/-- The same fresh controller built by `_init_cfg` and `_set_feedforward`. -/
def fresh_cfg_like (p0 p : PID) : PID :=
  _set_feedforward (_init_cfg p0 (cfg_of p)) p.ff_value_

/-- A PID controller with only the deadband feature, `dead_band` 2 and gains
1, 1, 1. -/
def deadband_pid : PID :=
  { blank_pid with
    mode_ := PID_MODE_PID
    features_ := PID_FEAT_DEADBAND
    kp_ := 1
    ki_ := 1
    kd_ := 1
    dead_band_ := 2 }

/-- What the control loop prints: the status line with the four values it
formats, and the completion acknowledgment `$LIFTER:OK#`. -/
inductive Printed where
  | status (target_position current_position : Int) (height_difference : ℚ) (error : Int)
  | lifter_ok
  deriving DecidableEq, Repr

/-- The variables of `main.c` that the loop body reads and writes, the two relay
pins `PB0` and `PB1` (`true` when set), and what has been printed so far.  The
`int` variables are integers: positions stay within the stroke of the lift, far
from the limits of `int`. -/
structure MainState where
  height_difference : ℚ
  current_position : Int
  target_position : Int
  current_speed : Int
  rcvd_flag : Nat
  lift : Int
  tim3_flag : Nat
  pb0 : Bool
  pb1 : Bool
  printed : List Printed
  deriving DecidableEq, Repr

/-- The conversion `(int)x` of a `float` value: truncation towards zero. -/
def c_int (x : ℚ) : Int := if 0 ≤ x then Rat.floor x else -Rat.floor (-x)

/-- The relay pins for going up: `GPIO_ResetBits(GPIOB, GPIO_Pin_1)` and
`GPIO_SetBits(GPIOB, GPIO_Pin_0)`. -/
def drive_up (s : MainState) : MainState := { s with pb1 := false, pb0 := true }

/-- The relay pins for going down: `GPIO_SetBits(GPIOB, GPIO_Pin_1)` and
`GPIO_ResetBits(GPIOB, GPIO_Pin_0)`. -/
def drive_down (s : MainState) : MainState := { s with pb1 := true, pb0 := false }

/-- The relay pins for stopping: both pins set. -/
def drive_stop (s : MainState) : MainState := { s with pb0 := true, pb1 := true }

/-- One pass through the body of the `while (1)` loop of `main`, the encoder
delivering `position` and `speed` to `Encoder_CalcPositionAndSpeed`. -/
def main_loop_body (position speed : Int) (s : MainState) : MainState :=
  if s.tim3_flag ≠ 0 then
    let s1 : MainState := { s with current_position := position, current_speed := speed }
    let s2 : MainState :=
      if s1.rcvd_flag = 1 then
        { s1 with
          target_position := s1.current_position + c_int s1.height_difference
          rcvd_flag := 0 }
      else s1
    let s3 : MainState :=
      if s2.height_difference ≠ 0 then
        let error := s2.target_position - s2.current_position
        let s2p : MainState :=
          { s2 with
            printed := s2.printed ++
              [Printed.status s2.target_position s2.current_position s2.height_difference
                error] }
        if |error| > 0 then
          if error > 5 then drive_up s2p
          else if error < -5 then drive_down s2p
          else s2p
        else
          let s2s := drive_stop s2p
          { s2s with printed := s2s.printed ++ [Printed.lifter_ok], height_difference := 0 }
      else s2
    let s4 : MainState :=
      if s3.lift = 1 then drive_up s3
      else if s3.lift = -1 then drive_down s3
      else s3
    { s4 with tim3_flag := 0 }
  else s

/-- The loop on a tick while the lift goes up towards the target 103 with a
height adjustment of 10 pending and no manual command. -/
def climbing_state : MainState :=
  { height_difference := 10, current_position := 90, target_position := 103,
    current_speed := 0, rcvd_flag := 0, lift := 0, tim3_flag := 1, pb0 := true, pb1 := false,
    printed := [] }

/-! ## `s_pid.c`: further controllers and masks -/

/-- The feature mask with one flag cleared: the C expression `features & ~flag`
on `uint8_t` masks. -/
def clear_feature (features flag : Nat) : Nat := features &&& (PID_FEAT_ALL ^^^ flag)

/-- A fresh PI controller with output limit, anti-windup and integral
separation: gains 1 and 1, `max_out` 10, separation threshold 5. -/
def separated_pid : PID :=
  _init_cfg blank_pid
    { mode := PID_MODE_PI
      features := PID_FEAT_OUTPUT_LIMIT ||| PID_FEAT_ANTI_WINDUP ||| PID_FEAT_INTEGRAL_SEP
      kp := 1, ki := 1, kd := 0, max_out := 10, integral_separation := 5, dead_band := 0,
      diff_filter_alpha := 0, output_max_rate := 0 }

/-- A PD controller with derivative on measurement and output-rate limiting:
gains 1 and 1, rate 2, previous measurement 3. -/
def meas_pid : PID :=
  { blank_pid with
    mode_ := PID_MODE_PD
    features_ := PID_FEAT_DIFF_ON_MEAS ||| PID_FEAT_OUTPUT_RATE_LIMIT
    kp_ := 1
    kd_ := 1
    output_max_rate_ := 2
    _prev_measurement_ := 3 }

/-- The derivative value `_calculate` multiplies by `kd` when D is active, as a
function of the error `err` of the call: the difference quotient on the
measurement or on the error, passed through the one-pole filter when that is
enabled. -/
def derivative_value (p : PID) (err actual dt_s : ℚ) : ℚ :=
  if has_bit p.features_ PID_FEAT_DIFF_FILTER then
    p.diff_filter_alpha_ *
        (if has_bit p.features_ PID_FEAT_DIFF_ON_MEAS then
          (if dt_s > 0 then -(actual - p._prev_measurement_) / dt_s else 0)
        else (if dt_s > 0 then (err - p.prev_err_) / dt_s else 0)) +
      (1 - p.diff_filter_alpha_) * p._filtered_diff_
  else
    (if has_bit p.features_ PID_FEAT_DIFF_ON_MEAS then
      (if dt_s > 0 then -(actual - p._prev_measurement_) / dt_s else 0)
    else (if dt_s > 0 then (err - p.prev_err_) / dt_s else 0))

/-! ## `UART.c`: the serial receive handler -/

/-- Size of the receive buffer (`#define RX_BUFFER_SIZE 50`). -/
def RX_BUFFER_SIZE : Nat := 50

/-- What the receive handler prints. -/
inductive Said where
  | lift_up
  | lift_down
  | lift_stop
  | recv_lifter (height_difference : ℚ)
  | target_pos (target_position : Int)
  deriving DecidableEq, Repr

/-- The variables the receive handler works on: its own (`cmd_flag`, the three
bytes of `buffer`, `rx_buffer`, `rx_index`, `frame_received`), the variables of
`main.c` it writes (`lift`, `target_position`, `height_difference`, `rcvd_flag`),
and what it has printed so far.  Bytes and `uint8_t` values are natural numbers
below 256. -/
structure Receiver where
  cmd_flag : Nat
  buffer0 : Nat
  buffer1 : Nat
  buffer2 : Nat
  rx_buffer : List Nat
  rx_index : Nat
  frame_received : Nat
  lift : Int
  target_position : Int
  height_difference : ℚ
  rcvd_flag : Nat
  said : List Said
  deriving DecidableEq, Repr

/-- The bytes of the string `"$LIFTER:"`. -/
def lifter_prefix : List Nat := [0x24, 0x4C, 0x49, 0x46, 0x54, 0x45, 0x52, 0x3A]

/-- The first part of the handler: the bytes `0x01`, `0x02` and `0x00` set the
jog intent `lift`. -/
def jog_step (command : Nat) (s : Receiver) : Receiver :=
  if command = 0x01 then { s with lift := 1, said := s.said ++ [Said.lift_up] }
  else if command = 0x02 then { s with lift := -1, said := s.said ++ [Said.lift_down] }
  else if command = 0x00 then { s with lift := 0, said := s.said ++ [Said.lift_stop] }
  else s

/-- The second part of the handler: the text frame `$LIFTER:<float>#`.  The
library function `atof` is a parameter; it is given the bytes after the prefix up
to the first `#` (or the terminating zero). -/
def rx_step (atof : List Nat → ℚ) (command : Nat) (s : Receiver) : Receiver :=
  let s1 : Receiver :=
    if command = 0x24 then { s with rx_index := 0, rx_buffer := List.replicate RX_BUFFER_SIZE 0 }
    else s
  let s2 : Receiver :=
    if s1.rx_index < RX_BUFFER_SIZE - 1 then
      { s1 with
        rx_buffer := s1.rx_buffer.set s1.rx_index command
        rx_index := (s1.rx_index + 1) % 256 }
    else s1
  let s3 : Receiver := if command = 0x23 then { s2 with frame_received := 1 } else s2
  if s3.frame_received ≠ 0 then
    let s4 : Receiver := { s3 with frame_received := 0 }
    let s5 : Receiver :=
      if s4.rx_buffer.take 8 = lifter_prefix then
        let text := ((s4.rx_buffer.drop 8).takeWhile (fun b => b ≠ 0)).takeWhile
          (fun b => b ≠ 0x23)
        { s4 with
          height_difference := atof text
          rcvd_flag := 1
          said := s4.said ++ [Said.recv_lifter (atof text)] }
      else s4
    { s5 with rx_buffer := List.replicate RX_BUFFER_SIZE 0, rx_index := 0 }
  else s3

/-- The third part of the handler: the frame `0x0F b0 b1 b2 0x1F` of the absolute
target position. -/
def cmd_step (command : Nat) (s : Receiver) : Receiver :=
  if s.cmd_flag = 0 ∧ command = 0x0F then { s with cmd_flag := 1 }
  else if s.cmd_flag = 1 then { s with buffer0 := command, cmd_flag := 2 }
  else if s.cmd_flag = 2 then { s with buffer1 := command, cmd_flag := 3 }
  else if s.cmd_flag = 3 then { s with buffer2 := command, cmd_flag := 4 }
  else if s.cmd_flag = 4 ∧ command = 0x1F then
    { s with
      target_position := ((s.buffer0 * 100 + s.buffer1 * 10 + s.buffer2 : Nat) : Int)
      said := s.said ++
        [Said.target_pos ((s.buffer0 * 100 + s.buffer1 * 10 + s.buffer2 : Nat) : Int)]
      cmd_flag := 0 }
  else s

/-- The function `USART1_IRQHandler` on a received data word (the interrupt
status `RXNE` being set): `command` is its low byte. -/
def USART1_IRQHandler (atof : List Nat → ℚ) (data : Nat) (s : Receiver) : Receiver :=
  let command := data % 256
  cmd_step command (rx_step atof command (jog_step command s))

/-- The handler run on the bytes of a list, one interrupt per byte. -/
def receive (atof : List Nat → ℚ) : List Nat → Receiver → Receiver
  | [], s => s
  | b :: rest, s => receive atof rest (USART1_IRQHandler atof b s)

/-- The jog intent after a byte, as the first part of the handler sets it. -/
def jog_of (command : Nat) (lift : Int) : Int :=
  if command = 0x01 then 1 else if command = 0x02 then -1 else if command = 0x00 then 0
  else lift

/-- A receiver at rest: nothing received, jog intent 0, target 0. -/
def idle_receiver : Receiver :=
  { cmd_flag := 0, buffer0 := 0, buffer1 := 0, buffer2 := 0,
    rx_buffer := List.replicate RX_BUFFER_SIZE 0, rx_index := 0, frame_received := 0,
    lift := 0, target_position := 0, height_difference := 0, rcvd_flag := 0, said := [] }

/-- A stand-in for `atof` that reads every text as 0. -/
def atof_zero (_ : List Nat) : ℚ := 0

/-! ## `sysTick.c` and `dwt.c`: timeouts on 32-bit counters -/

/-- Subtraction of two `uint32_t` values: the difference modulo `2 ^ 32`. -/
def u32_sub (a b : Nat) : Nat := (a + 2 ^ 32 - b) % 2 ^ 32

/-- Addition of two `uint32_t` values: the sum modulo `2 ^ 32`. -/
def u32_add (a b : Nat) : Nat := (a + b) % 2 ^ 32

/-- The function `systick_is_timeout(start, timeout_ms)`, with `now` the value it
reads from `_ms`. -/
def systick_is_timeout (now start timeout_ms : Nat) : Bool :=
  if now ≥ start then
    if u32_sub now start ≥ timeout_ms then true else false
  else
    if u32_add (u32_add (u32_sub 0xFFFFFFFF start) now) 1 ≥ timeout_ms then true else false

/-- The function `dwt_is_timeout(start, timeout_us)`, with `now` the value
`dwt_get_us()` returns; `us_t` is `uint32_t` like `ms_t` (`s_delay.h`). -/
def dwt_is_timeout (now start timeout_us : Nat) : Bool :=
  if now ≥ start then
    if u32_sub now start ≥ timeout_us then true else false
  else
    if u32_add (u32_add (u32_sub 0xFFFFFFFF start) now) 1 ≥ timeout_us then true else false

/-! ## `main.c`: what the main program and the interrupts do to the machine -/

/-- One thing that happens to the machine from outside a callback: a call of
`a_fsm_trigger_event(e)`, a call of `a_fsm_process()`, or an interrupt handler
writing the variables the callbacks read. -/
inductive Step where
  | trigger (e : event_e)
  | process
  | interrupt (f : World → World)

/-- The machine after a sequence of steps, oldest first; `fuel` is the fuel of
each `a_fsm_process()`. -/
def run_steps (B : Board) (fuel : Nat) : List Step → Fsm World → Except Fault (Fsm World)
  | [], m => .ok m
  | Step.trigger e :: rest, m => run_steps B fuel rest (Fsm.trigger e m)
  | Step.process :: rest, m =>
    match a_fsm_process (machine B) fuel m with
    | .ok m1 => run_steps B fuel rest m1
    | .error f => .error f
  | Step.interrupt f :: rest, m =>
    run_steps B fuel rest { m with globals := { m.globals with world := f m.globals.world } }

/-! ## `s_pid.c`: controllers for the mode and anti-windup comparisons -/

/-- The mode mask with one mode bit cleared: the C expression `mode & ~flag` on
`uint8_t` masks. -/
def clear_mode (mode flag : Nat) : Nat := mode &&& (0xFF ^^^ flag)

/-- A fresh PD controller with the derivative filter: gains 1 and 1, filter
coefficient 1/2. -/
def filter_pid : PID :=
  _init_cfg blank_pid
    { mode := PID_MODE_PD
      features := PID_FEAT_DIFF_FILTER
      kp := 1, ki := 0, kd := 1, max_out := 0, integral_separation := 0, dead_band := 0,
      diff_filter_alpha := 1 / 2, output_max_rate := 0 }

/-- A fresh PI controller with anti-windup but without the output limit: gains 1
and 1, `max_out` left at 0. -/
def aw_only_pid : PID :=
  _init_cfg blank_pid
    { mode := PID_MODE_PI
      features := PID_FEAT_ANTI_WINDUP
      kp := 1, ki := 1, kd := 0, max_out := 0, integral_separation := 0, dead_band := 0,
      diff_filter_alpha := 0, output_max_rate := 0 }

/-! ## `s_pid.c` over floating-point values: NaN and rounding -/

/-- A value of type `float`: a number or NaN.  Overflow to an infinity is not
modelled: a number is any rational the rounding function returns. -/
inductive Flt where
  | nan
  | num (q : ℚ)
  deriving DecidableEq, Repr

/-- The float sum `a + b`: the rounded sum of two numbers, NaN if either is. -/
def fadd (rnd : ℚ → ℚ) : Flt → Flt → Flt
  | Flt.num a, Flt.num b => Flt.num (rnd (a + b))
  | _, _ => Flt.nan

/-- The float difference `a - b`. -/
def fsub (rnd : ℚ → ℚ) : Flt → Flt → Flt
  | Flt.num a, Flt.num b => Flt.num (rnd (a - b))
  | _, _ => Flt.nan

/-- The float product `a * b`. -/
def fmul (rnd : ℚ → ℚ) : Flt → Flt → Flt
  | Flt.num a, Flt.num b => Flt.num (rnd (a * b))
  | _, _ => Flt.nan

/-- The float quotient `a / b`.  A quotient by zero, an infinity or NaN in C, is
NaN here; `_calculate` divides only under the guards `dt_s > 0` and
`|kp| > 1e-6`. -/
def fdiv (rnd : ℚ → ℚ) : Flt → Flt → Flt
  | Flt.num a, Flt.num b => if b = 0 then Flt.nan else Flt.num (rnd (a / b))
  | _, _ => Flt.nan

/-- The float negation `-a`, which is exact. -/
def fneg : Flt → Flt
  | Flt.num a => Flt.num (-a)
  | Flt.nan => Flt.nan

/-- The comparison `a > b` of floats: false when either is NaN. -/
def fgt : Flt → Flt → Bool
  | Flt.num a, Flt.num b => decide (a > b)
  | _, _ => false

/-- The comparison `a < b` of floats: false when either is NaN. -/
def flt : Flt → Flt → Bool
  | Flt.num a, Flt.num b => decide (a < b)
  | _, _ => false

/-- The comparison `a >= b` of floats: false when either is NaN. -/
def fge : Flt → Flt → Bool
  | Flt.num a, Flt.num b => decide (a ≥ b)
  | _, _ => false

/-- The comparison `a <= b` of floats: false when either is NaN. -/
def fle : Flt → Flt → Bool
  | Flt.num a, Flt.num b => decide (a ≤ b)
  | _, _ => false

/-- The macro `PID_ABS(x)`, `((x) >= 0.0f ? (x) : -(x))`, on floats. -/
def PID_ABS_f (x : Flt) : Flt := if fge x (Flt.num 0) = true then x else fneg x

/-- The macro `PID_CLAMP(v, lo, hi)`,
`((v) > (hi) ? (hi) : ((v) < (lo) ? (lo) : (v)))`, on floats: both comparisons
are false for a NaN `v`, which is returned. -/
def PID_CLAMP_f (v lo hi : Flt) : Flt :=
  if fgt v hi = true then hi else if flt v lo = true then lo else v

/-- The record `pid_cfg_t` with float fields. -/
structure pid_cfg_f where
  mode : Nat
  features : Nat
  kp : Flt
  ki : Flt
  kd : Flt
  max_out : Flt
  integral_separation : Flt
  dead_band : Flt
  diff_filter_alpha : Flt
  output_max_rate : Flt
  deriving DecidableEq, Repr

/-- The data fields of `struct PID` with float fields. -/
structure PIDf where
  mode_ : Nat
  features_ : Nat
  kp_ : Flt
  ki_ : Flt
  kd_ : Flt
  max_out_ : Flt
  integral_separation_ : Flt
  dead_band_ : Flt
  diff_filter_alpha_ : Flt
  output_max_rate_ : Flt
  ff_value_ : Flt
  output_ : Flt
  integral_ : Flt
  prev_err_ : Flt
  _filtered_diff_ : Flt
  _prev_output_ : Flt
  _prev_measurement_ : Flt
  deriving DecidableEq, Repr

/-- The function `_init` on the float record. -/
def _init_f (pid : PIDf) (mode features : Nat) : PIDf :=
  { pid with
    mode_ := mode
    features_ := features
    kp_ := Flt.num 0
    ki_ := Flt.num 0
    kd_ := Flt.num 0
    max_out_ := Flt.num 0
    integral_separation_ := Flt.num 0
    dead_band_ := Flt.num 0
    diff_filter_alpha_ := Flt.num 0
    output_max_rate_ := Flt.num 0
    ff_value_ := Flt.num 0
    output_ := Flt.num 0
    integral_ := Flt.num 0
    prev_err_ := Flt.num 0
    _filtered_diff_ := Flt.num 0
    _prev_output_ := Flt.num 0
    _prev_measurement_ := Flt.num 0 }

/-- The function `_init_cfg` on the float record. -/
def _init_cfg_f (pid : PIDf) (cfg : pid_cfg_f) : PIDf :=
  { _init_f pid cfg.mode cfg.features with
    kp_ := cfg.kp
    ki_ := cfg.ki
    kd_ := cfg.kd
    max_out_ := cfg.max_out
    integral_separation_ := cfg.integral_separation
    dead_band_ := cfg.dead_band
    diff_filter_alpha_ := cfg.diff_filter_alpha
    output_max_rate_ := cfg.output_max_rate }

/-- The function `_reset` on the float record. -/
def _reset_f (pid : PIDf) : PIDf :=
  { pid with
    output_ := Flt.num 0
    integral_ := Flt.num 0
    prev_err_ := Flt.num 0
    _filtered_diff_ := Flt.num 0
    _prev_output_ := Flt.num 0
    _prev_measurement_ := Flt.num 0 }

/-- The values a run of `_calculate` on floats passes through. -/
structure CalcRunF where
  err : Flt
  integral_acc : Flt
  diff : Flt
  total_output : Flt
  clamped : Flt
  out : Flt
  pid : PIDf
  deriving DecidableEq, Repr

/-- The body of `_calculate` on floats, statement by statement; `rnd` rounds the
exact result of an arithmetic operation to a float. -/
def calculate_run_f (rnd : ℚ → ℚ) (pid : PIDf) (target actual dt_s : Flt) : CalcRunF :=
  let err0 := fsub rnd target actual
  let feat := pid.features_
  let mode := pid.mode_
  -- deadband
  let err :=
    if has_bit feat PID_FEAT_DEADBAND ∧ flt (PID_ABS_f err0) pid.dead_band_ = true then Flt.num 0
    else err0
  let out0 : Flt := Flt.num 0
  -- proportional term
  let out1 := if has_bit mode PID_MODE_P then fadd rnd out0 (fmul rnd pid.kp_ err) else out0
  -- integral term
  let allow_integral : Bool :=
    if has_bit feat PID_FEAT_ANTI_WINDUP ∧
        ((fge pid._prev_output_ pid.max_out_ = true ∧ fgt err (Flt.num 0) = true) ∨
          (fle pid._prev_output_ (fneg pid.max_out_) = true ∧ flt err (Flt.num 0) = true)) then
      false
    else true
  let integral1 :=
    if has_bit mode PID_MODE_I ∧ allow_integral = true then
      fadd rnd pid.integral_ (if fgt dt_s (Flt.num 0) = true then fmul rnd err dt_s else err)
    else pid.integral_
  let allow_separation : Bool :=
    if has_bit feat PID_FEAT_INTEGRAL_SEP ∧
        fgt (PID_ABS_f err) pid.integral_separation_ = true then true
    else false
  let out2 :=
    if has_bit mode PID_MODE_I ∧ allow_separation = false then
      fadd rnd out1 (fmul rnd pid.ki_ integral1)
    else out1
  -- derivative term
  let on_meas := has_bit feat PID_FEAT_DIFF_ON_MEAS
  let diff0 : Flt :=
    if on_meas then
      (if fgt dt_s (Flt.num 0) = true then
        fdiv rnd (fneg (fsub rnd actual pid._prev_measurement_)) dt_s
      else Flt.num 0)
    else
      (if fgt dt_s (Flt.num 0) = true then fdiv rnd (fsub rnd err pid.prev_err_) dt_s
      else Flt.num 0)
  let prev_measurement1 :=
    if has_bit mode PID_MODE_D ∧ on_meas then actual else pid._prev_measurement_
  let prev_err1 := if has_bit mode PID_MODE_D ∧ ¬ on_meas then err else pid.prev_err_
  let diff :=
    if has_bit feat PID_FEAT_DIFF_FILTER then
      fadd rnd (fmul rnd pid.diff_filter_alpha_ diff0)
        (fmul rnd (fsub rnd (Flt.num 1) pid.diff_filter_alpha_) pid._filtered_diff_)
    else diff0
  let filtered_diff1 :=
    if has_bit mode PID_MODE_D ∧ has_bit feat PID_FEAT_DIFF_FILTER then diff
    else pid._filtered_diff_
  let out3 := if has_bit mode PID_MODE_D then fadd rnd out2 (fmul rnd pid.kd_ diff) else out2
  -- feedforward
  let out4 := if has_bit feat PID_FEAT_FEEDFORWARD then fadd rnd out3 pid.ff_value_ else out3
  -- the unclamped output is kept for the back-calculation
  let total_output := out4
  -- output limit
  let out5 :=
    if has_bit feat PID_FEAT_OUTPUT_LIMIT then
      PID_CLAMP_f out4 (fneg pid.max_out_) pid.max_out_
    else out4
  -- output rate limit
  let max_change := fmul rnd pid.output_max_rate_ dt_s
  let delta := fsub rnd out5 pid._prev_output_
  let out6 :=
    if has_bit feat PID_FEAT_OUTPUT_RATE_LIMIT ∧ fgt dt_s (Flt.num 0) = true ∧
        fgt (PID_ABS_f delta) max_change = true then
      fadd rnd pid._prev_output_
        (if fgt delta (Flt.num 0) = true then max_change else fneg max_change)
    else out5
  -- back-calculation
  let output_diff := fsub rnd total_output out6
  let integral2 :=
    if (has_bit mode PID_MODE_I ∧ has_bit feat PID_FEAT_ANTI_WINDUP ∧
        has_bit feat PID_FEAT_OUTPUT_LIMIT) ∧
        (fgt (PID_ABS_f pid.kp_) (Flt.num (rnd (1 / 1000000))) = true ∧
          fgt (PID_ABS_f pid.ki_) (Flt.num (rnd (1 / 1000000))) = true) then
      fsub rnd integral1 (fmul rnd (fmul rnd output_diff (fdiv rnd pid.ki_ pid.kp_)) dt_s)
    else integral1
  { err := err
    integral_acc := integral1
    diff := if has_bit mode PID_MODE_D then diff else Flt.num 0
    total_output := total_output
    clamped := out5
    out := out6
    pid :=
      { pid with
        integral_ := integral2
        prev_err_ := prev_err1
        _filtered_diff_ := filtered_diff1
        _prev_measurement_ := prev_measurement1
        output_ := out6
        _prev_output_ := out6 } }

/-- The function `_calculate` on floats: the returned output and the controller
after the call. -/
def _calculate_f (rnd : ℚ → ℚ) (pid : PIDf) (target actual dt_s : Flt) : Flt × PIDf :=
  ((calculate_run_f rnd pid target actual dt_s).out,
    (calculate_run_f rnd pid target actual dt_s).pid)

/-- The outputs of successive `_calculate` calls on floats. -/
def outputs_f (rnd : ℚ → ℚ) (pid : PIDf) : List (Flt × Flt × Flt) → List Flt
  | [] => []
  | (t, a, dt) :: rest =>
    (_calculate_f rnd pid t a dt).1 :: outputs_f rnd (_calculate_f rnd pid t a dt).2 rest

/-- The float record whose fields are the numbers of the exact record `p`. -/
def PID.toF (p : PID) : PIDf :=
  { mode_ := p.mode_
    features_ := p.features_
    kp_ := Flt.num p.kp_
    ki_ := Flt.num p.ki_
    kd_ := Flt.num p.kd_
    max_out_ := Flt.num p.max_out_
    integral_separation_ := Flt.num p.integral_separation_
    dead_band_ := Flt.num p.dead_band_
    diff_filter_alpha_ := Flt.num p.diff_filter_alpha_
    output_max_rate_ := Flt.num p.output_max_rate_
    ff_value_ := Flt.num p.ff_value_
    output_ := Flt.num p.output_
    integral_ := Flt.num p.integral_
    prev_err_ := Flt.num p.prev_err_
    _filtered_diff_ := Flt.num p._filtered_diff_
    _prev_output_ := Flt.num p._prev_output_
    _prev_measurement_ := Flt.num p._prev_measurement_ }

/-- The multiple of `u` nearest to `x`, the even multiple on a tie. -/
def round_to (u x : ℚ) : ℚ :=
  let f : Int := Rat.floor (x / u)
  let r : ℚ := x / u - f
  if r < 1 / 2 then f * u
  else if r > 1 / 2 then (f + 1) * u
  else if f % 2 = 0 then f * u
  else (f + 1) * u

/-- The spacing of binary32 floats around `x ≥ 2^24`: `u` is doubled until
`x < 2^24 * u` (at most `fuel` times). -/
def ulp_up : Nat → ℚ → ℚ → ℚ
  | 0, _, u => u
  | fuel + 1, x, u => if x ≥ 2 ^ 24 * u then ulp_up fuel x (2 * u) else u

/-- The spacing of binary32 floats around `x < 2^24`: `u` is halved until
`2^23 * u ≤ x` (at most `fuel` times, which stops at the subnormal spacing). -/
def ulp_down : Nat → ℚ → ℚ → ℚ
  | 0, _, u => u
  | fuel + 1, x, u => if x < 2 ^ 23 * u then ulp_down fuel x (u / 2) else u

/-- The spacing of binary32 floats around `x`: `2^(e-23)` for
`2^e ≤ |x| < 2^(e+1)`, and `2^(-149)` below the smallest normal number. -/
def ulp32 (x : ℚ) : ℚ :=
  if |x| ≥ 2 ^ 24 then ulp_up 104 |x| 1 else ulp_down 149 |x| 1

/-- Rounding to binary32, to nearest with ties to even (without the overflow to
infinity beyond the largest float). -/
def round32 (x : ℚ) : ℚ := if x = 0 then 0 else round_to (ulp32 x) x

/-- The values of a run of the exact model as floats. -/
def CalcRun.toF (r : CalcRun) : CalcRunF :=
  { err := Flt.num r.err
    integral_acc := Flt.num r.integral_acc
    diff := Flt.num r.diff
    total_output := Flt.num r.total_output
    clamped := Flt.num r.clamped
    out := Flt.num r.out
    pid := r.pid.toF }

/-- The float `x` is NaN or a number in `[-m, m]`. -/
def within (m : ℚ) : Flt → Prop
  | Flt.nan => True
  | Flt.num x => -m ≤ x ∧ x ≤ m

/-- A fresh P controller on floats with the output limit: gain 1, `max_out` 10. -/
def limited_pid_f : PIDf :=
  _init_cfg_f blank_pid.toF
    { mode := PID_MODE_P
      features := PID_FEAT_OUTPUT_LIMIT
      kp := Flt.num 1, ki := Flt.num 0, kd := Flt.num 0, max_out := Flt.num 10,
      integral_separation := Flt.num 0, dead_band := Flt.num 0,
      diff_filter_alpha := Flt.num 0, output_max_rate := Flt.num 0 }

/-- The saturated PI controller with a negative `max_out`: `max_out` and the
previous output are -1, the accumulator is -20. -/
def neg_max_pid : PID :=
  { saturated_pid with max_out_ := -1, integral_ := -20, _prev_output_ := -1 }

/-- The saturated PI controller with output-rate limiting and a negative rate. -/
def neg_rate_pid : PID :=
  { saturated_pid with
    features_ := PID_FEAT_OUTPUT_LIMIT ||| PID_FEAT_ANTI_WINDUP ||| PID_FEAT_OUTPUT_RATE_LIMIT
    output_max_rate_ := -1 }

/-- The saturated PI controller on floats whose `kp` is NaN. -/
def nan_gain_pid_f : PIDf := { saturated_pid.toF with kp_ := Flt.nan }

/-- A P controller on floats with output-rate limiting: gain 1, rate 5, previous
output `1e8` (a binary32 float, where the spacing of floats is 8). -/
def coarse_pid_f : PIDf :=
  { blank_pid.toF with
    mode_ := PID_MODE_P
    features_ := PID_FEAT_OUTPUT_RATE_LIMIT
    kp_ := Flt.num 1
    output_max_rate_ := Flt.num 5
    _prev_output_ := Flt.num 100000000 }

/-! ## Chains -/

section Chains

variable {W : Type}

theorem isChain_none {F : Forest W} {l : List Nat} :
    isChain F none l = true ↔ l = [] := by
  cases l <;> simp [isChain]

theorem isChain_some {F : Forest W} {s : Nat} {l : List Nat} :
    isChain F (some s) l = true ↔
      ∃ t, l = s :: t ∧ isChain F (F s)._parent_ t = true := by
  cases l with
  | nil => simp [isChain]
  | cons x t =>
    simp only [isChain, Bool.and_eq_true, decide_eq_true_eq, List.cons.injEq]
    constructor
    · rintro ⟨rfl, h⟩
      exact ⟨t, ⟨rfl, rfl⟩, h⟩
    · rintro ⟨t1, ⟨rfl, rfl⟩, h⟩
      exact ⟨rfl, h⟩

theorem isChain_cons {F : Forest W} {s x : Nat} {t : List Nat} :
    isChain F (some s) (x :: t) = true ↔ s = x ∧ isChain F (F x)._parent_ t = true := by
  simp [isChain]

theorem isChain_headPtr {F : Forest W} {p : StatePtr} {l : List Nat}
    (h : isChain F p l = true) : headPtr l = p := by
  cases p with
  | none => rw [isChain_none.1 h]; rfl
  | some s =>
    obtain ⟨t, rfl, -⟩ := isChain_some.1 h
    rfl

theorem isChain_unique {F : Forest W} {p : StatePtr} {l1 l2 : List Nat}
    (h1 : isChain F p l1 = true) (h2 : isChain F p l2 = true) : l1 = l2 := by
  induction l1 generalizing p l2 with
  | nil =>
    cases p with
    | none => exact (isChain_none.1 h2).symm
    | some s => simp [isChain] at h1
  | cons x t ih =>
    cases p with
    | none => simp [isChain] at h1
    | some s =>
      obtain ⟨rfl, h1t⟩ := isChain_cons.1 h1
      obtain ⟨t2, rfl, h2t⟩ := isChain_some.1 h2
      rw [ih h1t h2t]

theorem isChain_append {F : Forest W} {p : StatePtr} {a b : List Nat}
    (h : isChain F p (a ++ b) = true) : isChain F (headPtr b) b = true := by
  induction a generalizing p with
  | nil =>
    have hp := isChain_headPtr h
    simp only [List.nil_append] at hp h
    rw [hp]; exact h
  | cons x t ih =>
    cases p with
    | none => simp [isChain] at h
    | some s =>
      rw [List.cons_append] at h
      exact ih (isChain_cons.1 h).2

theorem isChain_mem {F : Forest W} {p : StatePtr} {l : List Nat}
    (h : isChain F p l = true) {x : Nat} (hx : x ∈ l) :
    ∃ a b, l = a ++ x :: b ∧ isChain F (some x) (x :: b) = true := by
  obtain ⟨a, b, rfl⟩ := List.append_of_mem hx
  exact ⟨a, b, rfl, isChain_append h⟩

end Chains

/-! ## The loops of the engine on a chain -/

section Loops

variable {W : Type}

theorem invoke_all_append (c : Nat → Call) (f : State W → Option (Globals W → Globals W))
    (F : Forest W) (a b : List Nat) (m : Fsm W) :
    invoke_all c f F (a ++ b) m = invoke_all c f F b (invoke_all c f F a m) := by
  induction a generalizing m with
  | nil => rfl
  | cons x t ih => simp [invoke_all, ih]

theorem invoke_all_log (c : Nat → Call) (f : State W → Option (Globals W → Globals W))
    (F : Forest W) (l : List Nat) (m : Fsm W) :
    (invoke_all c f F l m).log = m.log ++ calls_of c f F l := by
  induction l generalizing m with
  | nil => simp [invoke_all, calls_of]
  | cons x t ih =>
    rw [invoke_all, ih]
    cases hx : f (F x) <;> simp [Fsm.invoke, calls_of, List.filter_cons, hx]

theorem invoke_all_cur_state (c : Nat → Call) (f : State W → Option (Globals W → Globals W))
    (F : Forest W) (l : List Nat) (m : Fsm W) :
    (invoke_all c f F l m).cur_state = m.cur_state := by
  induction l generalizing m with
  | nil => rfl
  | cons x t ih =>
    rw [invoke_all, ih]
    cases hx : f (F x) <;> simp [Fsm.invoke]

theorem invoke_all_globals (c : Nat → Call) (f : State W → Option (Globals W → Globals W))
    (F : Forest W) (l : List Nat) (m : Fsm W) :
    (invoke_all c f F l m).globals = apply_all f F l m.globals := by
  induction l generalizing m with
  | nil => rfl
  | cons x t ih =>
    rw [invoke_all, ih, apply_all]
    cases hx : f (F x) <;> simp [Fsm.invoke]

theorem enter_run_eq (F : Forest W) (l : List Nat) (m : Fsm W) :
    enter_run F l m = invoke_all Call.entry State.entry F l m := by
  induction l generalizing m with
  | nil => rfl
  | cons x t ih => simp [enter_run, invoke_all, ih]

theorem execute_action_chain {F : Forest W} {p : StatePtr} {l : List Nat}
    (h : isChain F p l = true) {fuel : Nat} (hf : l.length < fuel) (m : Fsm W) :
    execute_action F fuel p m = .ok (invoke_all Call.action State.action F l m) := by
  induction l generalizing p fuel m with
  | nil =>
    cases p with
    | none =>
      cases fuel with
      | zero => simp at hf
      | succ n => rfl
    | some s => simp [isChain] at h
  | cons x t ih =>
    cases p with
    | none => simp [isChain] at h
    | some s =>
      obtain ⟨rfl, ht⟩ := isChain_cons.1 h
      cases fuel with
      | zero => simp at hf
      | succ n =>
        simp only [List.length_cons, Nat.add_lt_add_iff_right] at hf
        rw [execute_action, ih ht hf, invoke_all]

theorem depth_loop_chain {F : Forest W} {p : StatePtr} {l : List Nat}
    (h : isChain F p l = true) {fuel : Nat} (hf : l.length < fuel) (d : Nat) :
    depth_loop F fuel p d = .ok (d + l.length) := by
  induction l generalizing p fuel d with
  | nil =>
    cases p with
    | none =>
      cases fuel with
      | zero => simp at hf
      | succ n => rfl
    | some s => simp [isChain] at h
  | cons x t ih =>
    cases p with
    | none => simp [isChain] at h
    | some s =>
      obtain ⟨rfl, ht⟩ := isChain_cons.1 h
      cases fuel with
      | zero => simp at hf
      | succ n =>
        simp only [List.length_cons, Nat.add_lt_add_iff_right] at hf
        rw [depth_loop, ih ht hf]
        simp only [List.length_cons]
        congr 1; omega

theorem climb_chain {F : Forest W} {p : StatePtr} {l : List Nat}
    (h : isChain F p l = true) {k : Nat} (hk : k ≤ l.length) :
    climb F k p = .ok (headPtr (l.drop k)) := by
  induction k generalizing p l with
  | zero => rw [climb, List.drop_zero, isChain_headPtr h]
  | succ n ih =>
    cases l with
    | nil => simp at hk
    | cons x t =>
      cases p with
      | none => simp [isChain] at h
      | some s =>
        obtain ⟨rfl, ht⟩ := isChain_cons.1 h
        simp only [List.length_cons, Nat.add_le_add_iff_right] at hk
        rw [climb, ih ht hk, List.drop_succ_cons]

theorem dispatch_loop_chain {F : Forest W} {p : StatePtr} {l : List Nat}
    (h : isChain F p l = true) {fuel : Nat} (hf : l.length < fuel) (state : StatePtr)
    (e : event_e) (m : Fsm W) :
    dispatch_loop F state e fuel p m =
      .ok (match first_answer F e l with
        | some t => some t
        | none => state, { m with log := m.log ++ asked F e l }) := by
  induction l generalizing p fuel m with
  | nil =>
    cases p with
    | none =>
      cases fuel with
      | zero => simp at hf
      | succ n => simp [dispatch_loop, first_answer, asked]
    | some s => simp [isChain] at h
  | cons x t ih =>
    cases p with
    | none => simp [isChain] at h
    | some s =>
      obtain ⟨rfl, ht⟩ := isChain_cons.1 h
      cases fuel with
      | zero => simp at hf
      | succ n =>
        simp only [List.length_cons, Nat.add_lt_add_iff_right] at hf
        rw [dispatch_loop]
        cases hh : (F s).handle_event with
        | none =>
          simp only [first_answer, answer, asked, hh]
          rw [ih ht hf]
        | some hdl =>
          cases ha : hdl e with
          | some nxt => simp [first_answer, answer, asked, hh, ha]
          | none =>
            simp only [first_answer, answer, asked, hh, ha]
            rw [ih ht hf]
            simp

end Loops

/-! ## Two chains of one forest share a suffix -/

section Split

variable {W : Type}

theorem isChain_nodup {F : Forest W} {p : StatePtr} {l : List Nat}
    (h : isChain F p l = true) : l.Nodup := by
  induction l generalizing p with
  | nil => exact List.nodup_nil
  | cons x t ih =>
    cases p with
    | none => simp [isChain] at h
    | some s =>
      obtain ⟨rfl, ht⟩ := isChain_cons.1 h
      refine List.nodup_cons.2 ⟨fun hx => ?_, ih ht⟩
      obtain ⟨a, b, hab, hb⟩ := isChain_mem ht hx
      have hl := congrArg List.length (isChain_unique hb h)
      rw [hab] at hl
      simp only [List.length_cons, List.length_append] at hl
      omega

/-- Two chains of the same forest are a common suffix below which they are disjoint. -/
theorem chain_split {F : Forest W} {p q : StatePtr} {cs ns : List Nat}
    (hc : isChain F p cs = true) (hn : isChain F q ns = true) :
    ∃ a b suf, cs = a ++ suf ∧ ns = b ++ suf ∧ (∀ x ∈ a, x ∉ ns) ∧ (∀ y ∈ b, y ∉ cs) := by
  induction cs generalizing p with
  | nil => exact ⟨[], ns, [], rfl, by simp, by simp, by simp⟩
  | cons x t ih =>
    cases p with
    | none => simp [isChain] at hc
    | some s =>
      obtain ⟨rfl, ht⟩ := isChain_cons.1 hc
      by_cases hx : s ∈ ns
      · obtain ⟨b, c, hbc, hcc⟩ := isChain_mem hn hx
        have hct : c = t := List.tail_eq_of_cons_eq (isChain_unique hcc hc)
        subst hct
        refine ⟨[], b, s :: c, rfl, hbc, by simp, fun y hy hy2 => ?_⟩
        have hnd := isChain_nodup hn
        rw [hbc] at hnd
        exact (List.disjoint_of_nodup_append hnd) hy hy2
      · obtain ⟨a, b, suf, hta, hnb, ha, hb⟩ := ih ht
        refine ⟨s :: a, b, suf, by rw [hta]; rfl, hnb, ?_, ?_⟩
        · intro y hy
          rcases List.mem_cons.1 hy with rfl | hy
          · exact hx
          · exact ha y hy
        · intro y hy hy2
          rcases List.mem_cons.1 hy2 with rfl | hy2
          · exact hx (by rw [hnb]; exact List.mem_append_left _ hy)
          · exact hb y hy hy2

theorem deepest_common_split {a suf ns : List Nat} (ha : ∀ x ∈ a, x ∉ ns)
    (hs : ∀ x ∈ suf, x ∈ ns) : deepest_common (a ++ suf) ns = headPtr suf := by
  induction a with
  | nil =>
    cases suf with
    | nil => rfl
    | cons y t => simp [deepest_common, headPtr, hs y (List.mem_cons_self _ _)]
  | cons x t ih =>
    have hx : x ∉ ns := ha x (List.mem_cons_self _ _)
    have := ih (fun y hy => ha y (List.mem_cons_of_mem _ hy))
    simp only [deepest_common] at this ⊢
    simp [List.find?_cons, hx, this]

theorem below_common_split {a suf ns : List Nat} (ha : ∀ x ∈ a, x ∉ ns)
    (hs : ∀ x ∈ suf, x ∈ ns) : below_common (a ++ suf) ns = a := by
  induction a with
  | nil =>
    cases suf with
    | nil => rfl
    | cons y t => simp [below_common, List.takeWhile_cons, hs y (List.mem_cons_self _ _)]
  | cons x t ih =>
    have hx : x ∉ ns := ha x (List.mem_cons_self _ _)
    have := ih (fun y hy => ha y (List.mem_cons_of_mem _ hy))
    simp only [below_common] at this ⊢
    simp [List.takeWhile_cons, hx, this]

/-- The states strictly below the deepest common state are those passed before
the walk up the chain meets that state. -/
theorem takeWhile_ne_split {a suf : List Nat} (ha : ∀ x ∈ a, x ∉ suf) :
    (a ++ suf).takeWhile (fun x => !decide (some x = headPtr suf)) = a := by
  induction a with
  | nil =>
    cases suf with
    | nil => rfl
    | cons y t => simp [headPtr, List.takeWhile_cons]
  | cons x t ih =>
    have hx : some x ≠ headPtr suf := by
      intro hh
      cases suf with
      | nil => simp [headPtr] at hh
      | cons y u =>
        simp only [headPtr, List.head?_cons, Option.some.injEq] at hh
        exact ha x (List.mem_cons_self _ _) (hh ▸ List.mem_cons_self _ _)
    have := ih (fun y hy => ha y (List.mem_cons_of_mem _ hy))
    simp [List.takeWhile_cons, hx, this]

end Split

/-! ## `exit_up_to`, `enter_down_to` and `find_lca` on chains -/

section Paths

variable {W : Type}

theorem exit_up_to_chain {F : Forest W} {p : StatePtr} {l : List Nat}
    (h : isChain F p l = true) {fuel : Nat} (hf : l.length < fuel) (to_ : StatePtr)
    (m : Fsm W) :
    exit_up_to F to_ fuel p m =
      .ok (invoke_all Call.exit State.exit F
        (l.takeWhile (fun x => !decide (some x = to_))) m) := by
  induction l generalizing p fuel m with
  | nil =>
    cases p with
    | none =>
      cases fuel with
      | zero => simp at hf
      | succ n => rfl
    | some s => simp [isChain] at h
  | cons x t ih =>
    cases p with
    | none => simp [isChain] at h
    | some s =>
      obtain ⟨rfl, ht⟩ := isChain_cons.1 h
      cases fuel with
      | zero => simp at hf
      | succ n =>
        simp only [List.length_cons, Nat.add_lt_add_iff_right] at hf
        rw [exit_up_to]
        by_cases hs : some s = to_
        · simp [hs, List.takeWhile_cons, invoke_all]
        · simp [hs, List.takeWhile_cons, invoke_all, ih ht hf]

theorem enter_path_chain {F : Forest W} {p : StatePtr} {l : List Nat}
    (h : isChain F p l = true) {fuel : Nat} (hf : l.length < fuel) (from_ : StatePtr)
    (path : List Nat)
    (hd : path.length + (l.takeWhile (fun x => !decide (some x = from_))).length ≤ FSM_DEPTH) :
    enter_path F from_ fuel p path =
      .ok (path ++ l.takeWhile (fun x => !decide (some x = from_))) := by
  induction l generalizing p fuel path with
  | nil =>
    cases p with
    | none =>
      cases fuel with
      | zero => simp at hf
      | succ n => simp [enter_path]
    | some s => simp [isChain] at h
  | cons x t ih =>
    cases p with
    | none => simp [isChain] at h
    | some s =>
      obtain ⟨rfl, ht⟩ := isChain_cons.1 h
      cases fuel with
      | zero => simp at hf
      | succ n =>
        simp only [List.length_cons, Nat.add_lt_add_iff_right] at hf
        rw [enter_path]
        by_cases hs : some s = from_
        · simp [hs, List.takeWhile_cons]
        · simp [List.takeWhile_cons, hs] at hd
          have h1 : path.length < FSM_DEPTH := by omega
          have h2 : (path ++ [s]).length +
              (t.takeWhile (fun x => !decide (some x = from_))).length ≤ FSM_DEPTH := by
            simp only [List.length_append, List.length_singleton]; omega
          simp [hs, List.takeWhile_cons, h1, ih ht hf (path ++ [s]) h2]

theorem enter_down_to_chain {F : Forest W} {p : StatePtr} {l : List Nat}
    (h : isChain F p l = true) {fuel : Nat} (hf : l.length < fuel) (from_ : StatePtr)
    (hd : (l.takeWhile (fun x => !decide (some x = from_))).length ≤ FSM_DEPTH) (m : Fsm W) :
    enter_down_to F fuel from_ p m =
      .ok (invoke_all Call.entry State.entry F
        (l.takeWhile (fun x => !decide (some x = from_))).reverse m) := by
  have hd2 : ([] : List Nat).length +
      (l.takeWhile (fun x => !decide (some x = from_))).length ≤ FSM_DEPTH := by simpa using hd
  simp [enter_down_to, enter_path_chain h hf from_ [] hd2, enter_run_eq]

theorem lockstep_split {F : Forest W} {a b suf : List Nat} {p q : StatePtr}
    (hp : isChain F p (a ++ suf) = true) (hq : isChain F q (b ++ suf) = true)
    (hl : a.length = b.length) (ha : ∀ x ∈ a, x ∉ b ++ suf) {fuel : Nat}
    (hf : a.length < fuel) :
    lockstep F fuel p q = .ok (headPtr suf) := by
  induction a generalizing b p q fuel with
  | nil =>
    have hb : b = [] := List.length_eq_zero.1 hl.symm
    subst hb
    simp only [List.nil_append] at hp hq
    have e1 := isChain_headPtr hp
    have e2 := isChain_headPtr hq
    cases fuel with
    | zero => simp at hf
    | succ n => simp [lockstep, ← e1, ← e2]
  | cons x t ih =>
    cases b with
    | nil => simp at hl
    | cons y u =>
      cases p with
      | none => simp [isChain] at hp
      | some s =>
        cases q with
        | none => simp [isChain] at hq
        | some r =>
          obtain ⟨rfl, hpt⟩ := isChain_cons.1 hp
          obtain ⟨rfl, hqt⟩ := isChain_cons.1 hq
          have hne : s ≠ r := by
            intro hh
            exact ha s (List.mem_cons_self _ _) (by simp [hh])
          cases fuel with
          | zero => simp at hf
          | succ n =>
            simp only [List.length_cons, Nat.add_lt_add_iff_right] at hf
            simp only [List.length_cons, Nat.add_right_cancel_iff] at hl
            have ha2 : ∀ z ∈ t, z ∉ u ++ suf := fun z hz hz2 =>
              ha z (List.mem_cons_of_mem _ hz) (List.mem_cons_of_mem _ hz2)
            rw [lockstep]
            simp [hne, ih hpt hqt hl ha2 hf]

theorem isChain_drop {F : Forest W} {p : StatePtr} {l : List Nat}
    (h : isChain F p l = true) (k : Nat) :
    isChain F (headPtr (l.drop k)) (l.drop k) = true := by
  have : isChain F p (l.take k ++ l.drop k) = true := by rw [List.take_append_drop]; exact h
  exact isChain_append this

theorem find_lca_chain {F : Forest W} {s1 s2 : Nat} {cs ns : List Nat}
    (hc : isChain F (some s1) cs = true) (hn : isChain F (some s2) ns = true)
    {fuel : Nat} (hfc : cs.length < fuel) (hfn : ns.length < fuel) :
    find_lca F fuel (some s1) (some s2) = .ok (deepest_common cs ns) := by
  obtain ⟨a, b, suf, hca, hnb, ha, hb⟩ := chain_split hc hn
  have hsn : ∀ x ∈ suf, x ∈ ns := fun x hx => by rw [hnb]; exact List.mem_append_right _ hx
  have hsc : ∀ x ∈ suf, x ∈ cs := fun x hx => by rw [hca]; exact List.mem_append_right _ hx
  have hdc : deepest_common cs ns = headPtr suf := by
    rw [hca]; exact deepest_common_split ha hsn
  rw [hdc]
  simp only [find_lca, depth_loop_chain hc hfc, depth_loop_chain hn hfn, Nat.zero_add]
  simp only [reduceCtorEq, or_self, ↓reduceIte]
  by_cases hgt : cs.length > ns.length
  · simp only [hgt, ↓reduceIte]
    have hk : Int.natAbs ((cs.length : Int) - (ns.length : Int)) = cs.length - ns.length := by
      omega
    rw [hk, climb_chain hc (by omega)]
    have hlen : a.length = (cs.length - ns.length) + b.length := by
      have h1 := congrArg List.length hca
      have h2 := congrArg List.length hnb
      simp only [List.length_append] at h1 h2
      omega
    have hdrop : ∀ k, k ≤ a.length → cs.drop k = a.drop k ++ suf := fun k hk => by
      rw [hca, List.drop_append_of_le_length hk]
    replace hdrop := hdrop (cs.length - ns.length) (by omega)
    have hch := isChain_drop hc (cs.length - ns.length)
    rw [hdrop] at hch ⊢
    rw [hnb] at hn
    refine lockstep_split hch hn (by simp; omega) ?_ ?_
    · intro x hx
      rw [← hnb]
      exact ha x (List.mem_of_mem_drop hx)
    · have h2 := congrArg List.length hnb
      simp only [List.length_append] at h2
      simp only [List.length_drop]
      omega
  · simp only [hgt, ↓reduceIte]
    have hk : Int.natAbs ((cs.length : Int) - (ns.length : Int)) = ns.length - cs.length := by
      omega
    rw [hk, climb_chain hn (by omega)]
    have hlen : b.length = (ns.length - cs.length) + a.length := by
      have h1 := congrArg List.length hca
      have h2 := congrArg List.length hnb
      simp only [List.length_append] at h1 h2
      omega
    have hdrop : ∀ k, k ≤ b.length → ns.drop k = b.drop k ++ suf := fun k hk => by
      rw [hnb, List.drop_append_of_le_length hk]
    replace hdrop := hdrop (ns.length - cs.length) (by omega)
    have hch := isChain_drop hn (ns.length - cs.length)
    rw [hdrop] at hch ⊢
    rw [hca] at hc
    refine lockstep_split hch hc (by simp; omega) ?_ ?_
    · intro x hx
      rw [← hca]
      exact hb x (List.mem_of_mem_drop hx)
    · have h2 := congrArg List.length hca
      simp only [List.length_append] at h2
      simp only [List.length_drop]
      omega

end Paths

/-! ## One step of `a_fsm_process` -/

section Process

variable {W : Type}

theorem up_to_excluding_common {F : Forest W} {p q : StatePtr} {cs ns : List Nat}
    (hc : isChain F p cs = true) (hn : isChain F q ns = true) :
    up_to_excluding cs (deepest_common cs ns) = below_common cs ns ∧
      up_to_excluding ns (deepest_common cs ns) = below_common ns cs ∧
      deepest_common cs ns = deepest_common ns cs := by
  obtain ⟨a, b, suf, hca, hnb, ha, hb⟩ := chain_split hc hn
  have hsn : ∀ x ∈ suf, x ∈ ns := fun x hx => by rw [hnb]; exact List.mem_append_right _ hx
  have hsc : ∀ x ∈ suf, x ∈ cs := fun x hx => by rw [hca]; exact List.mem_append_right _ hx
  have h1 : deepest_common cs ns = headPtr suf := by
    rw [hca]; exact deepest_common_split ha hsn
  have h2 : deepest_common ns cs = headPtr suf := by
    rw [hnb]; exact deepest_common_split hb hsc
  have h3 : below_common cs ns = a := by
    rw [hca]; exact below_common_split ha hsn
  have h4 : below_common ns cs = b := by
    rw [hnb]; exact below_common_split hb hsc
  rw [h1, h2, h3, h4]
  refine ⟨?_, ?_, rfl⟩
  · rw [hca]; exact takeWhile_ne_split (fun x hx hx2 => ha x hx (hsn x hx2))
  · rw [hnb]; exact takeWhile_ne_split (fun x hx hx2 => hb x hx (hsc x hx2))

theorem process_no_event {F : Forest W} {m : Fsm W} {cs : List Nat} {fuel : Nat}
    (he : m.globals.cur_event = event_e.EVENT_NONE)
    (hc : isChain F m.cur_state cs = true) (hf : cs.length < fuel) :
    a_fsm_process F fuel m = .ok (invoke_all Call.action State.action F cs m) := by
  simp [a_fsm_process, he, execute_action_chain hc hf]

theorem process_stay {F : Forest W} {m : Fsm W} {cs : List Nat} {fuel : Nat}
    (he : m.globals.cur_event ≠ event_e.EVENT_NONE)
    (hc : isChain F m.cur_state cs = true) (hf : cs.length < fuel)
    (hd : first_answer F m.globals.cur_event cs = none ∨
      first_answer F m.globals.cur_event cs = m.cur_state) :
    a_fsm_process F fuel m =
      .ok (invoke_all Call.action State.action F cs
        { m with log := m.log ++ asked F m.globals.cur_event cs }) := by
  have hres : (match first_answer F m.globals.cur_event cs with
      | some t => some t
      | none => m.cur_state) = m.cur_state := by
    rcases hd with hd | hd
    · rw [hd]
    · rw [hd]; cases m.cur_state <;> rfl
  simp only [a_fsm_process, he, ↓reduceIte, dispatch_event, dispatch_loop_chain hc hf, hres,
    ne_eq, not_true_eq_false]
  exact execute_action_chain hc hf _

theorem process_transition {F : Forest W} {m : Fsm W} {next : Nat} {cs ns : List Nat}
    {fuel : Nat} (he : m.globals.cur_event ≠ event_e.EVENT_NONE)
    (hc : isChain F m.cur_state cs = true) (hn : isChain F (some next) ns = true)
    (hd : first_answer F m.globals.cur_event cs = some next) (hne : some next ≠ m.cur_state)
    (hbuf : (up_to_excluding ns (deepest_common cs ns)).length ≤ FSM_DEPTH)
    (hfc : cs.length < fuel) (hfn : ns.length < fuel) :
    a_fsm_process F fuel m =
      .ok (invoke_all Call.action State.action F ns (after_entry F cs ns m)) := by
  cases hcur : m.cur_state with
  | none =>
    rw [hcur] at hc
    rw [isChain_none.1 hc] at hd
    simp [first_answer] at hd
  | some cur =>
    rw [hcur] at hc hne
    simp only [a_fsm_process, he, ↓reduceIte, dispatch_event, hcur,
      dispatch_loop_chain hc hfc, hd, ne_eq, hne, not_false_eq_true,
      find_lca_chain hc hn hfc hfn]
    have hc1 : isChain F (some cur) cs = true := hc
    rw [exit_up_to_chain hc hfc]
    simp only []
    rw [enter_down_to_chain hn hfn _ hbuf]
    simp only []
    rw [execute_action_chain hn hfn]
    simp [after_entry, up_to_excluding, isChain_headPtr hn, hcur]

end Process

/-! ## The claims about the engine -/

section EngineClaims

theorem apply_all_cur_event {W : Type} (f : State W → Option (Globals W → Globals W))
    (F : Forest W) (l : List Nat)
    (hq : ∀ s ∈ l, ∀ a, f (F s) = some a → ∀ g, (a g).cur_event = g.cur_event)
    (g : Globals W) : (apply_all f F l g).cur_event = g.cur_event := by
  induction l generalizing g with
  | nil => rfl
  | cons x t ih =>
    rw [apply_all, ih (fun s hs => hq s (List.mem_cons_of_mem _ hs))]
    cases hx : f (F x) with
    | none => rfl
    | some a => exact hq x (List.mem_cons_self _ _) a hx g

theorem asked_handle_only {W : Type} (F : Forest W) (e : event_e) (l : List Nat) :
    ∀ c ∈ asked F e l, ∃ s, c = Call.handle_event s e := by
  induction l with
  | nil => simp [asked]
  | cons x t ih =>
    intro c hc
    simp only [asked] at hc
    cases hh : (F x).handle_event with
    | none => rw [hh] at hc; exact ih c hc
    | some h =>
      rw [hh] at hc
      cases ha : h e with
      | some n =>
        simp only [ha] at hc
        exact ⟨x, by simpa using hc⟩
      | none =>
        simp only [ha] at hc
        rcases List.mem_cons.1 hc with rfl | hc
        · exact ⟨x, rfl⟩
        · exact ih c hc

/-- C1 (as amended).  In a finite forest, when the pending event resolves to a
next state different from the current one and the states to be entered fit in
the `path[FSM_DEPTH]` buffer, `a_fsm_process` returns and has appended to the
log, after the handlers asked by the dispatch, exactly: the defined exit
callbacks of the states from the current state up to but excluding the LCA
(innermost first), then the defined entry callbacks of the states below the LCA
down to the next state (outermost first), then the defined action callbacks of
the next state and all its ancestors (leaf to root).  The LCA is what `find_lca`
returns. -/
theorem C1_transition_callback_order {W : Type} (F : Forest W) (m : Fsm W) (cur next : Nat)
    (cs ns : List Nat) (fuel : Nat) (hcur : m.cur_state = some cur)
    (hc : isChain F (some cur) cs = true) (hn : isChain F (some next) ns = true)
    (he : m.globals.cur_event ≠ event_e.EVENT_NONE)
    (hd : first_answer F m.globals.cur_event cs = some next) (hne : next ≠ cur)
    (hbuf : (up_to_excluding ns (deepest_common cs ns)).length ≤ FSM_DEPTH)
    (hfc : cs.length < fuel) (hfn : ns.length < fuel) :
    ∃ m1 lca, a_fsm_process F fuel m = .ok m1 ∧
      find_lca F fuel (some cur) (some next) = .ok lca ∧
      m1.log = m.log ++ asked F m.globals.cur_event cs
        ++ calls_of Call.exit State.exit F (up_to_excluding cs lca)
        ++ calls_of Call.entry State.entry F (up_to_excluding ns lca).reverse
        ++ calls_of Call.action State.action F ns := by
  have hc1 : isChain F m.cur_state cs = true := by rw [hcur]; exact hc
  have hne1 : some next ≠ m.cur_state := by rw [hcur]; simpa using hne
  refine ⟨_, _, process_transition he hc1 hn hd hne1 hbuf hfc hfn,
    find_lca_chain hc hn hfc hfn, ?_⟩
  simp [invoke_all_log, after_entry]

/-- C1, an instance: in the demo forest the leaf 2 with `EVENT_LIFT_MOVE` pending
moves to its sibling 3. -/
theorem C1_transition_callback_order_witness :
    ∃ m1 lca, a_fsm_process demo_forest 4 (demo_start event_e.EVENT_LIFT_MOVE) = .ok m1 ∧
      find_lca demo_forest 4 (some 2) (some 3) = .ok lca ∧
      m1.log = (demo_start event_e.EVENT_LIFT_MOVE).log
        ++ asked demo_forest (demo_start event_e.EVENT_LIFT_MOVE).globals.cur_event [2, 1, 0]
        ++ calls_of Call.exit State.exit demo_forest (up_to_excluding [2, 1, 0] lca)
        ++ calls_of Call.entry State.entry demo_forest (up_to_excluding [3, 1, 0] lca).reverse
        ++ calls_of Call.action State.action demo_forest [3, 1, 0] :=
  C1_transition_callback_order demo_forest (demo_start event_e.EVENT_LIFT_MOVE) 2 3
    [2, 1, 0] [3, 1, 0] 4 rfl (by decide) (by decide) (by decide) (by decide) (by decide)
    (by decide) (by decide) (by decide)

/-- C1, as stated, fails: in the finite forest `deep_forest` the pending event
resolves to the state 5, six levels deep and different from the current state 6,
and `enter_down_to` would write a sixth entry into the five-slot path buffer:
the run ends in that fault instead of the callback sequence. -/
theorem C1_counterexample_deep_forest :
    isChain deep_forest (some 6) [6] = true ∧
      isChain deep_forest (some 5) [5, 4, 3, 2, 1, 0] = true ∧
      first_answer deep_forest deep_start.globals.cur_event [6] = some 5 ∧
      a_fsm_process deep_forest 10 deep_start = .error Fault.path_overflow :=
  ⟨by decide, by decide, by decide, rfl⟩

/-- C2.  For two states of a finite forest, `find_lca` returns (it neither
diverges nor dereferences a null pointer); a returned state lies on both chains
and every state on both chains is an ancestor-or-self of it, so it is the
deepest common one; and the result is null exactly when the two chains end in
different roots, which is exactly when they share no state. -/
theorem C2_find_lca_deepest_common {W : Type} (F : Forest W) (s1 s2 : Nat)
    (cs ns : List Nat) (fuel : Nat)
    (hc : isChain F (some s1) cs = true) (hn : isChain F (some s2) ns = true)
    (hfc : cs.length < fuel) (hfn : ns.length < fuel) :
    ∃ r, find_lca F fuel (some s1) (some s2) = .ok r ∧
      (∀ a, r = some a → a ∈ cs ∧ a ∈ ns ∧
        ∃ l, isChain F (some a) l = true ∧ ∀ b, b ∈ cs → b ∈ ns → b ∈ l) ∧
      (r = none ↔ cs.getLast? ≠ ns.getLast?) ∧
      (r = none ↔ ∀ b, b ∈ cs → b ∉ ns) := by
  refine ⟨_, find_lca_chain hc hn hfc hfn, ?_⟩
  obtain ⟨a, b, suf, hca, hnb, ha, hb⟩ := chain_split hc hn
  have hsn : ∀ x ∈ suf, x ∈ ns := fun x hx => by rw [hnb]; exact List.mem_append_right _ hx
  have hsc : ∀ x ∈ suf, x ∈ cs := fun x hx => by rw [hca]; exact List.mem_append_right _ hx
  have hdc : deepest_common cs ns = headPtr suf := by
    rw [hca]; exact deepest_common_split ha hsn
  have hsuf : isChain F (headPtr suf) suf = true := by
    rw [hca] at hc; exact isChain_append hc
  have hcne : cs ≠ [] := by
    obtain ⟨t, rfl, -⟩ := isChain_some.1 hc
    simp
  have hnne : ns ≠ [] := by
    obtain ⟨t, rfl, -⟩ := isChain_some.1 hn
    simp
  rw [hdc]
  cases hs : suf with
  | nil =>
    subst hs
    simp only [List.append_nil] at hca hnb
    refine ⟨by simp [headPtr], ?_, ?_⟩
    · simp only [headPtr, List.head?_nil, ne_eq, true_iff]
      intro hh
      obtain ⟨x, hx⟩ := Option.isSome_iff_exists.1 (List.getLast?_isSome.2 hcne)
      have hxc : x ∈ cs := List.mem_of_getLast?_eq_some hx
      have hxn : x ∈ ns := List.mem_of_getLast?_eq_some (by rw [← hh]; exact hx)
      exact ha x (by rw [← hca]; exact hxc) hxn
    · simp only [headPtr, List.head?_nil, true_iff]
      intro y hy
      exact ha y (by rw [← hca]; exact hy)
  | cons a0 t =>
    subst hs
    refine ⟨?_, ?_, ?_⟩
    · intro a1 h1
      simp only [headPtr, List.head?_cons, Option.some.injEq] at h1
      subst h1
      refine ⟨hsc _ (List.mem_cons_self _ _), hsn _ (List.mem_cons_self _ _),
        a0 :: t, hsuf, fun y hyc hyn => ?_⟩
      rw [hca] at hyc
      rcases List.mem_append.1 hyc with h | h
      · exact absurd hyn (ha y h)
      · exact h
    · have hl : ∀ u : List Nat, (u ++ a0 :: t).getLast? = (a0 :: t).getLast? := fun u =>
        List.getLast?_append_of_ne_nil u (by simp)
      simp [headPtr, hca, hnb, hl]
    · simp only [headPtr, List.head?_cons, reduceCtorEq, false_iff, not_forall]
      exact ⟨a0, hsc _ (List.mem_cons_self _ _), fun h => h (hsn _ (List.mem_cons_self _ _))⟩

/-- C2, an instance: the two leaves of the demo forest. -/
theorem C2_find_lca_deepest_common_witness :
    ∃ r, find_lca demo_forest 4 (some 2) (some 3) = .ok r ∧
      (∀ a, r = some a → a ∈ [2, 1, 0] ∧ a ∈ [3, 1, 0] ∧
        ∃ l, isChain demo_forest (some a) l = true ∧
          ∀ b, b ∈ [2, 1, 0] → b ∈ [3, 1, 0] → b ∈ l) ∧
      (r = none ↔ [2, 1, 0].getLast? ≠ [3, 1, 0].getLast?) ∧
      (r = none ↔ ∀ b, b ∈ [2, 1, 0] → b ∉ [3, 1, 0]) :=
  C2_find_lca_deepest_common demo_forest 2 3 [2, 1, 0] [3, 1, 0] 4 (by decide) (by decide)
    (by decide) (by decide)

end EngineClaims

section EngineClaims2

/-- C3 (as amended).  With an event `e` other than `EVENT_NONE` pending that no
handler on the chain of the current state answers (or that is answered with the
current state itself), `a_fsm_process` returns having run handlers and actions
only (no exit, no entry), with the current state unchanged, and the engine
itself neither clears nor changes the pending event: on return the globals are
what the action chain makes of the globals of the call.  When no action
callback of the chain changes the pending event, `e` is still pending on
return, and a second `a_fsm_process` again leaves the same current state and
the same pending event and runs the same callback sequence. -/
theorem C3_unhandled_event_retained {W : Type} (F : Forest W) (m : Fsm W) (cs : List Nat)
    (fuel : Nat) (he : m.globals.cur_event ≠ event_e.EVENT_NONE)
    (hc : isChain F m.cur_state cs = true) (hf : cs.length < fuel)
    (hd : first_answer F m.globals.cur_event cs = none ∨
      first_answer F m.globals.cur_event cs = m.cur_state) :
    ∃ m1 hs, a_fsm_process F fuel m = .ok m1 ∧
      (∀ c ∈ hs, ∃ s, c = Call.handle_event s m.globals.cur_event) ∧
      m1.log = m.log ++ hs ++ calls_of Call.action State.action F cs ∧
      m1.cur_state = m.cur_state ∧
      m1.globals = apply_all State.action F cs m.globals ∧
      ((∀ s ∈ cs, ∀ a, (F s).action = some a → ∀ g, (a g).cur_event = g.cur_event) →
        m1.globals.cur_event = m.globals.cur_event ∧
        ∃ m2, a_fsm_process F fuel m1 = .ok m2 ∧
          m2.cur_state = m1.cur_state ∧
          m2.globals.cur_event = m1.globals.cur_event ∧
          m2.log = m1.log ++ hs ++ calls_of Call.action State.action F cs) := by
  refine ⟨_, asked F m.globals.cur_event cs, process_stay he hc hf hd,
    asked_handle_only F _ cs, ?_, ?_, ?_, fun hq => ?_⟩
  · simp [invoke_all_log]
  · simp [invoke_all_cur_state]
  · simp [invoke_all_globals]
  · have hev : (invoke_all Call.action State.action F cs
        { m with log := m.log ++ asked F m.globals.cur_event cs }).globals.cur_event =
        m.globals.cur_event := by
      rw [invoke_all_globals]
      exact apply_all_cur_event State.action F cs hq _
    refine ⟨hev, _, process_stay (by rw [hev]; exact he)
      (by rw [invoke_all_cur_state]; exact hc) hf
      (by rw [hev, invoke_all_cur_state]; exact hd), ?_, ?_, ?_⟩
    · simp [invoke_all_cur_state]
    · rw [invoke_all_globals]
      exact apply_all_cur_event State.action F cs hq _
    · rw [invoke_all_log]
      simp only [hev]

/-- C3, an instance: `EVENT_OK` pending in the leaf 2 of the demo forest, where
no state of the chain handles it and no action triggers an event. -/
theorem C3_unhandled_event_retained_witness :
    ∃ m1 hs, a_fsm_process demo_forest 4 (demo_start event_e.EVENT_OK) = .ok m1 ∧
      (∀ c ∈ hs, ∃ s, c = Call.handle_event s (demo_start event_e.EVENT_OK).globals.cur_event) ∧
      m1.log = (demo_start event_e.EVENT_OK).log ++ hs
        ++ calls_of Call.action State.action demo_forest [2, 1, 0] ∧
      m1.cur_state = (demo_start event_e.EVENT_OK).cur_state ∧
      m1.globals = apply_all State.action demo_forest [2, 1, 0]
        (demo_start event_e.EVENT_OK).globals ∧
      ((∀ s ∈ [2, 1, 0], ∀ a, (demo_forest s).action = some a →
          ∀ g, (a g).cur_event = g.cur_event) →
        m1.globals.cur_event = (demo_start event_e.EVENT_OK).globals.cur_event ∧
        ∃ m2, a_fsm_process demo_forest 4 m1 = .ok m2 ∧
          m2.cur_state = m1.cur_state ∧
          m2.globals.cur_event = m1.globals.cur_event ∧
          m2.log = m1.log ++ hs ++ calls_of Call.action State.action demo_forest [2, 1, 0]) :=
  C3_unhandled_event_retained demo_forest (demo_start event_e.EVENT_OK) [2, 1, 0] 4
    (by decide) (by decide) (by decide) (Or.inl (by decide))

/-- C4.  On the chain of a state `s` of a finite forest, `dispatch_event(s, e)`
returns, changing nothing but the log: the answer of the first state of the chain
whose handler answers, all states before it having no handler or declining; and
`s` itself when every state of the chain has no handler or declines. -/
theorem C4_dispatch_first_answer {W : Type} (F : Forest W) (s : Nat) (e : event_e)
    (cs : List Nat) (fuel : Nat) (m : Fsm W)
    (hc : isChain F (some s) cs = true) (hf : cs.length < fuel) :
    ∃ r m1, dispatch_event F fuel (some s) e m = .ok (r, m1) ∧
      m1.globals = m.globals ∧ m1.cur_state = m.cur_state ∧
      (∀ pre x post t, cs = pre ++ x :: post → (∀ y ∈ pre, answer F e y = none) →
        answer F e x = some t → r = some t) ∧
      ((∀ y ∈ cs, answer F e y = none) → r = some s) := by
  refine ⟨_, _, dispatch_loop_chain hc hf (some s) e m, rfl, rfl, ?_, ?_⟩
  · intro pre x post t hcs hpre hx
    have : first_answer F e cs = some t := by
      rw [hcs]
      clear hcs hc hf
      induction pre with
      | nil => simp [first_answer, hx]
      | cons y u ih =>
        simp only [List.cons_append, first_answer, hpre y (List.mem_cons_self _ _)]
        exact ih (fun z hz => hpre z (List.mem_cons_of_mem _ hz))
    rw [this]
  · intro hall
    have : first_answer F e cs = none := by
      clear hc hf
      induction cs with
      | nil => rfl
      | cons y u ih =>
        simp only [first_answer, hall y (List.mem_cons_self _ _)]
        exact ih (fun z hz => hall z (List.mem_cons_of_mem _ hz))
    rw [this]

/-- C4, an instance: the leaf 2 of the demo forest, where `EVENT_ERROR` is
declined by the leaf, skipped by the handler-less state 1 and answered by the
root. -/
theorem C4_dispatch_first_answer_witness :
    ∃ r m1, dispatch_event demo_forest 4 (some 2) event_e.EVENT_ERROR
        (demo_start event_e.EVENT_ERROR) = .ok (r, m1) ∧
      m1.globals = (demo_start event_e.EVENT_ERROR).globals ∧
      m1.cur_state = (demo_start event_e.EVENT_ERROR).cur_state ∧
      (∀ pre x post t, [2, 1, 0] = pre ++ x :: post →
        (∀ y ∈ pre, answer demo_forest event_e.EVENT_ERROR y = none) →
        answer demo_forest event_e.EVENT_ERROR x = some t → r = some t) ∧
      ((∀ y ∈ [2, 1, 0], answer demo_forest event_e.EVENT_ERROR y = none) → r = some 2) :=
  C4_dispatch_first_answer demo_forest 2 event_e.EVENT_ERROR [2, 1, 0] 4
    (demo_start event_e.EVENT_ERROR) (by decide) (by decide)

end EngineClaims2

section EngineClaims3

theorem calls_of_action_count {W : Type} (F : Forest W) {l : List Nat} (hl : l.Nodup)
    {s : Nat} (hs : s ∈ l) (hdef : (F s).action.isSome = true) :
    (calls_of Call.action State.action F l).count (Call.action s) = 1 := by
  have hinj : Function.Injective Call.action := fun a b h => by injection h
  refine List.count_eq_one_of_mem ((hl.filter _).map hinj) ?_
  exact List.mem_map.2 ⟨s, List.mem_filter.2 ⟨hs, hdef⟩, rfl⟩

/-- C9.  With no event pending, in a state of any depth whose chain to the root
is `cs`, `a_fsm_process` returns having invoked exactly the defined action
callbacks of the states of `cs`, in the order of `cs` (leaf to root), each
exactly once, and nothing else (no handler, no entry, no exit); the current
state is unchanged. -/
theorem C9_action_chain_without_event {W : Type} (F : Forest W) (m : Fsm W) (cs : List Nat)
    (fuel : Nat) (he : m.globals.cur_event = event_e.EVENT_NONE)
    (hc : isChain F m.cur_state cs = true) (hf : cs.length < fuel) :
    ∃ m1, a_fsm_process F fuel m = .ok m1 ∧
      m1.log = m.log ++ (cs.filter (fun s => (F s).action.isSome)).map Call.action ∧
      (∀ s ∈ cs, (F s).action.isSome = true →
        (List.count (Call.action s)
          ((cs.filter (fun s => (F s).action.isSome)).map Call.action)) = 1) ∧
      m1.cur_state = m.cur_state ∧
      m1.globals = apply_all State.action F cs m.globals := by
  refine ⟨_, process_no_event he hc hf, ?_, ?_, ?_, ?_⟩
  · rw [invoke_all_log]; rfl
  · intro s hs hdef
    exact calls_of_action_count F (isChain_nodup hc) hs hdef
  · rw [invoke_all_cur_state]
  · rw [invoke_all_globals]

/-- C9, an instance: the leaf 2 of the demo forest is three levels deep and all
three levels define an action. -/
theorem C9_action_chain_without_event_witness :
    ∃ m1, a_fsm_process demo_forest 4 (demo_start event_e.EVENT_NONE) = .ok m1 ∧
      m1.log = (demo_start event_e.EVENT_NONE).log ++
        ([2, 1, 0].filter (fun s => (demo_forest s).action.isSome)).map Call.action ∧
      (∀ s ∈ [2, 1, 0], (demo_forest s).action.isSome = true →
        (List.count (Call.action s)
          (([2, 1, 0].filter (fun s => (demo_forest s).action.isSome)).map Call.action)) = 1) ∧
      m1.cur_state = (demo_start event_e.EVENT_NONE).cur_state ∧
      m1.globals = apply_all State.action demo_forest [2, 1, 0]
        (demo_start event_e.EVENT_NONE).globals :=
  C9_action_chain_without_event demo_forest (demo_start event_e.EVENT_NONE) [2, 1, 0] 4
    rfl (by decide) (by decide)

/-- C10 (as amended).  When the pending event resolves to a next state different
from the current one, in a finite forest, and the states to enter fit the path
buffer of `enter_down_to`, `a_fsm_process` returns with the next state current,
and the pending event is cleared after the exit and entry callbacks and before
the action chain: the
globals on return are those left by the exit and entry callbacks, with
`cur_event` reset to `EVENT_NONE`, and then run through the action callbacks of
the new chain.  So the pending event on return is `EVENT_NONE` when no action
callback of the new chain changes it. -/
theorem C10_event_cleared_before_actions {W : Type} (F : Forest W) (m : Fsm W)
    (cur next : Nat) (cs ns : List Nat) (fuel : Nat) (hcur : m.cur_state = some cur)
    (hc : isChain F (some cur) cs = true) (hn : isChain F (some next) ns = true)
    (he : m.globals.cur_event ≠ event_e.EVENT_NONE)
    (hd : first_answer F m.globals.cur_event cs = some next) (hne : next ≠ cur)
    (hbuf : (up_to_excluding ns (deepest_common cs ns)).length ≤ FSM_DEPTH)
    (hfc : cs.length < fuel) (hfn : ns.length < fuel) :
    ∃ m1, a_fsm_process F fuel m = .ok m1 ∧
      m1.cur_state = some next ∧
      m1.globals = apply_all State.action F ns
        { apply_all State.entry F (up_to_excluding ns (deepest_common cs ns)).reverse
            (apply_all State.exit F (up_to_excluding cs (deepest_common cs ns)) m.globals) with
          cur_event := event_e.EVENT_NONE } ∧
      ((∀ s ∈ ns, ∀ a, (F s).action = some a → ∀ g, (a g).cur_event = g.cur_event) →
        m1.globals.cur_event = event_e.EVENT_NONE) := by
  have hc1 : isChain F m.cur_state cs = true := by rw [hcur]; exact hc
  have hne1 : some next ≠ m.cur_state := by rw [hcur]; simpa using hne
  have hg : (invoke_all Call.action State.action F ns (after_entry F cs ns m)).globals =
      apply_all State.action F ns
        { apply_all State.entry F (up_to_excluding ns (deepest_common cs ns)).reverse
            (apply_all State.exit F (up_to_excluding cs (deepest_common cs ns)) m.globals) with
          cur_event := event_e.EVENT_NONE } := by
    simp [invoke_all_globals, after_entry]
  refine ⟨_, process_transition he hc1 hn hd hne1 hbuf hfc hfn, ?_, hg, fun hq => ?_⟩
  · simp [invoke_all_cur_state, after_entry, isChain_headPtr hn]
  · rw [hg, apply_all_cur_event State.action F ns hq]

/-- C10, an instance: in the demo forest the leaf 2 with `EVENT_ERROR` pending
moves to the root 4, whose entry triggers `EVENT_OK`; the trigger is cleared. -/
theorem C10_event_cleared_before_actions_witness :
    ∃ m1, a_fsm_process demo_forest 4 (demo_start event_e.EVENT_ERROR) = .ok m1 ∧
      m1.cur_state = some 4 ∧
      m1.globals = apply_all State.action demo_forest [4]
        { apply_all State.entry demo_forest
            (up_to_excluding [4] (deepest_common [2, 1, 0] [4])).reverse
            (apply_all State.exit demo_forest
              (up_to_excluding [2, 1, 0] (deepest_common [2, 1, 0] [4]))
              (demo_start event_e.EVENT_ERROR).globals) with
          cur_event := event_e.EVENT_NONE } ∧
      ((∀ s ∈ [4], ∀ a, (demo_forest s).action = some a →
          ∀ g, (a g).cur_event = g.cur_event) →
        m1.globals.cur_event = event_e.EVENT_NONE) :=
  C10_event_cleared_before_actions demo_forest (demo_start event_e.EVENT_ERROR) 2 4
    [2, 1, 0] [4] 4 rfl (by decide) (by decide) (by decide) (by decide) (by decide)
    (by decide) (by decide) (by decide)

end EngineClaims3

/-! ## The concrete machine -/

section MachineClaims

/-- C5 (the code at the failing input).  In the concrete machine, with
`EVENT_ERROR` pending in `idle` or in `lift_moving`, `a_fsm_process` ends in the
error state, whose entry has triggered `EVENT_OK`; but the engine clears the
pending event after the entry callbacks, so on return the pending event is
`EVENT_NONE`, and the following `a_fsm_process` leaves the machine in the error
state. -/
theorem C5_error_entry_request_is_cleared (B : Board) (w : World) :
    (∃ m1, a_fsm_process (machine B) 3 (machine_at ptr_idle event_e.EVENT_ERROR w) = .ok m1 ∧
      m1.cur_state = some ptr_error ∧
      m1.log = [Call.handle_event ptr_idle event_e.EVENT_ERROR,
        Call.handle_event ptr_normal event_e.EVENT_ERROR, Call.entry ptr_error] ∧
      m1.globals.cur_event = event_e.EVENT_NONE ∧
      ∃ m2, a_fsm_process (machine B) 3 m1 = .ok m2 ∧
        m2.cur_state = some ptr_error ∧ m2.globals.cur_event = event_e.EVENT_NONE) ∧
    (∃ m1, a_fsm_process (machine B) 3
        (machine_at ptr_lift_moving event_e.EVENT_ERROR w) = .ok m1 ∧
      m1.cur_state = some ptr_error ∧
      m1.log = [Call.handle_event ptr_lift_moving event_e.EVENT_ERROR,
        Call.handle_event ptr_normal event_e.EVENT_ERROR, Call.exit ptr_lift_moving,
        Call.entry ptr_error] ∧
      m1.globals.cur_event = event_e.EVENT_NONE ∧
      ∃ m2, a_fsm_process (machine B) 3 m1 = .ok m2 ∧
        m2.cur_state = some ptr_error ∧ m2.globals.cur_event = event_e.EVENT_NONE) :=
  ⟨⟨_, rfl, rfl, rfl, rfl, _, rfl, rfl, rfl⟩, ⟨_, rfl, rfl, rfl, rfl, _, rfl, rfl, rfl⟩⟩

end MachineClaims

/-! ## The PID controller -/

section PidClaims

theorem calculate_run_out (p : PID) (t a dt : ℚ) :
    (calculate_run p t a dt).out =
      if has_bit p.features_ PID_FEAT_OUTPUT_RATE_LIMIT ∧ dt > 0 ∧
          PID_ABS ((calculate_run p t a dt).clamped - p._prev_output_) >
            p.output_max_rate_ * dt then
        p._prev_output_ +
          (if (calculate_run p t a dt).clamped - p._prev_output_ > 0 then
            p.output_max_rate_ * dt
          else -(p.output_max_rate_ * dt))
      else (calculate_run p t a dt).clamped := rfl

theorem calculate_run_clamped (p : PID) (t a dt : ℚ) :
    (calculate_run p t a dt).clamped =
      if has_bit p.features_ PID_FEAT_OUTPUT_LIMIT then
        PID_CLAMP (calculate_run p t a dt).total_output (-p.max_out_) p.max_out_
      else (calculate_run p t a dt).total_output := rfl

theorem calculate_run_integral (p : PID) (t a dt : ℚ) :
    (calculate_run p t a dt).pid.integral_ =
      if (has_bit p.mode_ PID_MODE_I ∧ has_bit p.features_ PID_FEAT_ANTI_WINDUP ∧
          has_bit p.features_ PID_FEAT_OUTPUT_LIMIT) ∧
          (PID_ABS p.kp_ > 1 / 1000000 ∧ PID_ABS p.ki_ > 1 / 1000000) then
        (calculate_run p t a dt).integral_acc -
          ((calculate_run p t a dt).total_output - (calculate_run p t a dt).out) *
            (p.ki_ / p.kp_) * dt
      else (calculate_run p t a dt).integral_acc := rfl

theorem calculate_run_integral_acc (p : PID) (t a dt : ℚ) :
    (calculate_run p t a dt).integral_acc =
      if has_bit p.mode_ PID_MODE_I ∧
          (if has_bit p.features_ PID_FEAT_ANTI_WINDUP ∧
              ((p._prev_output_ ≥ p.max_out_ ∧ (calculate_run p t a dt).err > 0) ∨
                (p._prev_output_ ≤ -p.max_out_ ∧ (calculate_run p t a dt).err < 0)) then false
            else true) = true then
        p.integral_ +
          (if dt > 0 then (calculate_run p t a dt).err * dt else (calculate_run p t a dt).err)
      else p.integral_ := rfl

theorem calculate_run_err (p : PID) (t a dt : ℚ) :
    (calculate_run p t a dt).err =
      if has_bit p.features_ PID_FEAT_DEADBAND ∧ PID_ABS (t - a) < p.dead_band_ then 0
      else t - a := rfl

theorem PID_CLAMP_bounds (v m : ℚ) (hm : 0 ≤ m) :
    -m ≤ PID_CLAMP v (-m) m ∧ PID_CLAMP v (-m) m ≤ m := by
  unfold PID_CLAMP
  split_ifs <;> constructor <;> linarith

/-- With the output limit on and non-negative `max_out` and rate, a call from a
controller whose previous output is within the limit returns a value within the
limit. -/
theorem calculate_out_bounds (p : PID) (t a dt : ℚ)
    (hlim : has_bit p.features_ PID_FEAT_OUTPUT_LIMIT) (hmax : 0 ≤ p.max_out_)
    (hrate : 0 ≤ p.output_max_rate_)
    (hprev : -p.max_out_ ≤ p._prev_output_ ∧ p._prev_output_ ≤ p.max_out_) :
    -p.max_out_ ≤ (calculate_run p t a dt).out ∧ (calculate_run p t a dt).out ≤ p.max_out_ := by
  have hc : -p.max_out_ ≤ (calculate_run p t a dt).clamped ∧
      (calculate_run p t a dt).clamped ≤ p.max_out_ := by
    rw [calculate_run_clamped, if_pos hlim]
    exact PID_CLAMP_bounds _ _ hmax
  rw [calculate_run_out]
  generalize (calculate_run p t a dt).clamped = c at hc ⊢
  obtain ⟨hc1, hc2⟩ := hc
  obtain ⟨hp1, hp2⟩ := hprev
  split_ifs with h1 h2
  · obtain ⟨-, hdt, habs⟩ := h1
    have hmc : 0 ≤ p.output_max_rate_ * dt := mul_nonneg hrate (le_of_lt hdt)
    have : PID_ABS (c - p._prev_output_) = c - p._prev_output_ := by
      unfold PID_ABS; rw [if_pos (le_of_lt h2)]
    rw [this] at habs
    constructor <;> linarith
  · obtain ⟨-, hdt, habs⟩ := h1
    have hmc : 0 ≤ p.output_max_rate_ * dt := mul_nonneg hrate (le_of_lt hdt)
    have : PID_ABS (c - p._prev_output_) = -(c - p._prev_output_) := by
      unfold PID_ABS
      split_ifs with h3
      · have : c - p._prev_output_ = 0 := le_antisymm (not_lt.1 h2) h3
        rw [this]; simp
      · rfl
    rw [this] at habs
    constructor <;> linarith
  · exact ⟨hc1, hc2⟩

theorem outputs_bounds (p : PID) (inputs : List (ℚ × ℚ × ℚ))
    (hlim : has_bit p.features_ PID_FEAT_OUTPUT_LIMIT) (hmax : 0 ≤ p.max_out_)
    (hrate : 0 ≤ p.output_max_rate_)
    (hprev : -p.max_out_ ≤ p._prev_output_ ∧ p._prev_output_ ≤ p.max_out_) :
    ∀ o ∈ outputs p inputs, -p.max_out_ ≤ o ∧ o ≤ p.max_out_ := by
  induction inputs generalizing p with
  | nil => simp [outputs]
  | cons x rest ih =>
    obtain ⟨t, a, dt⟩ := x
    intro o ho
    have hb := calculate_out_bounds p t a dt hlim hmax hrate hprev
    simp only [outputs, List.mem_cons] at ho
    rcases ho with rfl | ho
    · exact hb
    · exact ih (_calculate p t a dt).2 hlim hmax hrate hb o ho

end PidClaims

section PidClaims2

/-- C8 (as amended).  For a freshly initialised controller with mode PID, the
output limit, gains 0.8, 0.01, 0.5 and `max_out = 10`, the first call
`_calculate(100, 90, 0.01)` returns `0.8*10 + 0.01*(10*0.01) + 0.5*((10-0)/0.01)`,
that is 508.001, clamped to `[-10, 10]`: exactly 10.  The derivative term of the
first call is 500, not 0. -/
theorem C8_scenario_first_call (p0 : PID) :
    (calculate_run (scenario_pid p0) 100 90 (1 / 100)).diff = (10 - 0) / (1 / 100) ∧
      (calculate_run (scenario_pid p0) 100 90 (1 / 100)).total_output =
        8 / 10 * 10 + 1 / 100 * (10 * (1 / 100)) + 5 / 10 * ((10 - 0) / (1 / 100)) ∧
      (_calculate (scenario_pid p0) 100 90 (1 / 100)).1 =
        PID_CLAMP (8 / 10 * 10 + 1 / 100 * (10 * (1 / 100)) + 5 / 10 * ((10 - 0) / (1 / 100)))
          (-10) 10 ∧
      (_calculate (scenario_pid p0) 100 90 (1 / 100)).1 = 10 := by
  norm_num +decide [_calculate, calculate_run, scenario_pid, _init, _set_gains, _set_params,
    PID_MODE_PID, PID_MODE_P, PID_MODE_I, PID_MODE_D, PID_FEAT_OUTPUT_LIMIT,
    PID_FEAT_ANTI_WINDUP, PID_FEAT_DEADBAND, PID_FEAT_INTEGRAL_SEP, PID_FEAT_DIFF_ON_MEAS,
    PID_FEAT_DIFF_FILTER, PID_FEAT_FEEDFORWARD, PID_FEAT_OUTPUT_RATE_LIMIT, PID_CLAMP, PID_ABS]

/-- C8, as stated, fails: the value `0.8*10 + 0.01*10*0.01 + 0` clamped to
`[-10, 10]` is 8.001, and the first call of the scenario does not return it. -/
theorem C8_counterexample_derivative_kick :
    PID_CLAMP (8 / 10 * 10 + 1 / 100 * 10 * (1 / 100) + 0) (-10) 10 = 8001 / 1000 ∧
      (_calculate (scenario_pid blank_pid) 100 90 (1 / 100)).1 ≠
        PID_CLAMP (8 / 10 * 10 + 1 / 100 * 10 * (1 / 100) + 0) (-10) 10 := by
  norm_num +decide [_calculate, calculate_run, scenario_pid, _init, _set_gains, _set_params,
    PID_MODE_PID, PID_MODE_P, PID_MODE_I, PID_MODE_D, PID_FEAT_OUTPUT_LIMIT,
    PID_FEAT_ANTI_WINDUP, PID_FEAT_DEADBAND, PID_FEAT_INTEGRAL_SEP, PID_FEAT_DIFF_ON_MEAS,
    PID_FEAT_DIFF_FILTER, PID_FEAT_FEEDFORWARD, PID_FEAT_OUTPUT_RATE_LIMIT, PID_CLAMP, PID_ABS]

end PidClaims2

section MachineClaims2

/-- C3, as stated, fails in the concrete machine: with `EVENT_OK` pending in
`idle` no handler of the chain `idle`, `normal` answers and the current state
stays `idle`, yet `EVENT_OK` is no longer pending when `a_fsm_process` returns:
the target is more than 5 units away, so `idle_action` has triggered
`EVENT_LIFT_MOVE`. -/
theorem C3_counterexample_idle_action_triggers :
    isChain (machine quiet_board) (some ptr_idle) [ptr_idle, ptr_normal] = true ∧
      first_answer (machine quiet_board) event_e.EVENT_OK [ptr_idle, ptr_normal] = none ∧
      ∃ m1, a_fsm_process (machine quiet_board) 3
          (machine_at ptr_idle event_e.EVENT_OK far_world) = .ok m1 ∧
        m1.cur_state = some ptr_idle ∧
        m1.globals.cur_event = event_e.EVENT_LIFT_MOVE := by
  refine ⟨by decide, by decide, _,
    @process_stay World (machine quiet_board) (machine_at ptr_idle event_e.EVENT_OK far_world)
      [ptr_idle, ptr_normal] 3 (by decide) (by decide) (by decide) (Or.inl (by decide)),
    ?_, ?_⟩
  · rw [invoke_all_cur_state]; rfl
  · rw [invoke_all_globals]
    norm_num [apply_all, machine, machine_at, state_idle, state_normal, idle_action,
      normal_action, quiet_board, far_world, a_fsm_trigger_event]

end MachineClaims2

section PidClaims3

theorem PID_ABS_eq_abs (x : ℚ) : PID_ABS x = |x| := by
  unfold PID_ABS
  split_ifs with h
  · exact (abs_of_nonneg h).symm
  · exact (abs_of_neg (not_le.1 h)).symm

/-- C11.  With the deadband feature enabled and `|target - actual| < dead_band`,
the error of the call is forced to 0, and `_calculate(target, actual, dt)`
returns the same output and leaves the same controller as
`_calculate(actual, actual, dt)`; all values computed on the way agree as well. -/
theorem C11_deadband_zero_error (p : PID) (t a dt : ℚ)
    (hdb : has_bit p.features_ PID_FEAT_DEADBAND) (h : |t - a| < p.dead_band_) :
    (calculate_run p t a dt).err = 0 ∧
      calculate_run p t a dt = calculate_run p a a dt ∧
      (_calculate p t a dt).1 = (_calculate p a a dt).1 ∧
      (_calculate p t a dt).2 = (_calculate p a a dt).2 := by
  have h1 : has_bit p.features_ PID_FEAT_DEADBAND ∧ PID_ABS (t - a) < p.dead_band_ :=
    ⟨hdb, by rw [PID_ABS_eq_abs]; exact h⟩
  have hrun : calculate_run p t a dt = calculate_run p a a dt := by
    simp only [calculate_run, if_pos h1, sub_self, ite_self]
  refine ⟨?_, hrun, ?_, ?_⟩
  · rw [calculate_run_err, if_pos h1]
  · simp only [_calculate, hrun]
  · simp only [_calculate, hrun]

/-- C12.  The function `_reset` sets output, accumulator, previous error,
filtered derivative, previous output and previous measurement to 0, leaves
mode, features, the three gains, the five limits and the feedforward value
unchanged, and is idempotent. -/
theorem C12_reset_frame (p : PID) :
    ((_reset p).output_ = 0 ∧ (_reset p).integral_ = 0 ∧ (_reset p).prev_err_ = 0 ∧
      (_reset p)._filtered_diff_ = 0 ∧ (_reset p)._prev_output_ = 0 ∧
      (_reset p)._prev_measurement_ = 0) ∧
    ((_reset p).mode_ = p.mode_ ∧ (_reset p).features_ = p.features_ ∧
      (_reset p).kp_ = p.kp_ ∧ (_reset p).ki_ = p.ki_ ∧ (_reset p).kd_ = p.kd_ ∧
      (_reset p).max_out_ = p.max_out_ ∧
      (_reset p).integral_separation_ = p.integral_separation_ ∧
      (_reset p).dead_band_ = p.dead_band_ ∧
      (_reset p).diff_filter_alpha_ = p.diff_filter_alpha_ ∧
      (_reset p).output_max_rate_ = p.output_max_rate_ ∧
      (_reset p).ff_value_ = p.ff_value_) ∧
    _reset (_reset p) = _reset p :=
  ⟨⟨rfl, rfl, rfl, rfl, rfl, rfl⟩, ⟨rfl, rfl, rfl, rfl, rfl, rfl, rfl, rfl, rfl, rfl, rfl⟩, rfl⟩

/-- C13.  For every controller `p` and every memory `p0` a fresh controller is
built in: `_reset p` is the same controller as the one freshly initialised (by
`_init` and the setters, or by `_init_cfg`) with the mode, features, gains,
limits and feedforward value of `p`.  So `_calculate` returns the same output and
leaves the same controller from both, and so does every sequence of calls. -/
theorem C13_reset_is_fresh (p p0 : PID) (t a dt : ℚ) (inputs : List (ℚ × ℚ × ℚ)) :
    _reset p = fresh_like p0 p ∧ _reset p = fresh_cfg_like p0 p ∧
      (_calculate (_reset p) t a dt).1 = (_calculate (fresh_like p0 p) t a dt).1 ∧
      (_calculate (_reset p) t a dt).2 = (_calculate (fresh_like p0 p) t a dt).2 ∧
      outputs (_reset p) inputs = outputs (fresh_like p0 p) inputs := by
  have h1 : _reset p = fresh_like p0 p := rfl
  have h2 : _reset p = fresh_cfg_like p0 p := rfl
  refine ⟨h1, h2, ?_, ?_, ?_⟩ <;> rw [← h1]

/-- C19.  Triggering an event is total on events, sets the pending event to the
given one whatever it was, and changes nothing else: not the current state, not
the world, not the log.  A second trigger overwrites the first. -/
theorem C19_trigger_last_write_wins {W : Type} (m : Fsm W) (e1 e2 : event_e) :
    (Fsm.trigger e1 m).globals.cur_event = e1 ∧
      (Fsm.trigger e1 m).cur_state = m.cur_state ∧
      (Fsm.trigger e1 m).globals.world = m.globals.world ∧
      (Fsm.trigger e1 m).log = m.log ∧
      Fsm.trigger e2 (Fsm.trigger e1 m) = Fsm.trigger e2 m ∧
      (∀ g : Globals W,
        a_fsm_trigger_event e2 (a_fsm_trigger_event e1 g) = a_fsm_trigger_event e2 g) :=
  ⟨rfl, rfl, rfl, rfl, rfl, fun _ => rfl⟩

end PidClaims3

section PidClaims4

theorem calculate_dead_band (p : PID) (v t a dt : ℚ)
    (h : ¬ has_bit p.features_ PID_FEAT_DEADBAND) :
    (_calculate { p with dead_band_ := v } t a dt).1 = (_calculate p t a dt).1 ∧
      (_calculate { p with dead_band_ := v } t a dt).2 =
        { (_calculate p t a dt).2 with dead_band_ := v } := by
  simp [_calculate, calculate_run, h]

theorem calculate_integral_separation (p : PID) (v t a dt : ℚ)
    (h : ¬ has_bit p.features_ PID_FEAT_INTEGRAL_SEP) :
    (_calculate { p with integral_separation_ := v } t a dt).1 = (_calculate p t a dt).1 ∧
      (_calculate { p with integral_separation_ := v } t a dt).2 =
        { (_calculate p t a dt).2 with integral_separation_ := v } := by
  simp [_calculate, calculate_run, h]

theorem calculate_diff_filter_alpha (p : PID) (v t a dt : ℚ)
    (h : ¬ has_bit p.features_ PID_FEAT_DIFF_FILTER) :
    (_calculate { p with diff_filter_alpha_ := v } t a dt).1 = (_calculate p t a dt).1 ∧
      (_calculate { p with diff_filter_alpha_ := v } t a dt).2 =
        { (_calculate p t a dt).2 with diff_filter_alpha_ := v } := by
  simp [_calculate, calculate_run, h]

theorem calculate_output_max_rate (p : PID) (v t a dt : ℚ)
    (h : ¬ has_bit p.features_ PID_FEAT_OUTPUT_RATE_LIMIT) :
    (_calculate { p with output_max_rate_ := v } t a dt).1 = (_calculate p t a dt).1 ∧
      (_calculate { p with output_max_rate_ := v } t a dt).2 =
        { (_calculate p t a dt).2 with output_max_rate_ := v } := by
  simp [_calculate, calculate_run, h]

theorem calculate_ff_value (p : PID) (v t a dt : ℚ)
    (h : ¬ has_bit p.features_ PID_FEAT_FEEDFORWARD) :
    (_calculate { p with ff_value_ := v } t a dt).1 = (_calculate p t a dt).1 ∧
      (_calculate { p with ff_value_ := v } t a dt).2 =
        { (_calculate p t a dt).2 with ff_value_ := v } := by
  simp [_calculate, calculate_run, h]

theorem outputs_dead_band (p : PID) (v : ℚ) (inputs : List (ℚ × ℚ × ℚ))
    (h : ¬ has_bit p.features_ PID_FEAT_DEADBAND) :
    outputs { p with dead_band_ := v } inputs = outputs p inputs := by
  induction inputs generalizing p with
  | nil => rfl
  | cons x rest ih =>
    obtain ⟨t, a, dt⟩ := x
    obtain ⟨h1, h2⟩ := calculate_dead_band p v t a dt h
    simp only [outputs]
    rw [h1, h2, ih (_calculate p t a dt).2 h]

theorem outputs_integral_separation (p : PID) (v : ℚ) (inputs : List (ℚ × ℚ × ℚ))
    (h : ¬ has_bit p.features_ PID_FEAT_INTEGRAL_SEP) :
    outputs { p with integral_separation_ := v } inputs = outputs p inputs := by
  induction inputs generalizing p with
  | nil => rfl
  | cons x rest ih =>
    obtain ⟨t, a, dt⟩ := x
    obtain ⟨h1, h2⟩ := calculate_integral_separation p v t a dt h
    simp only [outputs]
    rw [h1, h2, ih (_calculate p t a dt).2 h]

theorem outputs_diff_filter_alpha (p : PID) (v : ℚ) (inputs : List (ℚ × ℚ × ℚ))
    (h : ¬ has_bit p.features_ PID_FEAT_DIFF_FILTER) :
    outputs { p with diff_filter_alpha_ := v } inputs = outputs p inputs := by
  induction inputs generalizing p with
  | nil => rfl
  | cons x rest ih =>
    obtain ⟨t, a, dt⟩ := x
    obtain ⟨h1, h2⟩ := calculate_diff_filter_alpha p v t a dt h
    simp only [outputs]
    rw [h1, h2, ih (_calculate p t a dt).2 h]

theorem outputs_output_max_rate (p : PID) (v : ℚ) (inputs : List (ℚ × ℚ × ℚ))
    (h : ¬ has_bit p.features_ PID_FEAT_OUTPUT_RATE_LIMIT) :
    outputs { p with output_max_rate_ := v } inputs = outputs p inputs := by
  induction inputs generalizing p with
  | nil => rfl
  | cons x rest ih =>
    obtain ⟨t, a, dt⟩ := x
    obtain ⟨h1, h2⟩ := calculate_output_max_rate p v t a dt h
    simp only [outputs]
    rw [h1, h2, ih (_calculate p t a dt).2 h]

theorem outputs_ff_value (p : PID) (v : ℚ) (inputs : List (ℚ × ℚ × ℚ))
    (h : ¬ has_bit p.features_ PID_FEAT_FEEDFORWARD) :
    outputs { p with ff_value_ := v } inputs = outputs p inputs := by
  induction inputs generalizing p with
  | nil => rfl
  | cons x rest ih =>
    obtain ⟨t, a, dt⟩ := x
    obtain ⟨h1, h2⟩ := calculate_ff_value p v t a dt h
    simp only [outputs]
    rw [h1, h2, ih (_calculate p t a dt).2 h]

end PidClaims4

section EngineClaims4

variable {W : Type}

theorem enter_path_overflow {F : Forest W} {p : StatePtr} {l : List Nat}
    (h : isChain F p l = true) {fuel : Nat} (hf : l.length < fuel) (from_ : StatePtr)
    (path : List Nat)
    (hd : FSM_DEPTH < path.length + (l.takeWhile (fun x => !decide (some x = from_))).length) :
    path.length ≤ FSM_DEPTH → enter_path F from_ fuel p path = .error Fault.path_overflow := by
  induction l generalizing p fuel path with
  | nil => intro hp; simp at hd; omega
  | cons x t ih =>
    intro hp
    cases p with
    | none => simp [isChain] at h
    | some s =>
      obtain ⟨rfl, ht⟩ := isChain_cons.1 h
      cases fuel with
      | zero => simp at hf
      | succ n =>
        simp only [List.length_cons, Nat.add_lt_add_iff_right] at hf
        rw [enter_path]
        by_cases hs : some s = from_
        · simp [hs, List.takeWhile_cons] at hd
          omega
        · simp [List.takeWhile_cons, hs] at hd
          by_cases h1 : path.length < FSM_DEPTH
          · have h2 : FSM_DEPTH < (path ++ [s]).length +
                (t.takeWhile (fun x => !decide (some x = from_))).length := by
              simp only [List.length_append, List.length_singleton]; omega
            have h3 : (path ++ [s]).length ≤ FSM_DEPTH := by
              simp only [List.length_append, List.length_singleton]; omega
            simp [hs, h1, ih ht hf (path ++ [s]) h2 h3]
          · simp [hs, h1]

theorem process_transition_overflow {F : Forest W} {m : Fsm W} {next : Nat} {cs ns : List Nat}
    {fuel : Nat} (he : m.globals.cur_event ≠ event_e.EVENT_NONE)
    (hc : isChain F m.cur_state cs = true) (hn : isChain F (some next) ns = true)
    (hd : first_answer F m.globals.cur_event cs = some next) (hne : some next ≠ m.cur_state)
    (hbuf : FSM_DEPTH < (up_to_excluding ns (deepest_common cs ns)).length)
    (hfc : cs.length < fuel) (hfn : ns.length < fuel) :
    a_fsm_process F fuel m = .error Fault.path_overflow := by
  cases hcur : m.cur_state with
  | none =>
    rw [hcur] at hc
    rw [isChain_none.1 hc] at hd
    simp [first_answer] at hd
  | some cur =>
    rw [hcur] at hc hne
    simp only [a_fsm_process, he, ↓reduceIte, dispatch_event, hcur,
      dispatch_loop_chain hc hfc, hd, ne_eq, hne, not_false_eq_true,
      find_lca_chain hc hn hfc hfn]
    rw [exit_up_to_chain hc hfc]
    simp only []
    have hov := enter_path_overflow hn hfn (deepest_common cs ns) []
      (by simpa [up_to_excluding] using hbuf) (by simp)
    simp [enter_down_to, hov]

theorem mem_calls_of (c : Nat → Call) (f : State W → Option (Globals W → Globals W))
    (F : Forest W) (l : List Nat) (x : Call) :
    x ∈ calls_of c f F l ↔ ∃ s, s ∈ l ∧ (f (F s)).isSome = true ∧ c s = x := by
  simp [calls_of, List.mem_map, List.mem_filter, and_assoc]

/-- C20 (as amended).  For a transition between two different states `cur` and
`next` of a finite forest, with `lca` what `find_lca` returns: the exited states (the chain
of `cur` up to but excluding `lca`) and the entered states (the chain of `next`
up to but excluding `lca`) are disjoint, neither list repeats a state, and
neither contains `lca` or an ancestor of it.  When the entered states fit the
path buffer `a_fsm_process` returns, and the exit callbacks it has run are
exactly the defined ones of the exited states, the entry callbacks exactly the
defined ones of the entered states; otherwise the run ends in the buffer
overflow. -/
theorem C20_transition_paths (F : Forest W) (m : Fsm W) (cur next : Nat)
    (cs ns : List Nat) (fuel : Nat) (hcur : m.cur_state = some cur)
    (hc : isChain F (some cur) cs = true) (hn : isChain F (some next) ns = true)
    (he : m.globals.cur_event ≠ event_e.EVENT_NONE)
    (hd : first_answer F m.globals.cur_event cs = some next) (hne : next ≠ cur)
    (hfc : cs.length < fuel) (hfn : ns.length < fuel) :
    ∃ lca, find_lca F fuel (some cur) (some next) = .ok lca ∧
      (∀ x, x ∈ up_to_excluding cs lca → x ∉ up_to_excluding ns lca) ∧
      (up_to_excluding cs lca).Nodup ∧ (up_to_excluding ns lca).Nodup ∧
      (∀ a l, lca = some a → isChain F (some a) l = true →
        ∀ x ∈ l, x ∉ up_to_excluding cs lca ∧ x ∉ up_to_excluding ns lca) ∧
      ((up_to_excluding ns lca).length ≤ FSM_DEPTH →
        ∃ m1 app, a_fsm_process F fuel m = .ok m1 ∧ m1.log = m.log ++ app ∧
          ∀ s, (Call.exit s ∈ app ↔ s ∈ up_to_excluding cs lca ∧ (F s).exit.isSome = true) ∧
            (Call.entry s ∈ app ↔
              s ∈ up_to_excluding ns lca ∧ (F s).entry.isSome = true)) ∧
      (FSM_DEPTH < (up_to_excluding ns lca).length →
        a_fsm_process F fuel m = .error Fault.path_overflow) := by
  have hc1 : isChain F m.cur_state cs = true := by rw [hcur]; exact hc
  have hne1 : some next ≠ m.cur_state := by rw [hcur]; simpa using hne
  refine ⟨_, find_lca_chain hc hn hfc hfn, ?_⟩
  obtain ⟨a, b, suf, hca, hnb, ha, hb⟩ := chain_split hc hn
  have hsn : ∀ x ∈ suf, x ∈ ns := fun x hx => by rw [hnb]; exact List.mem_append_right _ hx
  have hsc : ∀ x ∈ suf, x ∈ cs := fun x hx => by rw [hca]; exact List.mem_append_right _ hx
  have hdc : deepest_common cs ns = headPtr suf := by
    rw [hca]; exact deepest_common_split ha hsn
  have hex : up_to_excluding cs (deepest_common cs ns) = a := by
    rw [hdc, hca]; exact takeWhile_ne_split (fun x hx hx2 => ha x hx (hsn x hx2))
  have hen : up_to_excluding ns (deepest_common cs ns) = b := by
    rw [hdc, hnb]; exact takeWhile_ne_split (fun x hx hx2 => hb x hx (hsc x hx2))
  have hcnd := isChain_nodup hc
  have hnnd := isChain_nodup hn
  rw [hca] at hcnd
  rw [hnb] at hnnd
  refine ⟨?_, ?_, ?_, ?_, fun hbuf => ?_, fun hbuf => ?_⟩
  · rw [hex, hen]
    intro x hx hx2
    exact ha x hx (by rw [hnb]; exact List.mem_append_left _ hx2)
  · rw [hex]; exact (List.nodup_append.1 hcnd).1
  · rw [hen]; exact (List.nodup_append.1 hnnd).1
  · intro a0 l hl hch x hx
    rw [hex, hen]
    have hsuf : isChain F (headPtr suf) suf = true := by
      rw [hca] at hc; exact isChain_append hc
    rw [hdc] at hl
    rw [hl] at hsuf
    have hls : l = suf := isChain_unique hch hsuf
    subst hls
    exact ⟨fun h => (List.disjoint_of_nodup_append hcnd) h hx,
      fun h => (List.disjoint_of_nodup_append hnnd) h hx⟩
  · refine ⟨_, asked F m.globals.cur_event cs ++
        (calls_of Call.exit State.exit F (up_to_excluding cs (deepest_common cs ns)) ++
          (calls_of Call.entry State.entry F
              (up_to_excluding ns (deepest_common cs ns)).reverse ++
            calls_of Call.action State.action F ns)),
      process_transition he hc1 hn hd hne1 hbuf hfc hfn, ?_, ?_⟩
    · simp [invoke_all_log, after_entry]
    · intro s
      have hask := asked_handle_only F m.globals.cur_event cs
      constructor
      · simp only [List.mem_append, mem_calls_of]
        constructor
        · rintro (h | h | h | h)
          · obtain ⟨s1, h1⟩ := hask _ h
            cases h1
          · obtain ⟨s1, hs1, hdef, heq⟩ := h
            cases heq
            exact ⟨hs1, hdef⟩
          · obtain ⟨s1, -, -, heq⟩ := h
            cases heq
          · obtain ⟨s1, -, -, heq⟩ := h
            cases heq
        · rintro ⟨h1, h2⟩
          exact Or.inr (Or.inl ⟨s, h1, h2, rfl⟩)
      · simp only [List.mem_append, mem_calls_of]
        constructor
        · rintro (h | h | h | h)
          · obtain ⟨s1, h1⟩ := hask _ h
            cases h1
          · obtain ⟨s1, -, -, heq⟩ := h
            cases heq
          · obtain ⟨s1, hs1, hdef, heq⟩ := h
            cases heq
            exact ⟨List.mem_reverse.1 hs1, hdef⟩
          · obtain ⟨s1, -, -, heq⟩ := h
            cases heq
        · rintro ⟨h1, h2⟩
          exact Or.inr (Or.inr (Or.inl ⟨s, List.mem_reverse.2 h1, h2, rfl⟩))
  · exact process_transition_overflow he hc1 hn hd hne1 hbuf hfc hfn

end EngineClaims4

section MainClaims

/-- C17 (the code at the failing input).  With a height adjustment of 10
pending, the target at 103 and the lift going up: on the tick that finds the
position 100, error 3 and inside the dead zone of 5, the loop prints the status
line only; it neither stops the actuator nor emits `$LIFTER:OK#` nor clears the
height adjustment, and the same holds at every position from 98 to 102 and from
104 to 108.  Only on a tick that finds the position 103, error exactly 0, does it
stop, acknowledge and clear. -/
theorem C17_dead_zone_is_exact_zero :
    (main_loop_body 100 0 climbing_state).pb0 = true ∧
      (main_loop_body 100 0 climbing_state).pb1 = false ∧
      (main_loop_body 100 0 climbing_state).printed = [Printed.status 103 100 10 3] ∧
      (main_loop_body 100 0 climbing_state).height_difference = 10 ∧
      (∀ e : Int, -5 ≤ e → e ≤ 5 → e ≠ 0 →
        (main_loop_body (103 - e) 0 climbing_state).pb0 = true ∧
        (main_loop_body (103 - e) 0 climbing_state).pb1 = false ∧
        Printed.lifter_ok ∉ (main_loop_body (103 - e) 0 climbing_state).printed ∧
        (main_loop_body (103 - e) 0 climbing_state).height_difference = 10) ∧
      ((main_loop_body 103 0 climbing_state).pb0 = true ∧
        (main_loop_body 103 0 climbing_state).pb1 = true ∧
        (main_loop_body 103 0 climbing_state).printed =
          [Printed.status 103 103 10 0, Printed.lifter_ok] ∧
        (main_loop_body 103 0 climbing_state).height_difference = 0) := by
  refine ⟨?_, ?_, ?_, ?_, ?_, ?_, ?_, ?_, ?_⟩
  · norm_num [main_loop_body, climbing_state, drive_up, drive_down, drive_stop]
  · norm_num [main_loop_body, climbing_state, drive_up, drive_down, drive_stop]
  · norm_num [main_loop_body, climbing_state, drive_up, drive_down, drive_stop]
  · norm_num [main_loop_body, climbing_state, drive_up, drive_down, drive_stop]
  · intro e h1 h2 h3
    have h4 : ¬ (5 < e) := not_lt.2 h2
    have h5 : ¬ (e < -5) := not_lt.2 h1
    simp [main_loop_body, climbing_state, drive_up, drive_down, drive_stop, h3, h4, h5]
  · norm_num [main_loop_body, climbing_state, drive_up, drive_down, drive_stop]
  · norm_num [main_loop_body, climbing_state, drive_up, drive_down, drive_stop]
  · norm_num [main_loop_body, climbing_state, drive_up, drive_down, drive_stop]
  · norm_num [main_loop_body, climbing_state, drive_up, drive_down, drive_stop]

end MainClaims

section MachineClaims3

theorem normal_action_cur_event (B : Board)
    (hev : ∀ g, (B.s_wireless_comms_process g).cur_event = g.cur_event) (g : Globals World) :
    (normal_action B g).cur_event = g.cur_event := by
  by_cases h : (B.s_wireless_comms_process g).world.tick_flag = true <;>
    simp [normal_action, h, hev]

theorem normal_action_ext (B : Board)
    (hx1 : ∀ g, (B.s_wireless_comms_process g).world.ext = g.world.ext)
    (hx2 : ∀ w, (B.lift_encoder_update w).ext = w.ext) (g : Globals World) :
    (normal_action B g).world.ext = g.world.ext := by
  by_cases h : (B.s_wireless_comms_process g).world.tick_flag = true <;>
    simp [normal_action, h, hx1, hx2]

theorem idle_action_ext (g : Globals World) : (idle_action g).world.ext = g.world.ext := by
  unfold idle_action
  split_ifs <;> rfl

theorem lift_moving_action_ext (g : Globals World) :
    ∃ c, (c = Ext.relay_set_dir RelayDir.RelayDirA ∨ c = Ext.relay_set_dir RelayDir.RelayDirB ∨
        c = Ext.relay_stop) ∧
      (lift_moving_action g).world.ext = g.world.ext ++ [c] := by
  unfold lift_moving_action
  simp only []
  split_ifs
  · exact ⟨_, Or.inl rfl, rfl⟩
  · exact ⟨_, Or.inr (Or.inl rfl), rfl⟩
  · exact ⟨_, Or.inr (Or.inr rfl), rfl⟩

/-- C18 (as amended).  In the concrete machine, on a board whose link processor
leaves the pending event alone and whose collaborators call no driver, starting
in `idle` with no event pending, position 0 and target 50: the first
`a_fsm_process` runs the actions of `idle` and `normal` and returns with
`EVENT_LIFT_MOVE` pending and `idle` still current; the second one makes
`lift_moving` current, having invoked, after the handler of `idle`, the entry of
`lift_moving` and then the actions of `lift_moving` and `normal`.  Over both
calls no exit callback has run, the entry of `lift_moving` has run exactly once,
the action of `normal` has run, and the drivers have received the start marker
once, followed by one relay command. -/
theorem C18_idle_to_moving_in_two_calls (B : Board) (w : World)
    (hev : ∀ g, (B.s_wireless_comms_process g).cur_event = g.cur_event)
    (hx1 : ∀ g, (B.s_wireless_comms_process g).world.ext = g.world.ext)
    (hx2 : ∀ w, (B.lift_encoder_update w).ext = w.ext)
    (hpos : w.position = 0) (htgt : w.lift_target_pos_mm = 50) :
    ∃ m1 m2, a_fsm_process (machine B) 3 (machine_init w) = .ok m1 ∧
      m1.cur_state = some ptr_idle ∧
      m1.globals.cur_event = event_e.EVENT_LIFT_MOVE ∧
      m1.log = [Call.action ptr_idle, Call.action ptr_normal] ∧
      a_fsm_process (machine B) 3 m1 = .ok m2 ∧
      m2.cur_state = some ptr_lift_moving ∧
      m2.log = [Call.action ptr_idle, Call.action ptr_normal,
        Call.handle_event ptr_idle event_e.EVENT_LIFT_MOVE, Call.entry ptr_lift_moving,
        Call.action ptr_lift_moving, Call.action ptr_normal] ∧
      (∃ c, (c = Ext.relay_set_dir RelayDir.RelayDirA ∨
          c = Ext.relay_set_dir RelayDir.RelayDirB ∨ c = Ext.relay_stop) ∧
        m2.globals.world.ext = w.ext ++ [Ext.printf "$LIFT:START#", c]) := by
  have h1 := @process_no_event World (machine B) (machine_init w) [ptr_idle, ptr_normal] 3
    rfl rfl (by decide)
  have hg1 : (invoke_all Call.action State.action (machine B) [ptr_idle, ptr_normal]
      (machine_init w)).globals =
      normal_action B (a_fsm_trigger_event event_e.EVENT_LIFT_MOVE (machine_init w).globals) := by
    rw [invoke_all_globals]
    simp [apply_all, machine, state_idle, state_normal, idle_action, machine_init, machine_at,
      hpos, htgt]
    norm_num
  have hs1 : (invoke_all Call.action State.action (machine B) [ptr_idle, ptr_normal]
      (machine_init w)).cur_state = some ptr_idle := by
    rw [invoke_all_cur_state]; rfl
  have he1 : (invoke_all Call.action State.action (machine B) [ptr_idle, ptr_normal]
      (machine_init w)).globals.cur_event = event_e.EVENT_LIFT_MOVE := by
    rw [hg1, normal_action_cur_event B hev]; rfl
  have hl1 : (invoke_all Call.action State.action (machine B) [ptr_idle, ptr_normal]
      (machine_init w)).log = [Call.action ptr_idle, Call.action ptr_normal] := by
    rw [invoke_all_log]; rfl
  have hx : (invoke_all Call.action State.action (machine B) [ptr_idle, ptr_normal]
      (machine_init w)).globals.world.ext = w.ext := by
    rw [hg1, normal_action_ext B hx1 hx2]; rfl
  have h2 := @process_transition World (machine B) _ ptr_lift_moving [ptr_idle, ptr_normal]
    [ptr_lift_moving, ptr_normal] 3 (by rw [he1]; decide) (by rw [hs1]; rfl) rfl
    (by rw [he1]; rfl) (by rw [hs1]; decide) (by decide) (by decide) (by decide)
  refine ⟨_, _, h1, hs1, he1, hl1, h2, ?_, ?_, ?_⟩
  · rw [invoke_all_cur_state]; rfl
  · rw [invoke_all_log]
    simp only [after_entry, invoke_all_log, hl1, he1]
    rfl
  · rw [invoke_all_globals]
    simp only [apply_all, after_entry, invoke_all_globals]
    simp only [machine, state_idle, state_lift_moving, state_normal]
    rw [normal_action_ext B hx1 hx2]
    obtain ⟨c, hc, hce⟩ := lift_moving_action_ext
      { cur_event := event_e.EVENT_NONE,
        world := (lift_moving_entry
          (normal_action B (idle_action (machine_init w).globals))).world }
    refine ⟨c, hc, ?_⟩
    rw [hce]
    simp only [lift_moving_entry, call_ext, normal_action_ext B hx1 hx2, idle_action_ext]
    simp [machine_init, machine_at]

/-- C18, an instance: the quiet board and the world whose target is 50 away. -/
theorem C18_idle_to_moving_in_two_calls_witness :
    ∃ m1 m2, a_fsm_process (machine quiet_board) 3 (machine_init far_world) = .ok m1 ∧
      m1.cur_state = some ptr_idle ∧
      m1.globals.cur_event = event_e.EVENT_LIFT_MOVE ∧
      m1.log = [Call.action ptr_idle, Call.action ptr_normal] ∧
      a_fsm_process (machine quiet_board) 3 m1 = .ok m2 ∧
      m2.cur_state = some ptr_lift_moving ∧
      m2.log = [Call.action ptr_idle, Call.action ptr_normal,
        Call.handle_event ptr_idle event_e.EVENT_LIFT_MOVE, Call.entry ptr_lift_moving,
        Call.action ptr_lift_moving, Call.action ptr_normal] ∧
      (∃ c, (c = Ext.relay_set_dir RelayDir.RelayDirA ∨
          c = Ext.relay_set_dir RelayDir.RelayDirB ∨ c = Ext.relay_stop) ∧
        m2.globals.world.ext = far_world.ext ++ [Ext.printf "$LIFT:START#", c]) :=
  C18_idle_to_moving_in_two_calls quiet_board far_world (fun _ => rfl) (fun _ => rfl)
    (fun _ => rfl) rfl rfl

/-- C18, as stated, fails: from `idle` with no event pending, position 0 and
target 50, the first `a_fsm_process` returns with `idle` still current and no
entry callback run; it has only run the actions of `idle` and `normal`. -/
theorem C18_counterexample_first_call_stays_idle :
    ∃ m1, a_fsm_process (machine quiet_board) 3 (machine_init far_world) = .ok m1 ∧
      m1.cur_state = some ptr_idle ∧ m1.cur_state ≠ some ptr_lift_moving ∧
      m1.log = [Call.action ptr_idle, Call.action ptr_normal] := by
  refine ⟨_, @process_no_event World (machine quiet_board) (machine_init far_world)
    [ptr_idle, ptr_normal] 3 rfl rfl (by decide), ?_, ?_, ?_⟩
  · rw [invoke_all_cur_state]; rfl
  · rw [invoke_all_cur_state]; decide
  · rw [invoke_all_log]; rfl

end MachineClaims3

section PidClaims5

/-- C11, an instance: target 1 and measurement 0 inside a deadband of 2. -/
theorem C11_deadband_zero_error_witness :
    (calculate_run deadband_pid 1 0 1).err = 0 ∧
      calculate_run deadband_pid 1 0 1 = calculate_run deadband_pid 0 0 1 ∧
      (_calculate deadband_pid 1 0 1).1 = (_calculate deadband_pid 0 0 1).1 ∧
      (_calculate deadband_pid 1 0 1).2 = (_calculate deadband_pid 0 0 1).2 :=
  C11_deadband_zero_error deadband_pid 1 0 1 (by decide)
    (by norm_num [deadband_pid, blank_pid])

/-- C14.  For each of the features deadband, integral separation, derivative
filtering, output-rate limiting and feedforward: when its bit is cleared, giving
the feature's tuning value any other value `v` changes neither the output of
`_calculate` nor the controller it leaves (apart from the tuning value itself,
which the call does not touch), and so none of the outputs of a sequence of
calls. -/
theorem C14_cleared_feature_ignores_tuning (p : PID) (v t a dt : ℚ)
    (inputs : List (ℚ × ℚ × ℚ)) :
    (¬ has_bit p.features_ PID_FEAT_DEADBAND →
      (_calculate { p with dead_band_ := v } t a dt).1 = (_calculate p t a dt).1 ∧
      (_calculate { p with dead_band_ := v } t a dt).2 =
        { (_calculate p t a dt).2 with dead_band_ := v } ∧
      outputs { p with dead_band_ := v } inputs = outputs p inputs) ∧
    (¬ has_bit p.features_ PID_FEAT_INTEGRAL_SEP →
      (_calculate { p with integral_separation_ := v } t a dt).1 = (_calculate p t a dt).1 ∧
      (_calculate { p with integral_separation_ := v } t a dt).2 =
        { (_calculate p t a dt).2 with integral_separation_ := v } ∧
      outputs { p with integral_separation_ := v } inputs = outputs p inputs) ∧
    (¬ has_bit p.features_ PID_FEAT_DIFF_FILTER →
      (_calculate { p with diff_filter_alpha_ := v } t a dt).1 = (_calculate p t a dt).1 ∧
      (_calculate { p with diff_filter_alpha_ := v } t a dt).2 =
        { (_calculate p t a dt).2 with diff_filter_alpha_ := v } ∧
      outputs { p with diff_filter_alpha_ := v } inputs = outputs p inputs) ∧
    (¬ has_bit p.features_ PID_FEAT_OUTPUT_RATE_LIMIT →
      (_calculate { p with output_max_rate_ := v } t a dt).1 = (_calculate p t a dt).1 ∧
      (_calculate { p with output_max_rate_ := v } t a dt).2 =
        { (_calculate p t a dt).2 with output_max_rate_ := v } ∧
      outputs { p with output_max_rate_ := v } inputs = outputs p inputs) ∧
    (¬ has_bit p.features_ PID_FEAT_FEEDFORWARD →
      (_calculate { p with ff_value_ := v } t a dt).1 = (_calculate p t a dt).1 ∧
      (_calculate { p with ff_value_ := v } t a dt).2 =
        { (_calculate p t a dt).2 with ff_value_ := v } ∧
      outputs { p with ff_value_ := v } inputs = outputs p inputs) :=
  ⟨fun h => ⟨(calculate_dead_band p v t a dt h).1, (calculate_dead_band p v t a dt h).2,
      outputs_dead_band p v inputs h⟩,
    fun h => ⟨(calculate_integral_separation p v t a dt h).1,
      (calculate_integral_separation p v t a dt h).2, outputs_integral_separation p v inputs h⟩,
    fun h => ⟨(calculate_diff_filter_alpha p v t a dt h).1,
      (calculate_diff_filter_alpha p v t a dt h).2, outputs_diff_filter_alpha p v inputs h⟩,
    fun h => ⟨(calculate_output_max_rate p v t a dt h).1,
      (calculate_output_max_rate p v t a dt h).2, outputs_output_max_rate p v inputs h⟩,
    fun h => ⟨(calculate_ff_value p v t a dt h).1, (calculate_ff_value p v t a dt h).2,
      outputs_ff_value p v inputs h⟩⟩

/-- C14, an instance: the controller of the scenario has only the output limit
enabled, so none of the five tuning values matters; here each is set to 7. -/
theorem C14_cleared_feature_ignores_tuning_witness :
    ((_calculate { scenario_pid blank_pid with dead_band_ := 7 } 100 90 (1 / 100)).1 =
        (_calculate (scenario_pid blank_pid) 100 90 (1 / 100)).1 ∧
      outputs { scenario_pid blank_pid with dead_band_ := 7 } [(100, 90, 1 / 100)] =
        outputs (scenario_pid blank_pid) [(100, 90, 1 / 100)]) ∧
    ((_calculate { scenario_pid blank_pid with integral_separation_ := 7 } 100 90 (1 / 100)).1 =
        (_calculate (scenario_pid blank_pid) 100 90 (1 / 100)).1 ∧
      outputs { scenario_pid blank_pid with integral_separation_ := 7 } [(100, 90, 1 / 100)] =
        outputs (scenario_pid blank_pid) [(100, 90, 1 / 100)]) ∧
    ((_calculate { scenario_pid blank_pid with diff_filter_alpha_ := 7 } 100 90 (1 / 100)).1 =
        (_calculate (scenario_pid blank_pid) 100 90 (1 / 100)).1 ∧
      outputs { scenario_pid blank_pid with diff_filter_alpha_ := 7 } [(100, 90, 1 / 100)] =
        outputs (scenario_pid blank_pid) [(100, 90, 1 / 100)]) ∧
    ((_calculate { scenario_pid blank_pid with output_max_rate_ := 7 } 100 90 (1 / 100)).1 =
        (_calculate (scenario_pid blank_pid) 100 90 (1 / 100)).1 ∧
      outputs { scenario_pid blank_pid with output_max_rate_ := 7 } [(100, 90, 1 / 100)] =
        outputs (scenario_pid blank_pid) [(100, 90, 1 / 100)]) ∧
    ((_calculate { scenario_pid blank_pid with ff_value_ := 7 } 100 90 (1 / 100)).1 =
        (_calculate (scenario_pid blank_pid) 100 90 (1 / 100)).1 ∧
      outputs { scenario_pid blank_pid with ff_value_ := 7 } [(100, 90, 1 / 100)] =
        outputs (scenario_pid blank_pid) [(100, 90, 1 / 100)]) :=
  have h := C14_cleared_feature_ignores_tuning (scenario_pid blank_pid) 7 100 90 (1 / 100)
    [(100, 90, 1 / 100)]
  ⟨⟨(h.1 (by decide)).1, (h.1 (by decide)).2.2⟩,
    ⟨(h.2.1 (by decide)).1, (h.2.1 (by decide)).2.2⟩,
    ⟨(h.2.2.1 (by decide)).1, (h.2.2.1 (by decide)).2.2⟩,
    ⟨(h.2.2.2.1 (by decide)).1, (h.2.2.2.1 (by decide)).2.2⟩,
    ⟨(h.2.2.2.2 (by decide)).1, (h.2.2.2.2 (by decide)).2.2⟩⟩

/-- C20, an instance: in the demo forest the leaf 2 with `EVENT_LIFT_MOVE` pending
moves to its sibling 3. -/
theorem C20_transition_paths_witness :
    ∃ lca, find_lca demo_forest 4 (some 2) (some 3) = .ok lca ∧
      (∀ x, x ∈ up_to_excluding [2, 1, 0] lca → x ∉ up_to_excluding [3, 1, 0] lca) ∧
      (up_to_excluding [2, 1, 0] lca).Nodup ∧ (up_to_excluding [3, 1, 0] lca).Nodup ∧
      (∀ a l, lca = some a → isChain demo_forest (some a) l = true →
        ∀ x ∈ l, x ∉ up_to_excluding [2, 1, 0] lca ∧ x ∉ up_to_excluding [3, 1, 0] lca) ∧
      ((up_to_excluding [3, 1, 0] lca).length ≤ FSM_DEPTH →
        ∃ m1 app, a_fsm_process demo_forest 4 (demo_start event_e.EVENT_LIFT_MOVE) = .ok m1 ∧
          m1.log = (demo_start event_e.EVENT_LIFT_MOVE).log ++ app ∧
          ∀ s, (Call.exit s ∈ app ↔
              s ∈ up_to_excluding [2, 1, 0] lca ∧ (demo_forest s).exit.isSome = true) ∧
            (Call.entry s ∈ app ↔
              s ∈ up_to_excluding [3, 1, 0] lca ∧ (demo_forest s).entry.isSome = true)) ∧
      (FSM_DEPTH < (up_to_excluding [3, 1, 0] lca).length →
        a_fsm_process demo_forest 4 (demo_start event_e.EVENT_LIFT_MOVE) =
          .error Fault.path_overflow) :=
  C20_transition_paths demo_forest (demo_start event_e.EVENT_LIFT_MOVE) 2 3 [2, 1, 0]
    [3, 1, 0] 4 rfl (by decide) (by decide) (by decide) (by decide) (by decide) (by decide)
    (by decide)

end PidClaims5

section PidClaims7

theorem has_bit_clear_sep (f : Nat) :
    (has_bit (clear_feature f PID_FEAT_INTEGRAL_SEP) PID_FEAT_INTEGRAL_SEP = False) ∧
      (has_bit (clear_feature f PID_FEAT_INTEGRAL_SEP) PID_FEAT_OUTPUT_LIMIT =
        has_bit f PID_FEAT_OUTPUT_LIMIT) ∧
      (has_bit (clear_feature f PID_FEAT_INTEGRAL_SEP) PID_FEAT_DEADBAND =
        has_bit f PID_FEAT_DEADBAND) ∧
      (has_bit (clear_feature f PID_FEAT_INTEGRAL_SEP) PID_FEAT_DIFF_FILTER =
        has_bit f PID_FEAT_DIFF_FILTER) ∧
      (has_bit (clear_feature f PID_FEAT_INTEGRAL_SEP) PID_FEAT_DIFF_ON_MEAS =
        has_bit f PID_FEAT_DIFF_ON_MEAS) ∧
      (has_bit (clear_feature f PID_FEAT_INTEGRAL_SEP) PID_FEAT_ANTI_WINDUP =
        has_bit f PID_FEAT_ANTI_WINDUP) ∧
      (has_bit (clear_feature f PID_FEAT_INTEGRAL_SEP) PID_FEAT_OUTPUT_RATE_LIMIT =
        has_bit f PID_FEAT_OUTPUT_RATE_LIMIT) ∧
      (has_bit (clear_feature f PID_FEAT_INTEGRAL_SEP) PID_FEAT_FEEDFORWARD =
        has_bit f PID_FEAT_FEEDFORWARD) := by
  have e0 : (PID_FEAT_ALL ^^^ PID_FEAT_INTEGRAL_SEP) &&& PID_FEAT_INTEGRAL_SEP = 0 := by decide
  have e1 : (PID_FEAT_ALL ^^^ PID_FEAT_INTEGRAL_SEP) &&& PID_FEAT_OUTPUT_LIMIT =
      PID_FEAT_OUTPUT_LIMIT := by decide
  have e2 : (PID_FEAT_ALL ^^^ PID_FEAT_INTEGRAL_SEP) &&& PID_FEAT_DEADBAND =
      PID_FEAT_DEADBAND := by decide
  have e3 : (PID_FEAT_ALL ^^^ PID_FEAT_INTEGRAL_SEP) &&& PID_FEAT_DIFF_FILTER =
      PID_FEAT_DIFF_FILTER := by decide
  have e4 : (PID_FEAT_ALL ^^^ PID_FEAT_INTEGRAL_SEP) &&& PID_FEAT_DIFF_ON_MEAS =
      PID_FEAT_DIFF_ON_MEAS := by decide
  have e5 : (PID_FEAT_ALL ^^^ PID_FEAT_INTEGRAL_SEP) &&& PID_FEAT_ANTI_WINDUP =
      PID_FEAT_ANTI_WINDUP := by decide
  have e6 : (PID_FEAT_ALL ^^^ PID_FEAT_INTEGRAL_SEP) &&& PID_FEAT_OUTPUT_RATE_LIMIT =
      PID_FEAT_OUTPUT_RATE_LIMIT := by decide
  have e7 : (PID_FEAT_ALL ^^^ PID_FEAT_INTEGRAL_SEP) &&& PID_FEAT_FEEDFORWARD =
      PID_FEAT_FEEDFORWARD := by decide
  simp only [has_bit, clear_feature, Nat.land_assoc, e0, e1, e2, e3, e4, e5, e6, e7,
    Nat.and_zero, ne_eq, not_true_eq_false, and_self]



theorem calculate_run_diff (p : PID) (t a dt : ℚ) :
    (calculate_run p t a dt).diff =
      if has_bit p.mode_ PID_MODE_D then derivative_value p (calculate_run p t a dt).err a dt
      else 0 := rfl

theorem calculate_run_total (p : PID) (t a dt : ℚ) :
    (calculate_run p t a dt).total_output =
      if has_bit p.features_ PID_FEAT_FEEDFORWARD then
        (if has_bit p.mode_ PID_MODE_D then
          (if has_bit p.mode_ PID_MODE_I ∧
              (if has_bit p.features_ PID_FEAT_INTEGRAL_SEP ∧
                  PID_ABS (calculate_run p t a dt).err > p.integral_separation_ then true
                else false) = false then
            (if has_bit p.mode_ PID_MODE_P then 0 + p.kp_ * (calculate_run p t a dt).err
              else 0) + p.ki_ * (calculate_run p t a dt).integral_acc
          else
            (if has_bit p.mode_ PID_MODE_P then 0 + p.kp_ * (calculate_run p t a dt).err
              else 0)) + p.kd_ * derivative_value p (calculate_run p t a dt).err a dt
        else
          (if has_bit p.mode_ PID_MODE_I ∧
              (if has_bit p.features_ PID_FEAT_INTEGRAL_SEP ∧
                  PID_ABS (calculate_run p t a dt).err > p.integral_separation_ then true
                else false) = false then
            (if has_bit p.mode_ PID_MODE_P then 0 + p.kp_ * (calculate_run p t a dt).err
              else 0) + p.ki_ * (calculate_run p t a dt).integral_acc
          else
            (if has_bit p.mode_ PID_MODE_P then 0 + p.kp_ * (calculate_run p t a dt).err
              else 0))) + p.ff_value_
      else
        (if has_bit p.mode_ PID_MODE_D then
          (if has_bit p.mode_ PID_MODE_I ∧
              (if has_bit p.features_ PID_FEAT_INTEGRAL_SEP ∧
                  PID_ABS (calculate_run p t a dt).err > p.integral_separation_ then true
                else false) = false then
            (if has_bit p.mode_ PID_MODE_P then 0 + p.kp_ * (calculate_run p t a dt).err
              else 0) + p.ki_ * (calculate_run p t a dt).integral_acc
          else
            (if has_bit p.mode_ PID_MODE_P then 0 + p.kp_ * (calculate_run p t a dt).err
              else 0)) + p.kd_ * derivative_value p (calculate_run p t a dt).err a dt
        else
          (if has_bit p.mode_ PID_MODE_I ∧
              (if has_bit p.features_ PID_FEAT_INTEGRAL_SEP ∧
                  PID_ABS (calculate_run p t a dt).err > p.integral_separation_ then true
                else false) = false then
            (if has_bit p.mode_ PID_MODE_P then 0 + p.kp_ * (calculate_run p t a dt).err
              else 0) + p.ki_ * (calculate_run p t a dt).integral_acc
          else
            (if has_bit p.mode_ PID_MODE_P then 0 + p.kp_ * (calculate_run p t a dt).err
              else 0))) := rfl

theorem sep_integral_acc (p : PID) (t a dt : ℚ) :
    (calculate_run p t a dt).integral_acc =
      (calculate_run { p with features_ := clear_feature p.features_ PID_FEAT_INTEGRAL_SEP }
        t a dt).integral_acc := by
  obtain ⟨-, -, b2, -, -, b5, -, -⟩ := has_bit_clear_sep p.features_
  rw [calculate_run_integral_acc, calculate_run_integral_acc, calculate_run_err,
    calculate_run_err]
  simp only [b2, b5]

theorem sep_total_above (p : PID) (t a dt : ℚ)
    (hsep : has_bit p.features_ PID_FEAT_INTEGRAL_SEP)
    (hbig : |(calculate_run p t a dt).err| > p.integral_separation_) :
    (calculate_run p t a dt).total_output =
      (if has_bit p.mode_ PID_MODE_P then p.kp_ * (calculate_run p t a dt).err else 0) +
        (if has_bit p.mode_ PID_MODE_D then p.kd_ * (calculate_run p t a dt).diff else 0) +
        (if has_bit p.features_ PID_FEAT_FEEDFORWARD then p.ff_value_ else 0) := by
  rw [← PID_ABS_eq_abs] at hbig
  have hc : has_bit p.features_ PID_FEAT_INTEGRAL_SEP ∧
      PID_ABS (calculate_run p t a dt).err > p.integral_separation_ := ⟨hsep, hbig⟩
  have hcond : ¬ (has_bit p.mode_ PID_MODE_I ∧
      (if has_bit p.features_ PID_FEAT_INTEGRAL_SEP ∧
          PID_ABS (calculate_run p t a dt).err > p.integral_separation_ then true
        else false) = false) := by
    rw [if_pos hc]; simp
  rw [calculate_run_total, calculate_run_diff]
  simp only [if_neg hcond]
  split_ifs <;> ring

theorem sep_total_below (p : PID) (t a dt : ℚ) (hI : has_bit p.mode_ PID_MODE_I)
    (hsmall : |(calculate_run p t a dt).err| ≤ p.integral_separation_) :
    (calculate_run p t a dt).total_output =
      (if has_bit p.mode_ PID_MODE_P then p.kp_ * (calculate_run p t a dt).err else 0) +
        p.ki_ * (calculate_run p t a dt).integral_acc +
        (if has_bit p.mode_ PID_MODE_D then p.kd_ * (calculate_run p t a dt).diff else 0) +
        (if has_bit p.features_ PID_FEAT_FEEDFORWARD then p.ff_value_ else 0) := by
  rw [← PID_ABS_eq_abs] at hsmall
  have hc : ¬ (has_bit p.features_ PID_FEAT_INTEGRAL_SEP ∧
      PID_ABS (calculate_run p t a dt).err > p.integral_separation_) :=
    fun h => absurd h.2 (not_lt.2 hsmall)
  have hcond : has_bit p.mode_ PID_MODE_I ∧
      (if has_bit p.features_ PID_FEAT_INTEGRAL_SEP ∧
          PID_ABS (calculate_run p t a dt).err > p.integral_separation_ then true
        else false) = false := ⟨hI, by rw [if_neg hc]⟩
  rw [calculate_run_total, calculate_run_diff]
  simp only [if_pos hcond]
  split_ifs <;> ring

theorem sep_same_below (p : PID) (t a dt : ℚ)
    (hsmall : |(calculate_run p t a dt).err| ≤ p.integral_separation_) :
    (_calculate p t a dt).1 =
        (_calculate { p with features_ := clear_feature p.features_ PID_FEAT_INTEGRAL_SEP }
          t a dt).1 ∧
      (_calculate p t a dt).2.integral_ =
        (_calculate { p with features_ := clear_feature p.features_ PID_FEAT_INTEGRAL_SEP }
          t a dt).2.integral_ := by
  obtain ⟨b0, b1, b2, b3, b4, b5, b6, b7⟩ := has_bit_clear_sep p.features_
  rw [← PID_ABS_eq_abs, calculate_run_err] at hsmall
  have hc : ¬ (has_bit p.features_ PID_FEAT_INTEGRAL_SEP ∧
      PID_ABS (if has_bit p.features_ PID_FEAT_DEADBAND ∧ PID_ABS (t - a) < p.dead_band_ then 0
        else t - a) > p.integral_separation_) := fun h => absurd h.2 (not_lt.2 hsmall)
  constructor <;>
    simp only [_calculate, calculate_run, b0, b1, b2, b3, b4, b5, b6, b7, if_neg hc,
      false_and, if_false]

theorem sep_integral_without_back_calculation (p : PID) (t a dt : ℚ)
    (hoff : ¬ (has_bit p.features_ PID_FEAT_ANTI_WINDUP ∧
      has_bit p.features_ PID_FEAT_OUTPUT_LIMIT)) :
    (_calculate p t a dt).2.integral_ =
      (_calculate { p with features_ := clear_feature p.features_ PID_FEAT_INTEGRAL_SEP }
        t a dt).2.integral_ := by
  obtain ⟨-, b1, -, -, -, b5, -, -⟩ := has_bit_clear_sep p.features_
  have hb1 : ¬ ((has_bit p.mode_ PID_MODE_I ∧ has_bit p.features_ PID_FEAT_ANTI_WINDUP ∧
      has_bit p.features_ PID_FEAT_OUTPUT_LIMIT) ∧
      (PID_ABS p.kp_ > 1 / 1000000 ∧ PID_ABS p.ki_ > 1 / 1000000)) :=
    fun h => hoff ⟨h.1.2.1, h.1.2.2⟩
  show (calculate_run p t a dt).pid.integral_ = (calculate_run _ t a dt).pid.integral_
  rw [calculate_run_integral, calculate_run_integral, if_neg hb1]
  simp only [b1, b5]
  rw [if_neg hb1]
  exact sep_integral_acc p t a dt

/-- C22 (as amended).  With I active and integral separation enabled, compared
with the same controller with the separation bit cleared: the accumulation step
leaves the same accumulator on every call.  When `|error|` exceeds the
separation threshold the unclamped output is the sum of the proportional,
derivative and feedforward terms only, and the accumulator after the call is
that of the call without separation when output limit or anti-windup is off (so
that no back-calculation correction is taken from the output).  When `|error|` does not exceed the threshold the
unclamped output includes `ki * accumulator`, and output and accumulator of the
call are those of the call without separation. -/
theorem C22_integral_separation (p : PID) (t a dt : ℚ) (hI : has_bit p.mode_ PID_MODE_I)
    (hsep : has_bit p.features_ PID_FEAT_INTEGRAL_SEP) :
    (calculate_run p t a dt).integral_acc =
        (calculate_run { p with features_ := clear_feature p.features_ PID_FEAT_INTEGRAL_SEP }
          t a dt).integral_acc ∧
      (|(calculate_run p t a dt).err| > p.integral_separation_ →
        (calculate_run p t a dt).total_output =
            (if has_bit p.mode_ PID_MODE_P then p.kp_ * (calculate_run p t a dt).err else 0) +
              (if has_bit p.mode_ PID_MODE_D then p.kd_ * (calculate_run p t a dt).diff else 0) +
              (if has_bit p.features_ PID_FEAT_FEEDFORWARD then p.ff_value_ else 0) ∧
          (¬ (has_bit p.features_ PID_FEAT_ANTI_WINDUP ∧
              has_bit p.features_ PID_FEAT_OUTPUT_LIMIT) →
            (_calculate p t a dt).2.integral_ =
              (_calculate
                { p with features_ := clear_feature p.features_ PID_FEAT_INTEGRAL_SEP }
                t a dt).2.integral_)) ∧
      (|(calculate_run p t a dt).err| ≤ p.integral_separation_ →
        (calculate_run p t a dt).total_output =
            (if has_bit p.mode_ PID_MODE_P then p.kp_ * (calculate_run p t a dt).err else 0) +
              p.ki_ * (calculate_run p t a dt).integral_acc +
              (if has_bit p.mode_ PID_MODE_D then p.kd_ * (calculate_run p t a dt).diff else 0) +
              (if has_bit p.features_ PID_FEAT_FEEDFORWARD then p.ff_value_ else 0) ∧
          (_calculate p t a dt).1 =
            (_calculate { p with features_ := clear_feature p.features_ PID_FEAT_INTEGRAL_SEP }
              t a dt).1 ∧
          (_calculate p t a dt).2.integral_ =
            (_calculate { p with features_ := clear_feature p.features_ PID_FEAT_INTEGRAL_SEP }
              t a dt).2.integral_) :=
  ⟨sep_integral_acc p t a dt,
    fun hbig => ⟨sep_total_above p t a dt hsep hbig,
      fun hoff => sep_integral_without_back_calculation p t a dt hoff⟩,
    fun hsmall => ⟨sep_total_below p t a dt hI hsmall, (sep_same_below p t a dt hsmall).1,
      (sep_same_below p t a dt hsmall).2⟩⟩

end PidClaims7

section PidClaims6

end PidClaims6

section UartClaims

theorem jog_step_fields (c : Nat) (s : Receiver) :
    (jog_step c s).cmd_flag = s.cmd_flag ∧ (jog_step c s).buffer0 = s.buffer0 ∧
      (jog_step c s).buffer1 = s.buffer1 ∧ (jog_step c s).buffer2 = s.buffer2 ∧
      (jog_step c s).target_position = s.target_position ∧
      (jog_step c s).lift = jog_of c s.lift := by
  unfold jog_step jog_of
  split_ifs <;> exact ⟨rfl, rfl, rfl, rfl, rfl, rfl⟩

theorem rx_step_fields (atof : List Nat → ℚ) (c : Nat) (s : Receiver) :
    (rx_step atof c s).cmd_flag = s.cmd_flag ∧ (rx_step atof c s).buffer0 = s.buffer0 ∧
      (rx_step atof c s).buffer1 = s.buffer1 ∧ (rx_step atof c s).buffer2 = s.buffer2 ∧
      (rx_step atof c s).target_position = s.target_position ∧
      (rx_step atof c s).lift = s.lift := by
  unfold rx_step
  simp only []
  split_ifs <;> exact ⟨rfl, rfl, rfl, rfl, rfl, rfl⟩

theorem cmd_step_lift (c : Nat) (s : Receiver) : (cmd_step c s).lift = s.lift := by
  unfold cmd_step
  split_ifs <;> rfl

/-- The jog intent after one received byte. -/
theorem handler_lift (atof : List Nat → ℚ) (d : Nat) (s : Receiver) :
    (USART1_IRQHandler atof d s).lift = jog_of (d % 256) s.lift := by
  simp only [USART1_IRQHandler, cmd_step_lift, (rx_step_fields atof _ _).2.2.2.2.2,
    (jog_step_fields _ _).2.2.2.2.2]

/-- The position-frame variables after one received byte depend only on their
values before it. -/
theorem handler_cmd (atof : List Nat → ℚ) (d : Nat) (s : Receiver) :
    ∃ r : Receiver, r.cmd_flag = s.cmd_flag ∧ r.buffer0 = s.buffer0 ∧ r.buffer1 = s.buffer1 ∧
      r.buffer2 = s.buffer2 ∧ r.target_position = s.target_position ∧
      USART1_IRQHandler atof d s = cmd_step (d % 256) r := by
  refine ⟨rx_step atof (d % 256) (jog_step (d % 256) s), ?_, ?_, ?_, ?_, ?_, rfl⟩
  · rw [(rx_step_fields atof _ _).1, (jog_step_fields _ _).1]
  · rw [(rx_step_fields atof _ _).2.1, (jog_step_fields _ _).2.1]
  · rw [(rx_step_fields atof _ _).2.2.1, (jog_step_fields _ _).2.2.1]
  · rw [(rx_step_fields atof _ _).2.2.2.1, (jog_step_fields _ _).2.2.2.1]
  · rw [(rx_step_fields atof _ _).2.2.2.2.1, (jog_step_fields _ _).2.2.2.2.1]

theorem position_frame (atof : List Nat → ℚ) (s : Receiver) (b0 b1 b2 : Nat)
    (h : s.cmd_flag = 0) (h0 : b0 < 256) (h1 : b1 < 256) (h2 : b2 < 256) :
    (receive atof [0x0F, b0, b1, b2, 0x1F] s).target_position =
        ((b0 * 100 + b1 * 10 + b2 : Nat) : Int) ∧
      (receive atof [0x0F, b0, b1, b2, 0x1F] s).cmd_flag = 0 ∧
      (receive atof [0x0F, b0, b1, b2, 0x1F] s).lift =
        jog_of b2 (jog_of b1 (jog_of b0 s.lift)) := by
  simp only [receive]
  obtain ⟨r1, f1, -, -, -, -, e1⟩ := handler_cmd atof 0x0F s
  have c1 : (USART1_IRQHandler atof 0x0F s).cmd_flag = 1 := by
    rw [e1]; simp [cmd_step, f1, h]
  obtain ⟨r2, f2, -, -, -, -, e2⟩ := handler_cmd atof b0 (USART1_IRQHandler atof 0x0F s)
  have c2 : (USART1_IRQHandler atof b0 (USART1_IRQHandler atof 0x0F s)).cmd_flag = 2 ∧
      (USART1_IRQHandler atof b0 (USART1_IRQHandler atof 0x0F s)).buffer0 = b0 := by
    rw [e2]; simp [cmd_step, f2, c1, Nat.mod_eq_of_lt h0]
  obtain ⟨r3, f3, g3, -, -, -, e3⟩ := handler_cmd atof b1
    (USART1_IRQHandler atof b0 (USART1_IRQHandler atof 0x0F s))
  have c3 : (USART1_IRQHandler atof b1 (USART1_IRQHandler atof b0
        (USART1_IRQHandler atof 0x0F s))).cmd_flag = 3 ∧
      (USART1_IRQHandler atof b1 (USART1_IRQHandler atof b0
        (USART1_IRQHandler atof 0x0F s))).buffer0 = b0 ∧
      (USART1_IRQHandler atof b1 (USART1_IRQHandler atof b0
        (USART1_IRQHandler atof 0x0F s))).buffer1 = b1 := by
    rw [e3]; simp [cmd_step, f3, g3, c2.1, c2.2, Nat.mod_eq_of_lt h1]
  obtain ⟨r4, f4, g4, k4, -, -, e4⟩ := handler_cmd atof b2
    (USART1_IRQHandler atof b1 (USART1_IRQHandler atof b0 (USART1_IRQHandler atof 0x0F s)))
  have c4 : (USART1_IRQHandler atof b2 (USART1_IRQHandler atof b1 (USART1_IRQHandler atof b0
        (USART1_IRQHandler atof 0x0F s)))).cmd_flag = 4 ∧
      (USART1_IRQHandler atof b2 (USART1_IRQHandler atof b1 (USART1_IRQHandler atof b0
        (USART1_IRQHandler atof 0x0F s)))).buffer0 = b0 ∧
      (USART1_IRQHandler atof b2 (USART1_IRQHandler atof b1 (USART1_IRQHandler atof b0
        (USART1_IRQHandler atof 0x0F s)))).buffer1 = b1 ∧
      (USART1_IRQHandler atof b2 (USART1_IRQHandler atof b1 (USART1_IRQHandler atof b0
        (USART1_IRQHandler atof 0x0F s)))).buffer2 = b2 := by
    rw [e4]; simp [cmd_step, f4, g4, k4, c3.1, c3.2.1, c3.2.2, Nat.mod_eq_of_lt h2]
  obtain ⟨r5, f5, g5, k5, l5, -, e5⟩ := handler_cmd atof 0x1F
    (USART1_IRQHandler atof b2 (USART1_IRQHandler atof b1 (USART1_IRQHandler atof b0
      (USART1_IRQHandler atof 0x0F s))))
  refine ⟨?_, ?_, ?_⟩
  · rw [e5]; simp [cmd_step, f5, g5, k5, l5, c4.1, c4.2.1, c4.2.2.1, c4.2.2.2]
  · rw [e5]; simp [cmd_step, f5, g5, k5, l5, c4.1, c4.2.1, c4.2.2.1, c4.2.2.2]
  · simp only [handler_lift, Nat.mod_eq_of_lt h0, Nat.mod_eq_of_lt h1, Nat.mod_eq_of_lt h2]
    simp [jog_of]

end UartClaims

section TimeClaims

/-- C23.  For all 32-bit values `now`, `start` and `timeout`, both
`systick_is_timeout` and `dwt_is_timeout` return true exactly when
`(now - start) mod 2^32 ≥ timeout`; and in the wrapped branch (`now < start`) the
expression `(0xFFFFFFFF - start) + now + 1`, evaluated without wrapping, stays
below `2^32` at each step and equals that modular difference. -/
theorem C23_timeout_wraparound (now start timeout : Nat) (hn : now < 2 ^ 32)
    (hs : start < 2 ^ 32) (_ht : timeout < 2 ^ 32) :
    (systick_is_timeout now start timeout = true ↔
        timeout ≤ (now + 2 ^ 32 - start) % 2 ^ 32) ∧
      (dwt_is_timeout now start timeout = true ↔
        timeout ≤ (now + 2 ^ 32 - start) % 2 ^ 32) ∧
      (now < start →
        (0xFFFFFFFF - start) + now < 2 ^ 32 ∧ (0xFFFFFFFF - start) + now + 1 < 2 ^ 32 ∧
        (0xFFFFFFFF - start) + now + 1 = (now + 2 ^ 32 - start) % 2 ^ 32 ∧
        u32_add (u32_add (u32_sub 0xFFFFFFFF start) now) 1 =
          (0xFFFFFFFF - start) + now + 1) := by
  norm_num at hn hs
  refine ⟨?_, ?_, fun hlt => ?_⟩
  · unfold systick_is_timeout u32_add u32_sub
    norm_num
    intro h
    omega
  · unfold dwt_is_timeout u32_add u32_sub
    norm_num
    intro h
    omega
  · unfold u32_add u32_sub
    norm_num
    omega

/-- C23, an instance: the counter has wrapped from `0xFFFFFFF0` to 5, which is 21
ticks. -/
theorem C23_timeout_wraparound_witness :
    (systick_is_timeout 5 0xFFFFFFF0 21 = true ↔
        21 ≤ (5 + 2 ^ 32 - 0xFFFFFFF0) % 2 ^ 32) ∧
      (dwt_is_timeout 5 0xFFFFFFF0 21 = true ↔
        21 ≤ (5 + 2 ^ 32 - 0xFFFFFFF0) % 2 ^ 32) ∧
      (5 < 0xFFFFFFF0 →
        (0xFFFFFFFF - 0xFFFFFFF0) + 5 < 2 ^ 32 ∧ (0xFFFFFFFF - 0xFFFFFFF0) + 5 + 1 < 2 ^ 32 ∧
        (0xFFFFFFFF - 0xFFFFFFF0) + 5 + 1 = (5 + 2 ^ 32 - 0xFFFFFFF0) % 2 ^ 32 ∧
        u32_add (u32_add (u32_sub 0xFFFFFFFF 0xFFFFFFF0) 5) 1 =
          (0xFFFFFFFF - 0xFFFFFFF0) + 5 + 1) :=
  C23_timeout_wraparound 5 0xFFFFFFF0 21 (by decide) (by decide) (by decide)

end TimeClaims

section PidClaims8

/-- C22, an instance: the PI controller with output limit, anti-windup and
integral separation (threshold 5), called with error 8. -/
theorem C22_integral_separation_witness :
    (calculate_run separated_pid 8 0 1).integral_acc =
        (calculate_run
          { separated_pid with
            features_ := clear_feature separated_pid.features_ PID_FEAT_INTEGRAL_SEP }
          8 0 1).integral_acc ∧
      (|(calculate_run separated_pid 8 0 1).err| > separated_pid.integral_separation_ →
        (calculate_run separated_pid 8 0 1).total_output =
            (if has_bit separated_pid.mode_ PID_MODE_P then
                separated_pid.kp_ * (calculate_run separated_pid 8 0 1).err else 0) +
              (if has_bit separated_pid.mode_ PID_MODE_D then
                separated_pid.kd_ * (calculate_run separated_pid 8 0 1).diff else 0) +
              (if has_bit separated_pid.features_ PID_FEAT_FEEDFORWARD then
                separated_pid.ff_value_ else 0) ∧
          (¬ (has_bit separated_pid.features_ PID_FEAT_ANTI_WINDUP ∧
              has_bit separated_pid.features_ PID_FEAT_OUTPUT_LIMIT) →
            (_calculate separated_pid 8 0 1).2.integral_ =
              (_calculate
                { separated_pid with
                  features_ := clear_feature separated_pid.features_ PID_FEAT_INTEGRAL_SEP }
                8 0 1).2.integral_)) ∧
      (|(calculate_run separated_pid 8 0 1).err| ≤ separated_pid.integral_separation_ →
        (calculate_run separated_pid 8 0 1).total_output =
            (if has_bit separated_pid.mode_ PID_MODE_P then
                separated_pid.kp_ * (calculate_run separated_pid 8 0 1).err else 0) +
              separated_pid.ki_ * (calculate_run separated_pid 8 0 1).integral_acc +
              (if has_bit separated_pid.mode_ PID_MODE_D then
                separated_pid.kd_ * (calculate_run separated_pid 8 0 1).diff else 0) +
              (if has_bit separated_pid.features_ PID_FEAT_FEEDFORWARD then
                separated_pid.ff_value_ else 0) ∧
          (_calculate separated_pid 8 0 1).1 =
            (_calculate
              { separated_pid with
                features_ := clear_feature separated_pid.features_ PID_FEAT_INTEGRAL_SEP }
              8 0 1).1 ∧
          (_calculate separated_pid 8 0 1).2.integral_ =
            (_calculate
              { separated_pid with
                features_ := clear_feature separated_pid.features_ PID_FEAT_INTEGRAL_SEP }
              8 0 1).2.integral_) :=
  C22_integral_separation separated_pid 8 0 1 (by decide) (by decide)

/-- C22, as stated, fails: the PI controller with gains 1 and 1, output limit
10, anti-windup and integral separation with threshold 5, is called from rest
with error 8 and `dt` 1.  The error exceeds the threshold; the call leaves the
accumulator at 8, while the same call with the separation bit cleared leaves it
at 2, because the back-calculation correction is taken from the output, which
the separation changes. -/
theorem C22_counterexample_back_calculation :
    has_bit separated_pid.mode_ PID_MODE_I ∧
      has_bit separated_pid.features_ PID_FEAT_INTEGRAL_SEP ∧
      ¬ has_bit (clear_feature separated_pid.features_ PID_FEAT_INTEGRAL_SEP)
        PID_FEAT_INTEGRAL_SEP ∧
      |(calculate_run separated_pid 8 0 1).err| > separated_pid.integral_separation_ ∧
      (_calculate separated_pid 8 0 1).2.integral_ = 8 ∧
      (_calculate
        { separated_pid with
          features_ := clear_feature separated_pid.features_ PID_FEAT_INTEGRAL_SEP }
        8 0 1).2.integral_ = 2 := by
  refine ⟨by decide, by decide, by decide, ?_, ?_, ?_⟩
  · norm_num +decide [calculate_run, separated_pid, _init_cfg, _init, blank_pid, PID_ABS,
      PID_CLAMP, PID_MODE_PI, PID_MODE_P, PID_MODE_I, PID_MODE_D, PID_FEAT_OUTPUT_LIMIT,
      PID_FEAT_INTEGRAL_SEP, PID_FEAT_DEADBAND, PID_FEAT_DIFF_FILTER, PID_FEAT_DIFF_ON_MEAS,
      PID_FEAT_ANTI_WINDUP, PID_FEAT_OUTPUT_RATE_LIMIT, PID_FEAT_FEEDFORWARD]
  · norm_num +decide [_calculate, calculate_run, separated_pid, _init_cfg, _init, blank_pid,
      PID_ABS, PID_CLAMP, PID_MODE_PI, PID_MODE_P, PID_MODE_I, PID_MODE_D,
      PID_FEAT_OUTPUT_LIMIT, PID_FEAT_INTEGRAL_SEP, PID_FEAT_DEADBAND, PID_FEAT_DIFF_FILTER,
      PID_FEAT_DIFF_ON_MEAS, PID_FEAT_ANTI_WINDUP, PID_FEAT_OUTPUT_RATE_LIMIT,
      PID_FEAT_FEEDFORWARD]
  · norm_num +decide [_calculate, calculate_run, separated_pid, _init_cfg, _init, blank_pid,
      clear_feature, PID_FEAT_ALL,
      PID_ABS, PID_CLAMP, PID_MODE_PI, PID_MODE_P, PID_MODE_I, PID_MODE_D,
      PID_FEAT_OUTPUT_LIMIT, PID_FEAT_INTEGRAL_SEP, PID_FEAT_DEADBAND, PID_FEAT_DIFF_FILTER,
      PID_FEAT_DIFF_ON_MEAS, PID_FEAT_ANTI_WINDUP, PID_FEAT_OUTPUT_RATE_LIMIT,
      PID_FEAT_FEEDFORWARD]

end PidClaims8

section UartClaims2

/-- C24.  For every receiver state with `cmd_flag = 0` and all bytes `b0`, `b1`,
`b2`, feeding the bytes `0x0F, b0, b1, b2, 0x1F` to the serial receive handler
sets `target_position` to `b0*100 + b1*10 + b2` and returns `cmd_flag` to 0; the
bytes `0x0F,1,2,3,0x1F` give 123, and bytes outside 0-9 are taken as they are:
three bytes 255 give 28305. -/
theorem C24_position_frame (atof : List Nat → ℚ) (s : Receiver) (b0 b1 b2 : Nat)
    (h : s.cmd_flag = 0) (h0 : b0 < 256) (h1 : b1 < 256) (h2 : b2 < 256) :
    (receive atof [0x0F, b0, b1, b2, 0x1F] s).target_position =
        ((b0 * 100 + b1 * 10 + b2 : Nat) : Int) ∧
      (receive atof [0x0F, b0, b1, b2, 0x1F] s).cmd_flag = 0 ∧
      (receive atof [0x0F, 1, 2, 3, 0x1F] s).target_position = 123 ∧
      (receive atof [0x0F, 255, 255, 255, 0x1F] s).target_position = 28305 :=
  ⟨(position_frame atof s b0 b1 b2 h h0 h1 h2).1,
    (position_frame atof s b0 b1 b2 h h0 h1 h2).2.1,
    (position_frame atof s 1 2 3 h (by decide) (by decide) (by decide)).1,
    (position_frame atof s 255 255 255 h (by decide) (by decide) (by decide)).1⟩

/-- C24, an instance: the receiver at rest and the payload bytes 9, 200, 7. -/
theorem C24_position_frame_witness :
    (receive atof_zero [0x0F, 9, 200, 7, 0x1F] idle_receiver).target_position =
        ((9 * 100 + 200 * 10 + 7 : Nat) : Int) ∧
      (receive atof_zero [0x0F, 9, 200, 7, 0x1F] idle_receiver).cmd_flag = 0 ∧
      (receive atof_zero [0x0F, 1, 2, 3, 0x1F] idle_receiver).target_position = 123 ∧
      (receive atof_zero [0x0F, 255, 255, 255, 0x1F] idle_receiver).target_position = 28305 :=
  C24_position_frame atof_zero idle_receiver 9 200 7 rfl (by decide) (by decide) (by decide)

/-- C30 (as amended).  The first part of the handler acts on every received
byte, whatever `cmd_flag` is: the bytes `0x00`, `0x01` and `0x02` set the jog
intent to 0, 1 and -1, every other byte leaves it.  So feeding the frame
`0x0F, b0, b1, b2, 0x1F` to a receiver with `cmd_flag = 0` sets the target and
leaves the jog intent as `b0`, `b1`, `b2` set it in turn: unchanged when none of
them is 0, 1 or 2, and otherwise the intent of the last such byte. -/
theorem C30_jog_bytes_inside_frames (atof : List Nat → ℚ) (s : Receiver) (b0 b1 b2 : Nat)
    (h : s.cmd_flag = 0) (h0 : b0 < 256) (h1 : b1 < 256) (h2 : b2 < 256) :
    (∀ (r : Receiver) (d : Nat),
        (USART1_IRQHandler atof d r).lift = jog_of (d % 256) r.lift) ∧
      (receive atof [0x0F, b0, b1, b2, 0x1F] s).target_position =
        ((b0 * 100 + b1 * 10 + b2 : Nat) : Int) ∧
      (receive atof [0x0F, b0, b1, b2, 0x1F] s).lift =
        jog_of b2 (jog_of b1 (jog_of b0 s.lift)) ∧
      (2 < b0 → 2 < b1 → 2 < b2 → (receive atof [0x0F, b0, b1, b2, 0x1F] s).lift = s.lift) ∧
      (b2 = 0 → (receive atof [0x0F, b0, b1, b2, 0x1F] s).lift = 0) ∧
      (b2 = 1 → (receive atof [0x0F, b0, b1, b2, 0x1F] s).lift = 1) ∧
      (b2 = 2 → (receive atof [0x0F, b0, b1, b2, 0x1F] s).lift = -1) := by
  have hp := position_frame atof s b0 b1 b2 h h0 h1 h2
  refine ⟨fun r d => handler_lift atof d r, hp.1, hp.2.2, fun g0 g1 g2 => ?_, fun e => ?_,
    fun e => ?_, fun e => ?_⟩
  · rw [hp.2.2]
    have e0 : b0 ≠ 0 ∧ b0 ≠ 1 ∧ b0 ≠ 2 := ⟨by omega, by omega, by omega⟩
    have e1 : b1 ≠ 0 ∧ b1 ≠ 1 ∧ b1 ≠ 2 := ⟨by omega, by omega, by omega⟩
    have e2 : b2 ≠ 0 ∧ b2 ≠ 1 ∧ b2 ≠ 2 := ⟨by omega, by omega, by omega⟩
    simp [jog_of, e0, e1, e2]
  · rw [hp.2.2, e]; simp [jog_of]
  · rw [hp.2.2, e]; simp [jog_of]
  · rw [hp.2.2, e]; simp [jog_of]

/-- C30, an instance: the receiver at rest and the payload bytes 3, 4, 5: the
target becomes 345 and the jog intent stays as it was. -/
theorem C30_jog_bytes_inside_frames_witness :
    (∀ (r : Receiver) (d : Nat),
        (USART1_IRQHandler atof_zero d r).lift = jog_of (d % 256) r.lift) ∧
      (receive atof_zero [0x0F, 3, 4, 5, 0x1F] idle_receiver).target_position =
        ((3 * 100 + 4 * 10 + 5 : Nat) : Int) ∧
      (receive atof_zero [0x0F, 3, 4, 5, 0x1F] idle_receiver).lift =
        jog_of 5 (jog_of 4 (jog_of 3 idle_receiver.lift)) ∧
      (2 < 3 → 2 < 4 → 2 < 5 →
        (receive atof_zero [0x0F, 3, 4, 5, 0x1F] idle_receiver).lift = idle_receiver.lift) ∧
      (5 = 0 → (receive atof_zero [0x0F, 3, 4, 5, 0x1F] idle_receiver).lift = 0) ∧
      (5 = 1 → (receive atof_zero [0x0F, 3, 4, 5, 0x1F] idle_receiver).lift = 1) ∧
      (5 = 2 → (receive atof_zero [0x0F, 3, 4, 5, 0x1F] idle_receiver).lift = -1) :=
  C30_jog_bytes_inside_frames atof_zero idle_receiver 3 4 5 rfl (by decide) (by decide)
    (by decide)

/-- C30, as stated, fails: the receiver at rest has jog intent 0 and
`cmd_flag = 0`; the frame `0x0F,1,2,3,0x1F`, whose payload bytes are digits,
sets the target to 123 and leaves the jog intent at -1, because the payload
bytes 1 and 2 are also read as jog-up and jog-down. -/
theorem C30_counterexample_digit_payload_jogs :
    idle_receiver.cmd_flag = 0 ∧ idle_receiver.lift = 0 ∧
      (receive atof_zero [0x0F, 1, 2, 3, 0x1F] idle_receiver).target_position = 123 ∧
      (receive atof_zero [0x0F, 1, 2, 3, 0x1F] idle_receiver).lift = -1 ∧
      (receive atof_zero [0x0F, 1, 2, 3, 0x1F] idle_receiver).lift ≠ idle_receiver.lift := by
  decide

end UartClaims2

section MachineClaims4

/-- C25.  In the concrete machine, with `EVENT_ERROR` pending and the current
state `idle` or `lift_moving`, one `a_fsm_process` ends in the error state: the
handler of the current state does not answer the event and the handler of its
parent `normal` answers with the error state.  The entry of the error state runs
once and calls the relay's stop and the gripper's open once each; from
`lift_moving` the exit of that state, which prints the end marker, runs before
the entry of the error state. -/
theorem C25_error_escalation (B : Board) (w : World) :
    (answer (machine B) event_e.EVENT_ERROR ptr_idle = none ∧
      answer (machine B) event_e.EVENT_ERROR ptr_lift_moving = none ∧
      (machine B ptr_idle)._parent_ = some ptr_normal ∧
      (machine B ptr_lift_moving)._parent_ = some ptr_normal ∧
      answer (machine B) event_e.EVENT_ERROR ptr_normal = some ptr_error) ∧
    (∃ m1, a_fsm_process (machine B) 3 (machine_at ptr_idle event_e.EVENT_ERROR w) = .ok m1 ∧
      m1.cur_state = some ptr_error ∧
      m1.log = [Call.handle_event ptr_idle event_e.EVENT_ERROR,
        Call.handle_event ptr_normal event_e.EVENT_ERROR, Call.entry ptr_error] ∧
      m1.globals.world.ext = w.ext ++ [Ext.relay_stop, Ext.gripper_open]) ∧
    (∃ m1, a_fsm_process (machine B) 3
        (machine_at ptr_lift_moving event_e.EVENT_ERROR w) = .ok m1 ∧
      m1.cur_state = some ptr_error ∧
      m1.log = [Call.handle_event ptr_lift_moving event_e.EVENT_ERROR,
        Call.handle_event ptr_normal event_e.EVENT_ERROR, Call.exit ptr_lift_moving,
        Call.entry ptr_error] ∧
      m1.globals.world.ext =
        w.ext ++ [Ext.printf "$LIFT:END#", Ext.relay_stop, Ext.gripper_open]) := by
  refine ⟨⟨rfl, rfl, rfl, rfl, rfl⟩, ⟨_, rfl, rfl, rfl, ?_⟩, ⟨_, rfl, rfl, rfl, ?_⟩⟩
  · show (w.ext ++ [Ext.relay_stop]) ++ [Ext.gripper_open] = _
    simp
  · show ((w.ext ++ [Ext.printf "$LIFT:END#"]) ++ [Ext.relay_stop]) ++ [Ext.gripper_open] = _
    simp

/-- C26.  In the concrete machine, with current state `lift_moving` and
`EVENT_LIFT_STOP` pending, `a_fsm_process` runs the exit of `lift_moving` (the
end marker) exactly once, runs no entry callback and neither the exit nor the
entry of `normal`, makes `idle` the current state, and then runs the actions of
`idle` and of `normal`. -/
theorem C26_stop_returns_to_idle (B : Board) (w : World) :
    ∃ m1, a_fsm_process (machine B) 3
        (machine_at ptr_lift_moving event_e.EVENT_LIFT_STOP w) = .ok m1 ∧
      m1.cur_state = some ptr_idle ∧
      m1.log = [Call.handle_event ptr_lift_moving event_e.EVENT_LIFT_STOP,
        Call.exit ptr_lift_moving, Call.action ptr_idle, Call.action ptr_normal] ∧
      m1.log.count (Call.exit ptr_lift_moving) = 1 ∧
      (∀ s, Call.entry s ∉ m1.log) ∧
      Call.exit ptr_normal ∉ m1.log ∧
      m1.globals = normal_action B (idle_action
        { cur_event := event_e.EVENT_NONE
          world := { w with ext := w.ext ++ [Ext.printf "$LIFT:END#"] } }) := by
  refine ⟨_, rfl, rfl, rfl, ?_, fun s => ?_, ?_, rfl⟩
  · show List.count (Call.exit ptr_lift_moving)
      [Call.handle_event ptr_lift_moving event_e.EVENT_LIFT_STOP,
        Call.exit ptr_lift_moving, Call.action ptr_idle, Call.action ptr_normal] = 1
    decide
  · show Call.entry s ∉ [Call.handle_event ptr_lift_moving event_e.EVENT_LIFT_STOP,
        Call.exit ptr_lift_moving, Call.action ptr_idle, Call.action ptr_normal]
    simp
  · show Call.exit ptr_normal ∉ [Call.handle_event ptr_lift_moving event_e.EVENT_LIFT_STOP,
        Call.exit ptr_lift_moving, Call.action ptr_idle, Call.action ptr_normal]
    decide

/-- C27.  For the action of `lift_moving`, exactly one of three cases holds:
`target - position > 5`, and the action commands the relay in direction A and
nothing else; `target - position < -5`, and it commands the relay in direction B
and nothing else; or `|target - position| ≤ 5`, and it stops the relay and
triggers `EVENT_LIFT_STOP`.  With no event pending in `lift_moving`, every
`a_fsm_process` runs this action once, followed by the action of `normal`. -/
theorem C27_moving_action_cases (B : Board) (g : Globals World) :
    ((g.world.lift_target_pos_mm - g.world.position > 5 ∧
        ¬ g.world.lift_target_pos_mm - g.world.position < -5 ∧
        ¬ |g.world.lift_target_pos_mm - g.world.position| ≤ 5 ∧
        lift_moving_action g = call_ext (Ext.relay_set_dir RelayDir.RelayDirA) g) ∨
      (g.world.lift_target_pos_mm - g.world.position < -5 ∧
        ¬ g.world.lift_target_pos_mm - g.world.position > 5 ∧
        ¬ |g.world.lift_target_pos_mm - g.world.position| ≤ 5 ∧
        lift_moving_action g = call_ext (Ext.relay_set_dir RelayDir.RelayDirB) g) ∨
      (|g.world.lift_target_pos_mm - g.world.position| ≤ 5 ∧
        ¬ g.world.lift_target_pos_mm - g.world.position > 5 ∧
        ¬ g.world.lift_target_pos_mm - g.world.position < -5 ∧
        lift_moving_action g =
          a_fsm_trigger_event event_e.EVENT_LIFT_STOP (call_ext Ext.relay_stop g))) ∧
    (∀ x, (call_ext x g).world.ext = g.world.ext ++ [x] ∧
      (call_ext x g).cur_event = g.cur_event ∧
      (a_fsm_trigger_event event_e.EVENT_LIFT_STOP (call_ext x g)).world.ext =
        g.world.ext ++ [x] ∧
      (a_fsm_trigger_event event_e.EVENT_LIFT_STOP (call_ext x g)).cur_event =
        event_e.EVENT_LIFT_STOP) ∧
    (∀ w, ∃ m1, a_fsm_process (machine B) 3
        (machine_at ptr_lift_moving event_e.EVENT_NONE w) = .ok m1 ∧
      m1.cur_state = some ptr_lift_moving ∧
      m1.log = [Call.action ptr_lift_moving, Call.action ptr_normal] ∧
      m1.globals = normal_action B
        (lift_moving_action { cur_event := event_e.EVENT_NONE, world := w })) := by
  refine ⟨?_, fun x => ⟨rfl, rfl, rfl, rfl⟩, fun w => ⟨_, rfl, rfl, rfl, rfl⟩⟩
  unfold lift_moving_action
  simp only []
  by_cases h1 : g.world.lift_target_pos_mm - g.world.position > 5
  · refine Or.inl ⟨h1, by linarith, ?_, by rw [if_pos h1]⟩
    rw [abs_le]; intro h; linarith [h.2]
  · by_cases h2 : g.world.lift_target_pos_mm - g.world.position < -5
    · refine Or.inr (Or.inl ⟨h2, h1, ?_, by rw [if_neg h1, if_pos h2]⟩)
      rw [abs_le]; intro h; linarith [h.1]
    · refine Or.inr (Or.inr ⟨?_, h1, h2, by rw [if_neg h1, if_neg h2]⟩)
      rw [abs_le]; constructor <;> linarith

theorem process_keeps_leaf (B : Board) (n : Nat) (m : Fsm World)
    (h : m.cur_state = some ptr_idle ∨ m.cur_state = some ptr_lift_moving ∨
      m.cur_state = some ptr_error) :
    ∃ m1, a_fsm_process (machine B) (n + 3) m = .ok m1 ∧
      (m1.cur_state = some ptr_idle ∨ m1.cur_state = some ptr_lift_moving ∨
        m1.cur_state = some ptr_error) := by
  obtain ⟨⟨e, w⟩, cs, log⟩ := m
  simp only at h
  rcases h with h | h | h <;> subst h <;> cases e <;>
    first
    | exact ⟨_, rfl, Or.inl rfl⟩
    | exact ⟨_, rfl, Or.inr (Or.inl rfl)⟩
    | exact ⟨_, rfl, Or.inr (Or.inr rfl)⟩

theorem run_steps_keeps_leaf (B : Board) (n : Nat) (steps : List Step) :
    ∀ m : Fsm World,
      (m.cur_state = some ptr_idle ∨ m.cur_state = some ptr_lift_moving ∨
        m.cur_state = some ptr_error) →
      ∃ m1, run_steps B (n + 3) steps m = .ok m1 ∧
        (m1.cur_state = some ptr_idle ∨ m1.cur_state = some ptr_lift_moving ∨
          m1.cur_state = some ptr_error) := by
  induction steps with
  | nil => intro m h; exact ⟨m, rfl, h⟩
  | cons s rest ih =>
    intro m h
    cases s with
    | trigger e => exact ih (Fsm.trigger e m) h
    | process =>
      obtain ⟨m1, h1, hl⟩ := process_keeps_leaf B n m h
      obtain ⟨m2, h2, hl2⟩ := ih m1 hl
      refine ⟨m2, ?_, hl2⟩
      simp only [run_steps, h1, h2]
    | interrupt f => exact ih _ h

/-- C29.  In the concrete machine, starting from the initial configuration
(current state `idle`, no event pending), every finite sequence of trigger calls,
process calls and interrupt writes runs to its end, and afterwards the current
state is one of the leaves `idle`, `lift_moving` or `error`: it is not the
super-state `normal` and not null. -/
theorem C29_current_state_is_a_leaf (B : Board) (w : World) (n : Nat) (steps : List Step) :
    ∃ m, run_steps B (n + 3) steps (machine_init w) = .ok m ∧
      (m.cur_state = some ptr_idle ∨ m.cur_state = some ptr_lift_moving ∨
        m.cur_state = some ptr_error) ∧
      m.cur_state ≠ some ptr_normal ∧ m.cur_state ≠ none := by
  obtain ⟨m, hm, hl⟩ := run_steps_keeps_leaf B n steps (machine_init w) (Or.inl rfl)
  refine ⟨m, hm, hl, ?_, ?_⟩
  · rcases hl with h | h | h <;> rw [h] <;> decide
  · rcases hl with h | h | h <;> rw [h] <;> decide

end MachineClaims4

section EngineClaims5

theorem machine_chain (B : Board) (s : Nat) :
    isChain (machine B) (some s)
      (if s = ptr_idle ∨ s = ptr_lift_moving then [s, ptr_normal] else [s]) = true := by
  match s with
  | 0 => rfl
  | 1 => rfl
  | 2 => rfl
  | n + 3 =>
    have h : ¬ (n + 3 = ptr_idle ∨ n + 3 = ptr_lift_moving) := by
      simp only [ptr_idle, ptr_lift_moving]; omega
    rw [if_neg h]
    simp [isChain, machine, state_error]

theorem machine_depth (B : Board) (s : Nat) (l : List Nat)
    (h : isChain (machine B) (some s) l = true) : l.length ≤ 2 := by
  rw [isChain_unique h (machine_chain B s)]
  split_ifs <;> simp

theorem enter_path_fits {W : Type} (F : Forest W) (from_ : StatePtr) (next : Nat)
    (ns : List Nat) (fuel : Nat) (hn : isChain F (some next) ns = true)
    (hlen : ns.length ≤ FSM_DEPTH) (hf : ns.length < fuel) :
    enter_path F from_ fuel (some next) [] = .ok (up_to_excluding ns from_) ∧
      (up_to_excluding ns from_).length ≤ FSM_DEPTH := by
  have hle : (up_to_excluding ns from_).length ≤ ns.length :=
    (List.takeWhile_sublist _).length_le
  have hd : ([] : List Nat).length +
      (ns.takeWhile (fun x => !decide (some x = from_))).length ≤ FSM_DEPTH := by
    simp only [List.length_nil, Nat.zero_add]
    exact le_trans hle hlen
  refine ⟨?_, le_trans hle hlen⟩
  rw [enter_path_chain hn hf from_ [] hd]
  simp [up_to_excluding]

/-- C31.  In a forest in which every state has depth at most `FSM_DEPTH` (the
depth of a state being the number of states on its chain, itself and the root
included), the first loop of `enter_down_to` ends, for every starting pointer
`from` and every target, with at most `FSM_DEPTH` states stored, so that every
index it writes is below `FSM_DEPTH`; in particular for the pair of the LCA and
the next state that `a_fsm_process` passes to it, and `a_fsm_process` returns.
In the concrete forest every chain has at most 2 states, the chain of `idle` has
exactly 2, and 2 is at most `FSM_DEPTH`. -/
theorem C31_path_buffer_bound {W : Type} (F : Forest W)
    (hdepth : ∀ s l, isChain F (some s) l = true → l.length ≤ FSM_DEPTH) :
    (∀ (from_ : StatePtr) (next : Nat) (ns : List Nat) (fuel : Nat),
        isChain F (some next) ns = true → ns.length < fuel →
        ∃ path, enter_path F from_ fuel (some next) [] = .ok path ∧
          path = up_to_excluding ns from_ ∧ path.length ≤ FSM_DEPTH) ∧
      (∀ (m : Fsm W) (next : Nat) (cs ns : List Nat) (fuel : Nat),
        m.globals.cur_event ≠ event_e.EVENT_NONE →
        isChain F m.cur_state cs = true → isChain F (some next) ns = true →
        first_answer F m.globals.cur_event cs = some next → some next ≠ m.cur_state →
        cs.length < fuel → ns.length < fuel →
        ∃ lca path m1, find_lca F fuel m.cur_state (some next) = .ok lca ∧
          enter_path F lca fuel (some next) [] = .ok path ∧ path.length ≤ FSM_DEPTH ∧
          a_fsm_process F fuel m = .ok m1) ∧
      ((∀ (B : Board) (s : Nat) (l : List Nat),
          isChain (machine B) (some s) l = true → l.length ≤ 2) ∧
        (∀ B : Board, isChain (machine B) (some ptr_idle) [ptr_idle, ptr_normal] = true) ∧
        2 ≤ FSM_DEPTH) := by
  refine ⟨fun from_ next ns fuel hn hf => ?_, fun m next cs ns fuel he hc hn hd hne hfc hfn => ?_,
    fun B s l h => machine_depth B s l h, fun B => rfl, by decide⟩
  · obtain ⟨h1, h2⟩ := enter_path_fits F from_ next ns fuel hn (hdepth next ns hn) hf
    exact ⟨_, h1, rfl, h2⟩
  · cases hcur : m.cur_state with
    | none =>
      rw [hcur] at hc
      rw [isChain_none.1 hc] at hd
      simp [first_answer] at hd
    | some cur =>
      rw [hcur] at hc
      obtain ⟨h1, h2⟩ := enter_path_fits F (deepest_common cs ns) next ns fuel hn
        (hdepth next ns hn) hfn
      have hc1 : isChain F m.cur_state cs = true := by rw [hcur]; exact hc
      exact ⟨_, _, _, find_lca_chain hc hn hfc hfn, h1, h2,
        process_transition he hc1 hn hd hne h2 hfc hfn⟩

/-- C31, an instance: the concrete forest on the quiet board, in which every
chain has at most 2 states. -/
theorem C31_path_buffer_bound_witness :
    (∀ (from_ : StatePtr) (next : Nat) (ns : List Nat) (fuel : Nat),
        isChain (machine quiet_board) (some next) ns = true → ns.length < fuel →
        ∃ path, enter_path (machine quiet_board) from_ fuel (some next) [] = .ok path ∧
          path = up_to_excluding ns from_ ∧ path.length ≤ FSM_DEPTH) ∧
      (∀ (m : Fsm World) (next : Nat) (cs ns : List Nat) (fuel : Nat),
        m.globals.cur_event ≠ event_e.EVENT_NONE →
        isChain (machine quiet_board) m.cur_state cs = true →
        isChain (machine quiet_board) (some next) ns = true →
        first_answer (machine quiet_board) m.globals.cur_event cs = some next →
        some next ≠ m.cur_state →
        cs.length < fuel → ns.length < fuel →
        ∃ lca path m1, find_lca (machine quiet_board) fuel m.cur_state (some next) = .ok lca ∧
          enter_path (machine quiet_board) lca fuel (some next) [] = .ok path ∧
          path.length ≤ FSM_DEPTH ∧
          a_fsm_process (machine quiet_board) fuel m = .ok m1) ∧
      ((∀ (B : Board) (s : Nat) (l : List Nat),
          isChain (machine B) (some s) l = true → l.length ≤ 2) ∧
        (∀ B : Board, isChain (machine B) (some ptr_idle) [ptr_idle, ptr_normal] = true) ∧
        2 ≤ FSM_DEPTH) :=
  C31_path_buffer_bound (machine quiet_board)
    (fun s l h => le_trans (machine_depth quiet_board s l h) (by decide))

end EngineClaims5

section PidClaims9

theorem has_bit_clear_D (m : Nat) :
    (has_bit (clear_mode m PID_MODE_D) PID_MODE_D = False) ∧
      (has_bit (clear_mode m PID_MODE_D) PID_MODE_P = has_bit m PID_MODE_P) ∧
      (has_bit (clear_mode m PID_MODE_D) PID_MODE_I = has_bit m PID_MODE_I) := by
  have e0 : (0xFF ^^^ PID_MODE_D) &&& PID_MODE_D = 0 := by decide
  have e1 : (0xFF ^^^ PID_MODE_D) &&& PID_MODE_P = PID_MODE_P := by decide
  have e2 : (0xFF ^^^ PID_MODE_D) &&& PID_MODE_I = PID_MODE_I := by decide
  simp only [has_bit, clear_mode, Nat.land_assoc, e0, e1, e2,
    Nat.and_zero, ne_eq, not_true_eq_false, and_self]

theorem zero_dt_without_filter (p : PID) (t a : ℚ)
    (h : ¬ has_bit p.features_ PID_FEAT_DIFF_FILTER) :
    (calculate_run p t a 0).diff = 0 ∧
      (_calculate p t a 0).1 =
        (_calculate { p with mode_ := clear_mode p.mode_ PID_MODE_D } t a 0).1 := by
  obtain ⟨b0, b1, b2⟩ := has_bit_clear_D p.mode_
  constructor
  · simp [calculate_run, h]
  · simp only [_calculate, calculate_run, b0, b1, b2, h, gt_iff_lt, lt_self_iff_false,
      if_false, mul_zero, add_zero, ite_self, false_and]

theorem zero_dt_with_filter (p : PID) (t a : ℚ) (hD : has_bit p.mode_ PID_MODE_D)
    (h : has_bit p.features_ PID_FEAT_DIFF_FILTER) :
    (calculate_run p t a 0).diff = (1 - p.diff_filter_alpha_) * p._filtered_diff_ ∧
      (calculate_run p t a 0).total_output =
        (calculate_run { p with mode_ := clear_mode p.mode_ PID_MODE_D } t a 0).total_output +
          p.kd_ * ((1 - p.diff_filter_alpha_) * p._filtered_diff_) := by
  obtain ⟨b0, b1, b2⟩ := has_bit_clear_D p.mode_
  constructor
  · simp [calculate_run, h, hD]
  · simp only [calculate_run, b0, b1, b2, h, hD, gt_iff_lt, lt_self_iff_false,
      if_false, if_true, mul_zero, zero_add, add_zero, ite_self, false_and, true_and]
    split_ifs <;> ring

end PidClaims9
section PidClaims10

theorem calculate_max_out (p : PID) (v t a dt : ℚ)
    (hlim : ¬ has_bit p.features_ PID_FEAT_OUTPUT_LIMIT)
    (haw : ¬ (has_bit p.mode_ PID_MODE_I ∧ has_bit p.features_ PID_FEAT_ANTI_WINDUP)) :
    (_calculate { p with max_out_ := v } t a dt).1 = (_calculate p t a dt).1 ∧
      (_calculate { p with max_out_ := v } t a dt).2 =
        { (_calculate p t a dt).2 with max_out_ := v } := by
  by_cases hI : has_bit p.mode_ PID_MODE_I
  · have hA : ¬ has_bit p.features_ PID_FEAT_ANTI_WINDUP := fun h => haw ⟨hI, h⟩
    simp [_calculate, calculate_run, hlim, hA]
  · simp [_calculate, calculate_run, hlim, hI]

theorem outputs_max_out (p : PID) (v : ℚ) (inputs : List (ℚ × ℚ × ℚ))
    (hlim : ¬ has_bit p.features_ PID_FEAT_OUTPUT_LIMIT)
    (haw : ¬ (has_bit p.mode_ PID_MODE_I ∧ has_bit p.features_ PID_FEAT_ANTI_WINDUP)) :
    outputs { p with max_out_ := v } inputs = outputs p inputs := by
  induction inputs generalizing p with
  | nil => rfl
  | cons x rest ih =>
    obtain ⟨t, a, dt⟩ := x
    obtain ⟨h1, h2⟩ := calculate_max_out p v t a dt hlim haw
    simp only [outputs]
    rw [h1, h2, ih (_calculate p t a dt).2 hlim haw]

theorem blocked_accumulation (p : PID) (t a dt : ℚ)
    (hA : has_bit p.features_ PID_FEAT_ANTI_WINDUP)
    (hsat : (p._prev_output_ ≥ p.max_out_ ∧ (calculate_run p t a dt).err > 0) ∨
      (p._prev_output_ ≤ -p.max_out_ ∧ (calculate_run p t a dt).err < 0)) :
    (calculate_run p t a dt).integral_acc = p.integral_ := by
  have hc : has_bit p.features_ PID_FEAT_ANTI_WINDUP ∧
      ((p._prev_output_ ≥ p.max_out_ ∧ (calculate_run p t a dt).err > 0) ∨
        (p._prev_output_ ≤ -p.max_out_ ∧ (calculate_run p t a dt).err < 0)) := ⟨hA, hsat⟩
  rw [calculate_run_integral_acc, if_pos hc]
  simp

end PidClaims10

section PidClaims11

/-- C32 (the code at the failing input).  Called with `dt_s = 0`, `_calculate`
takes 0 as raw difference.  Without the derivative filter the derivative value
is then 0 and the output is that of the same call with the D bit cleared.  With
D active and the derivative filter enabled the derivative value is
`(1 - alpha) * _filtered_diff_`, what the filter keeps of its previous value, and
the unclamped output exceeds that of the call with the D bit cleared by `kd`
times this value.  The PD controller with the filter (gains 1 and 1, alpha 1/2),
after the call `_calculate(2, 0, 1)` from `_init_cfg`, has filter value 1; the
call `_calculate(2, 0, 0)` then returns 5/2 with the derivative value 1/2, and
returns 2 with the D bit cleared. -/
theorem C32_zero_dt_keeps_filtered_derivative :
    (∀ (p : PID) (t a : ℚ), ¬ has_bit p.features_ PID_FEAT_DIFF_FILTER →
        (calculate_run p t a 0).diff = 0 ∧
        (_calculate p t a 0).1 =
          (_calculate { p with mode_ := clear_mode p.mode_ PID_MODE_D } t a 0).1) ∧
      (∀ (p : PID) (t a : ℚ), has_bit p.mode_ PID_MODE_D →
        has_bit p.features_ PID_FEAT_DIFF_FILTER →
        (calculate_run p t a 0).diff = (1 - p.diff_filter_alpha_) * p._filtered_diff_ ∧
        (calculate_run p t a 0).total_output =
          (calculate_run { p with mode_ := clear_mode p.mode_ PID_MODE_D } t a 0).total_output +
            p.kd_ * ((1 - p.diff_filter_alpha_) * p._filtered_diff_)) ∧
      ((_calculate filter_pid 2 0 1).2._filtered_diff_ = 1 ∧
        (calculate_run (_calculate filter_pid 2 0 1).2 2 0 0).diff = 1 / 2 ∧
        (_calculate (_calculate filter_pid 2 0 1).2 2 0 0).1 = 5 / 2 ∧
        (_calculate
          { (_calculate filter_pid 2 0 1).2 with
            mode_ := clear_mode (_calculate filter_pid 2 0 1).2.mode_ PID_MODE_D } 2 0 0).1 = 2 ∧
        ¬ has_bit (clear_mode (_calculate filter_pid 2 0 1).2.mode_ PID_MODE_D) PID_MODE_D) := by
  refine ⟨fun p t a h => zero_dt_without_filter p t a h,
    fun p t a hD h => zero_dt_with_filter p t a hD h, ?_, ?_, ?_, ?_, by decide⟩
  · norm_num +decide [_calculate, calculate_run, filter_pid, _init_cfg, _init, blank_pid,
      PID_ABS, PID_CLAMP, PID_MODE_PD, PID_MODE_P, PID_MODE_I, PID_MODE_D,
      PID_FEAT_OUTPUT_LIMIT, PID_FEAT_INTEGRAL_SEP, PID_FEAT_DEADBAND, PID_FEAT_DIFF_FILTER,
      PID_FEAT_DIFF_ON_MEAS, PID_FEAT_ANTI_WINDUP, PID_FEAT_OUTPUT_RATE_LIMIT,
      PID_FEAT_FEEDFORWARD]
  · norm_num +decide [_calculate, calculate_run, filter_pid, _init_cfg, _init, blank_pid,
      PID_ABS, PID_CLAMP, PID_MODE_PD, PID_MODE_P, PID_MODE_I, PID_MODE_D,
      PID_FEAT_OUTPUT_LIMIT, PID_FEAT_INTEGRAL_SEP, PID_FEAT_DEADBAND, PID_FEAT_DIFF_FILTER,
      PID_FEAT_DIFF_ON_MEAS, PID_FEAT_ANTI_WINDUP, PID_FEAT_OUTPUT_RATE_LIMIT,
      PID_FEAT_FEEDFORWARD]
  · norm_num +decide [_calculate, calculate_run, filter_pid, _init_cfg, _init, blank_pid,
      PID_ABS, PID_CLAMP, PID_MODE_PD, PID_MODE_P, PID_MODE_I, PID_MODE_D,
      PID_FEAT_OUTPUT_LIMIT, PID_FEAT_INTEGRAL_SEP, PID_FEAT_DEADBAND, PID_FEAT_DIFF_FILTER,
      PID_FEAT_DIFF_ON_MEAS, PID_FEAT_ANTI_WINDUP, PID_FEAT_OUTPUT_RATE_LIMIT,
      PID_FEAT_FEEDFORWARD]
  · norm_num +decide [_calculate, calculate_run, filter_pid, _init_cfg, _init, blank_pid,
      clear_mode,
      PID_ABS, PID_CLAMP, PID_MODE_PD, PID_MODE_P, PID_MODE_I, PID_MODE_D,
      PID_FEAT_OUTPUT_LIMIT, PID_FEAT_INTEGRAL_SEP, PID_FEAT_DEADBAND, PID_FEAT_DIFF_FILTER,
      PID_FEAT_DIFF_ON_MEAS, PID_FEAT_ANTI_WINDUP, PID_FEAT_OUTPUT_RATE_LIMIT,
      PID_FEAT_FEEDFORWARD]

/-- C33 (as amended).  With the output-limit feature disabled: when moreover I
is inactive or anti-windup is disabled, `max_out` has no influence on
`_calculate`: two controllers that differ only in `max_out` return the same
output and reach the same state (apart from `max_out` itself) on every input,
and so return the same outputs on every sequence of inputs.  With anti-windup
enabled the conditional integration does take effect without the output limit:
when the previous output is at or above `max_out` with a positive error, or at
or below `-max_out` with a negative error, the accumulation is skipped. -/
theorem C33_max_out_without_limit (p : PID) (v t a dt : ℚ) (inputs : List (ℚ × ℚ × ℚ))
    (hlim : ¬ has_bit p.features_ PID_FEAT_OUTPUT_LIMIT) :
    (¬ (has_bit p.mode_ PID_MODE_I ∧ has_bit p.features_ PID_FEAT_ANTI_WINDUP) →
        (_calculate { p with max_out_ := v } t a dt).1 = (_calculate p t a dt).1 ∧
        (_calculate { p with max_out_ := v } t a dt).2 =
          { (_calculate p t a dt).2 with max_out_ := v } ∧
        outputs { p with max_out_ := v } inputs = outputs p inputs) ∧
      (has_bit p.features_ PID_FEAT_ANTI_WINDUP →
        ((p._prev_output_ ≥ p.max_out_ ∧ (calculate_run p t a dt).err > 0) ∨
          (p._prev_output_ ≤ -p.max_out_ ∧ (calculate_run p t a dt).err < 0)) →
        (calculate_run p t a dt).integral_acc = p.integral_) :=
  ⟨fun haw => ⟨(calculate_max_out p v t a dt hlim haw).1,
      (calculate_max_out p v t a dt hlim haw).2, outputs_max_out p v inputs hlim haw⟩,
    fun hA hsat => blocked_accumulation p t a dt hA hsat⟩

/-- C33, an instance: the PID controller with only the deadband feature, whose
`max_out` is set to 7. -/
theorem C33_max_out_without_limit_witness :
    (¬ (has_bit deadband_pid.mode_ PID_MODE_I ∧
          has_bit deadband_pid.features_ PID_FEAT_ANTI_WINDUP) →
        (_calculate { deadband_pid with max_out_ := 7 } 5 0 1).1 =
          (_calculate deadband_pid 5 0 1).1 ∧
        (_calculate { deadband_pid with max_out_ := 7 } 5 0 1).2 =
          { (_calculate deadband_pid 5 0 1).2 with max_out_ := 7 } ∧
        outputs { deadband_pid with max_out_ := 7 } [(5, 0, 1), (6, 1, 1)] =
          outputs deadband_pid [(5, 0, 1), (6, 1, 1)]) ∧
      (has_bit deadband_pid.features_ PID_FEAT_ANTI_WINDUP →
        ((deadband_pid._prev_output_ ≥ deadband_pid.max_out_ ∧
            (calculate_run deadband_pid 5 0 1).err > 0) ∨
          (deadband_pid._prev_output_ ≤ -deadband_pid.max_out_ ∧
            (calculate_run deadband_pid 5 0 1).err < 0)) →
        (calculate_run deadband_pid 5 0 1).integral_acc = deadband_pid.integral_) :=
  C33_max_out_without_limit deadband_pid 7 5 0 1 [(5, 0, 1), (6, 1, 1)] (by decide)

/-- C33, as stated, fails: the fresh PI controller with anti-windup and without
the output limit (gains 1 and 1) is called with target 1, measurement 0 and
`dt` 1.  With `max_out` 0 the previous output 0 counts as saturated, the
accumulation is skipped, and the call returns 1 with accumulator 0; with
`max_out` 100 and nothing else changed it returns 2 with accumulator 1. -/
theorem C33_counterexample_anti_windup_reads_max_out :
    ¬ has_bit aw_only_pid.features_ PID_FEAT_OUTPUT_LIMIT ∧
      (_calculate aw_only_pid 1 0 1).1 = 1 ∧
      (_calculate aw_only_pid 1 0 1).2.integral_ = 0 ∧
      (_calculate { aw_only_pid with max_out_ := 100 } 1 0 1).1 = 2 ∧
      (_calculate { aw_only_pid with max_out_ := 100 } 1 0 1).2.integral_ = 1 := by
  refine ⟨by decide, ?_, ?_, ?_, ?_⟩ <;>
    norm_num +decide [_calculate, calculate_run, aw_only_pid, _init_cfg, _init, blank_pid,
      PID_ABS, PID_CLAMP, PID_MODE_PI, PID_MODE_P, PID_MODE_I, PID_MODE_D,
      PID_FEAT_OUTPUT_LIMIT, PID_FEAT_INTEGRAL_SEP, PID_FEAT_DEADBAND, PID_FEAT_DIFF_FILTER,
      PID_FEAT_DIFF_ON_MEAS, PID_FEAT_ANTI_WINDUP, PID_FEAT_OUTPUT_RATE_LIMIT,
      PID_FEAT_FEEDFORWARD]

end PidClaims11

section EngineClaims6

theorem deep_start_does_not_return (fuel : Nat) :
    ¬ ∃ m1, a_fsm_process deep_forest fuel deep_start = .ok m1 := by
  rintro ⟨m1, h⟩
  rcases Nat.lt_or_ge fuel 7 with hlt | hge
  · interval_cases fuel <;>
      exact absurd
        (show (Except.error Fault.out_of_fuel : Except Fault (Fsm Unit)) = Except.ok m1 from h)
        (by simp)
  · have h1 : [6].length < fuel := by simp; omega
    have h2 : [5, 4, 3, 2, 1, 0].length < fuel := by simp; omega
    have hov : a_fsm_process deep_forest fuel deep_start = .error Fault.path_overflow :=
      @process_transition_overflow Unit deep_forest deep_start 5 [6] [5, 4, 3, 2, 1, 0] fuel
        (by decide) (by decide) (by decide) (by decide) (by decide) (by decide) h1 h2
    rw [hov] at h
    exact absurd h (by simp)

/-- C10, as stated, fails: in the finite forest `deep_forest` the pending event
`EVENT_OK` of the state 6 resolves to the state 5, different from 6, but the six
states to enter do not fit the five-slot path buffer of `enter_down_to`: with
whatever fuel, `a_fsm_process` does not return, so it neither makes 5 the current
state nor clears the pending event. -/
theorem C10_counterexample_deep_forest :
    deep_start.globals.cur_event ≠ event_e.EVENT_NONE ∧
      deep_start.cur_state = some 6 ∧
      isChain deep_forest (some 6) [6] = true ∧
      first_answer deep_forest deep_start.globals.cur_event [6] = some 5 ∧
      (5 : Nat) ≠ 6 ∧
      (∀ fuel, ¬ ∃ m1, a_fsm_process deep_forest fuel deep_start = .ok m1) ∧
      a_fsm_process deep_forest 7 deep_start = .error Fault.path_overflow :=
  ⟨by decide, rfl, by decide, by decide, by decide, deep_start_does_not_return, rfl⟩

/-- C20, as stated, fails: in the finite forest `deep_forest` the transition from
the state 6 to the state 5 has a null LCA, the exited path `[6]` and the entered
path `[5, 4, 3, 2, 1, 0]`, of six states; `enter_down_to` has five slots for it,
and the run ends in the write past the buffer: nothing can be said of the
callbacks that run. -/
theorem C20_counterexample_deep_forest :
    isChain deep_forest (some 6) [6] = true ∧
      isChain deep_forest (some 5) [5, 4, 3, 2, 1, 0] = true ∧
      find_lca deep_forest 7 (some 6) (some 5) = .ok none ∧
      up_to_excluding [6] none = [6] ∧
      up_to_excluding [5, 4, 3, 2, 1, 0] none = [5, 4, 3, 2, 1, 0] ∧
      FSM_DEPTH < (up_to_excluding [5, 4, 3, 2, 1, 0] none).length ∧
      enter_path deep_forest none 7 (some 5) [] = .error Fault.path_overflow ∧
      ∀ fuel, 6 < fuel → a_fsm_process deep_forest fuel deep_start = .error Fault.path_overflow := by
  refine ⟨by decide, by decide, rfl, by decide, by decide, by decide, rfl, fun fuel hf => ?_⟩
  have h1 : [6].length < fuel := by simp; omega
  have h2 : [5, 4, 3, 2, 1, 0].length < fuel := by simp; omega
  exact @process_transition_overflow Unit deep_forest deep_start 5 [6] [5, 4, 3, 2, 1, 0] fuel
    (by decide) (by decide) (by decide) (by decide) (by decide) (by decide) h1 h2

end EngineClaims6

section FloatModel

theorem PID_ABS_f_num (x : ℚ) : PID_ABS_f (Flt.num x) = Flt.num (PID_ABS x) := by
  unfold PID_ABS_f PID_ABS fge fneg
  by_cases h : x ≥ 0 <;> simp [h]

theorem PID_CLAMP_f_num (v lo hi : ℚ) :
    PID_CLAMP_f (Flt.num v) (Flt.num lo) (Flt.num hi) = Flt.num (PID_CLAMP v lo hi) := by
  unfold PID_CLAMP_f PID_CLAMP fgt flt
  by_cases h : v > hi <;> by_cases h2 : v < lo <;> simp [h, h2]

theorem fadd_id (a b : ℚ) : fadd id (Flt.num a) (Flt.num b) = Flt.num (a + b) := rfl

theorem fsub_id (a b : ℚ) : fsub id (Flt.num a) (Flt.num b) = Flt.num (a - b) := rfl

theorem fmul_id (a b : ℚ) : fmul id (Flt.num a) (Flt.num b) = Flt.num (a * b) := rfl

theorem fdiv_id (a b : ℚ) (h : b ≠ 0) : fdiv id (Flt.num a) (Flt.num b) = Flt.num (a / b) := by
  simp [fdiv, h]

theorem fneg_num (a : ℚ) : fneg (Flt.num a) = Flt.num (-a) := rfl

theorem fgt_num (a b : ℚ) : (fgt (Flt.num a) (Flt.num b) = true) = (a > b) := by simp [fgt]

theorem flt_num (a b : ℚ) : (flt (Flt.num a) (Flt.num b) = true) = (a < b) := by simp [flt]

theorem fge_num (a b : ℚ) : (fge (Flt.num a) (Flt.num b) = true) = (a ≥ b) := by simp [fge]

theorem fle_num (a b : ℚ) : (fle (Flt.num a) (Flt.num b) = true) = (a ≤ b) := by simp [fle]

theorem ite_num (c : Prop) [Decidable c] (a b : ℚ) :
    (if c then Flt.num a else Flt.num b) = Flt.num (if c then a else b) := by
  split_ifs <;> rfl

/-- Without rounding and on numbers the float model of `_calculate` is the exact
model. -/
theorem calculate_run_f_exact (p : PID) (t a dt : ℚ) :
    calculate_run_f id p.toF (Flt.num t) (Flt.num a) (Flt.num dt) =
      (calculate_run p t a dt).toF := by
  by_cases hdt : dt > 0
  · have hdt0 : dt ≠ 0 := ne_of_gt hdt
    by_cases hkp : p.kp_ = 0
    · have hg : ¬ PID_ABS p.kp_ > 1 / 1000000 := by
        rw [hkp]; norm_num [PID_ABS]
      simp only [calculate_run_f, calculate_run, CalcRun.toF, PID.toF, fadd_id, fsub_id, fmul_id,
        fdiv_id _ _ hdt0, fneg_num, fgt_num, flt_num, fge_num, fle_num, PID_ABS_f_num,
        PID_CLAMP_f_num, ite_num, id, hdt, if_true, hg, false_and, and_false, if_false]
    · simp only [calculate_run_f, calculate_run, CalcRun.toF, PID.toF, fadd_id, fsub_id, fmul_id,
        fdiv_id _ _ hdt0, fdiv_id _ _ hkp, fneg_num, fgt_num, flt_num, fge_num, fle_num,
        PID_ABS_f_num, PID_CLAMP_f_num, ite_num, id, hdt, if_true]
  · by_cases hkp : p.kp_ = 0
    · have hg : ¬ PID_ABS p.kp_ > 1 / 1000000 := by
        rw [hkp]; norm_num [PID_ABS]
      simp only [calculate_run_f, calculate_run, CalcRun.toF, PID.toF, fadd_id, fsub_id, fmul_id,
        fneg_num, fgt_num, flt_num, fge_num, fle_num, PID_ABS_f_num,
        PID_CLAMP_f_num, ite_num, id, hdt, if_true, hg, false_and, and_false, if_false]
    · simp only [calculate_run_f, calculate_run, CalcRun.toF, PID.toF, fadd_id, fsub_id, fmul_id,
        fdiv_id _ _ hkp, fneg_num, fgt_num, flt_num, fge_num, fle_num,
        PID_ABS_f_num, PID_CLAMP_f_num, ite_num, id, hdt, if_true, if_false]

theorem calculate_run_f_out (rnd : ℚ → ℚ) (pf : PIDf) (t a dt : Flt) :
    (calculate_run_f rnd pf t a dt).out =
      if has_bit pf.features_ PID_FEAT_OUTPUT_RATE_LIMIT ∧ fgt dt (Flt.num 0) = true ∧
          fgt (PID_ABS_f (fsub rnd (calculate_run_f rnd pf t a dt).clamped pf._prev_output_))
            (fmul rnd pf.output_max_rate_ dt) = true then
        fadd rnd pf._prev_output_
          (if fgt (fsub rnd (calculate_run_f rnd pf t a dt).clamped pf._prev_output_)
              (Flt.num 0) = true then
            fmul rnd pf.output_max_rate_ dt
          else fneg (fmul rnd pf.output_max_rate_ dt))
      else (calculate_run_f rnd pf t a dt).clamped := rfl

theorem calculate_run_f_clamped (rnd : ℚ → ℚ) (pf : PIDf) (t a dt : Flt) :
    (calculate_run_f rnd pf t a dt).clamped =
      if has_bit pf.features_ PID_FEAT_OUTPUT_LIMIT then
        PID_CLAMP_f (calculate_run_f rnd pf t a dt).total_output (fneg pf.max_out_) pf.max_out_
      else (calculate_run_f rnd pf t a dt).total_output := rfl

theorem PID_CLAMP_f_within (v : Flt) (m : ℚ) (hm : 0 ≤ m) :
    within m (PID_CLAMP_f v (fneg (Flt.num m)) (Flt.num m)) := by
  cases v with
  | nan => simp [PID_CLAMP_f, fgt, flt, within]
  | num x =>
    rw [fneg_num, PID_CLAMP_f_num]
    exact PID_CLAMP_bounds x m hm

theorem rnd_zero (rnd : ℚ → ℚ) (hodd : ∀ x, rnd (-x) = -rnd x) : rnd 0 = 0 := by
  have h := hodd 0
  rw [neg_zero] at h
  linarith

/-- The rate-limiting step of `_calculate` on floats keeps a value that is NaN or
in `[-m, m]` so, when the previous output is, for a rounding that is monotone,
odd and leaves floats alone. -/
theorem rate_step_within (rnd : ℚ → ℚ) (hmono : Monotone rnd)
    (hodd : ∀ x, rnd (-x) = -rnd x) (hidem : ∀ x, rnd (rnd x) = rnd x) (m r : ℚ)
    (hrep : rnd m = m) (hr : 0 ≤ r) (f : Nat) (c prev dt : Flt) (hc : within m c)
    (hp : within m prev) :
    within m
      (if has_bit f PID_FEAT_OUTPUT_RATE_LIMIT ∧ fgt dt (Flt.num 0) = true ∧
          fgt (PID_ABS_f (fsub rnd c prev)) (fmul rnd (Flt.num r) dt) = true then
        fadd rnd prev
          (if fgt (fsub rnd c prev) (Flt.num 0) = true then fmul rnd (Flt.num r) dt
          else fneg (fmul rnd (Flt.num r) dt))
      else c) := by
  split_ifs with h h2
  · obtain ⟨-, hd, habs⟩ := h
    cases c with
    | nan => cases prev <;> simp [fsub, PID_ABS_f, fge, fneg, fgt] at habs
    | num x =>
      cases prev with
      | nan => simp [fsub, PID_ABS_f, fge, fneg, fgt] at habs
      | num p =>
        cases dt with
        | nan => simp [fgt] at hd
        | num d =>
          rw [fgt_num] at hd
          have hk0 : 0 ≤ rnd (r * d) := by
            have := hmono (mul_nonneg hr (le_of_lt hd))
            rwa [rnd_zero rnd hodd] at this
          have hx : x - p > rnd (r * d) := by
            by_contra hcon
            have h3 := hmono (not_lt.1 hcon)
            rw [hidem] at h3
            have h4 : fgt (Flt.num (rnd (x - p))) (Flt.num 0) = true := h2
            rw [fgt_num] at h4
            have h5 : fgt (PID_ABS_f (Flt.num (rnd (x - p)))) (Flt.num (rnd (r * d))) = true :=
              habs
            rw [PID_ABS_f_num, fgt_num, PID_ABS, if_pos (le_of_lt h4)] at h5
            linarith
          obtain ⟨hc1, hc2⟩ := hc
          obtain ⟨hp1, hp2⟩ := hp
          show -m ≤ rnd (p + rnd (r * d)) ∧ rnd (p + rnd (r * d)) ≤ m
          constructor
          · have := hmono (show -m ≤ p + rnd (r * d) by linarith)
            rwa [hodd, hrep] at this
          · have := hmono (show p + rnd (r * d) ≤ m by linarith)
            rwa [hrep] at this
  · obtain ⟨-, hd, habs⟩ := h
    cases c with
    | nan => cases prev <;> simp [fsub, PID_ABS_f, fge, fneg, fgt] at habs
    | num x =>
      cases prev with
      | nan => simp [fsub, PID_ABS_f, fge, fneg, fgt] at habs
      | num p =>
        cases dt with
        | nan => simp [fgt] at hd
        | num d =>
          rw [fgt_num] at hd
          have hk0 : 0 ≤ rnd (r * d) := by
            have := hmono (mul_nonneg hr (le_of_lt hd))
            rwa [rnd_zero rnd hodd] at this
          have h4 : ¬ fgt (Flt.num (rnd (x - p))) (Flt.num 0) = true := h2
          rw [fgt_num] at h4
          have h5 : fgt (PID_ABS_f (Flt.num (rnd (x - p)))) (Flt.num (rnd (r * d))) = true :=
            habs
          rw [PID_ABS_f_num, fgt_num] at h5
          have he : rnd (x - p) < -rnd (r * d) := by
            unfold PID_ABS at h5
            split_ifs at h5 with h6
            · have : rnd (x - p) = 0 := le_antisymm (not_lt.1 h4) h6
              rw [this] at h5
              linarith
            · linarith
          have hx : x - p < -rnd (r * d) := by
            by_contra hcon
            have h3 := hmono (not_lt.1 hcon)
            rw [hodd, hidem] at h3
            linarith
          obtain ⟨hc1, hc2⟩ := hc
          obtain ⟨hp1, hp2⟩ := hp
          show -m ≤ rnd (p + -rnd (r * d)) ∧ rnd (p + -rnd (r * d)) ≤ m
          constructor
          · have := hmono (show -m ≤ p + -rnd (r * d) by linarith)
            rwa [hodd, hrep] at this
          · have := hmono (show p + -rnd (r * d) ≤ m by linarith)
            rwa [hrep] at this
  · exact hc

theorem calculate_f_within (rnd : ℚ → ℚ) (hmono : Monotone rnd)
    (hodd : ∀ x, rnd (-x) = -rnd x) (hidem : ∀ x, rnd (rnd x) = rnd x) (pf : PIDf) (m r : ℚ)
    (hlim : has_bit pf.features_ PID_FEAT_OUTPUT_LIMIT) (hmax : pf.max_out_ = Flt.num m)
    (hm : 0 ≤ m) (hrep : rnd m = m) (hrate : pf.output_max_rate_ = Flt.num r) (hr : 0 ≤ r)
    (t a dt : Flt) (hprev : within m pf._prev_output_) :
    within m (calculate_run_f rnd pf t a dt).out := by
  have hc : within m (calculate_run_f rnd pf t a dt).clamped := by
    rw [calculate_run_f_clamped, if_pos hlim, hmax]
    exact PID_CLAMP_f_within _ m hm
  rw [calculate_run_f_out, hrate]
  exact rate_step_within rnd hmono hodd hidem m r hrep hr _ _ _ _ hc hprev

theorem outputs_f_within (rnd : ℚ → ℚ) (hmono : Monotone rnd)
    (hodd : ∀ x, rnd (-x) = -rnd x) (hidem : ∀ x, rnd (rnd x) = rnd x) (m r : ℚ)
    (hm : 0 ≤ m) (hrep : rnd m = m) (hr : 0 ≤ r) (pf : PIDf) (inputs : List (Flt × Flt × Flt))
    (hlim : has_bit pf.features_ PID_FEAT_OUTPUT_LIMIT) (hmax : pf.max_out_ = Flt.num m)
    (hrate : pf.output_max_rate_ = Flt.num r) (hprev : within m pf._prev_output_) :
    ∀ o ∈ outputs_f rnd pf inputs, within m o := by
  induction inputs generalizing pf with
  | nil => simp [outputs_f]
  | cons x rest ih =>
    obtain ⟨t, a, dt⟩ := x
    intro o ho
    have hb := calculate_f_within rnd hmono hodd hidem pf m r hlim hmax hm hrep hrate hr t a dt
      hprev
    simp only [outputs_f, List.mem_cons] at ho
    rcases ho with rfl | ho
    · exact hb
    · exact ih (_calculate_f rnd pf t a dt).2 hlim hmax hrate hb o ho

end FloatModel

/-! ## Rounding to binary32 is monotone, odd and idempotent -/

section Rounding

theorem round_to_cases (u x : ℚ) :
    round_to u x = (Rat.floor (x / u) : ℚ) * u ∨
      round_to u x = ((Rat.floor (x / u) : ℚ) + 1) * u := by
  unfold round_to
  simp only []
  split_ifs
  · exact Or.inl rfl
  · exact Or.inr rfl
  · exact Or.inl rfl
  · exact Or.inr rfl

theorem floor_le_div (u x : ℚ) : ((Rat.floor (x / u) : Int) : ℚ) ≤ x / u :=
  Rat.le_floor.1 (le_refl _)

theorem div_lt_floor_add_one (u x : ℚ) : x / u < ((Rat.floor (x / u) : Int) : ℚ) + 1 := by
  by_contra h
  have h1 : (((Rat.floor (x / u) + 1 : Int)) : ℚ) ≤ x / u := by
    push_cast
    exact not_lt.1 h
  have h2 := Rat.le_floor.2 h1
  omega

/-- A multiple of `u` below `x` is below the rounded value. -/
theorem le_round_to (u x : ℚ) (hu : 0 < u) (n : Int) (h : (n : ℚ) * u ≤ x) :
    (n : ℚ) * u ≤ round_to u x := by
  have h1 : (n : ℚ) ≤ x / u := (le_div_iff₀ hu).2 h
  have h2 : n ≤ Rat.floor (x / u) := Rat.le_floor.2 h1
  have h3 : (n : ℚ) ≤ (Rat.floor (x / u) : ℚ) := by exact_mod_cast h2
  rcases round_to_cases u x with hr | hr <;> rw [hr] <;> nlinarith

/-- A multiple of `u` above `x` is above the rounded value. -/
theorem round_to_le (u x : ℚ) (hu : 0 < u) (n : Int) (h : x ≤ (n : ℚ) * u) :
    round_to u x ≤ (n : ℚ) * u := by
  have h1 : x / u ≤ (n : ℚ) := (div_le_iff₀ hu).2 h
  have hf := floor_le_div u x
  have h2 : ((Rat.floor (x / u) : Int) : ℚ) ≤ n := le_trans hf h1
  have h3 : Rat.floor (x / u) ≤ n := by exact_mod_cast h2
  rcases lt_or_eq_of_le h3 with hlt | heq
  · have h4 : Rat.floor (x / u) + 1 ≤ n := hlt
    have h5 : ((Rat.floor (x / u) : Int) : ℚ) + 1 ≤ n := by exact_mod_cast h4
    rcases round_to_cases u x with hr | hr <;> rw [hr] <;> nlinarith
  · have hx : x / u = (n : ℚ) := le_antisymm h1 (by rw [← heq]; exact hf)
    unfold round_to
    simp only []
    rw [heq, hx]
    norm_num

theorem round_to_mul (u : ℚ) (hu : 0 < u) (n : Int) : round_to u ((n : ℚ) * u) = (n : ℚ) * u :=
  le_antisymm (round_to_le u _ hu n (le_refl _)) (le_round_to u _ hu n (le_refl _))

theorem floor_unique (r : ℚ) (z : Int) (h1 : (z : ℚ) ≤ r) (h2 : r < (z : ℚ) + 1) :
    Rat.floor r = z := by
  have ha : z ≤ Rat.floor r := Rat.le_floor.2 h1
  have hb : ((Rat.floor r : Int) : ℚ) ≤ r := Rat.le_floor.1 (le_refl _)
  have hc : ((Rat.floor r : Int) : ℚ) < (z : ℚ) + 1 := lt_of_le_of_lt hb h2
  have hd : Rat.floor r < z + 1 := by exact_mod_cast hc
  omega

theorem round_to_mono (u : ℚ) (hu : 0 < u) (x y : ℚ) (h : x ≤ y) :
    round_to u x ≤ round_to u y := by
  have hxy : x / u ≤ y / u := div_le_div_of_nonneg_right h (le_of_lt hu)
  have hf : Rat.floor (x / u) ≤ Rat.floor (y / u) :=
    Rat.le_floor.2 (le_trans (floor_le_div u x) hxy)
  rcases lt_or_eq_of_le hf with hlt | heq
  · have h1 : Rat.floor (x / u) + 1 ≤ Rat.floor (y / u) := hlt
    have h2 : ((Rat.floor (x / u) + 1 : Int) : ℚ) ≤ y / u :=
      le_trans (by exact_mod_cast h1) (floor_le_div u y)
    have h3 : ((Rat.floor (x / u) + 1 : Int) : ℚ) * u ≤ y := (le_div_iff₀ hu).1 h2
    have h4 : x ≤ ((Rat.floor (x / u) + 1 : Int) : ℚ) * u := by
      have := div_lt_floor_add_one u x
      have h5 : x / u ≤ ((Rat.floor (x / u) + 1 : Int) : ℚ) := by
        push_cast; exact le_of_lt this
      exact (div_le_iff₀ hu).1 h5
    exact le_trans (round_to_le u x hu _ h4) (le_round_to u y hu _ h3)
  · unfold round_to
    simp only []
    rw [← heq]
    split_ifs <;> linarith

theorem round_to_neg (u : ℚ) (hu : 0 < u) (x : ℚ) : round_to u (-x) = -round_to u x := by
  have hlo := floor_le_div u x
  have hhi := div_lt_floor_add_one u x
  have hneg : -x / u = -(x / u) := neg_div u x
  rcases eq_or_lt_of_le hlo with heq | hlt
  · have hx : x = ((Rat.floor (x / u) : Int) : ℚ) * u := by
      rw [heq]; field_simp
    have hnx : -x = ((-(Rat.floor (x / u)) : Int) : ℚ) * u := by
      push_cast; rw [neg_mul, ← hx]
    have h1 : round_to u x = ((Rat.floor (x / u) : Int) : ℚ) * u := by
      conv_lhs => rw [hx]
      exact round_to_mul u hu _
    rw [hnx, round_to_mul u hu, h1]
    push_cast
    ring
  · have hfl : Rat.floor (-x / u) = -(Rat.floor (x / u)) - 1 :=
      floor_unique _ _ (by push_cast; rw [hneg]; linarith) (by push_cast; rw [hneg]; linarith)
    unfold round_to
    simp only []
    rw [hfl, hneg]
    push_cast
    split_ifs <;> first | linarith | (exfalso; omega)

theorem ulp_up_spec (n : Nat) (a : ℚ) :
    ∀ u : ℚ, 0 < u → 2 ^ 23 * u ≤ a →
      ∃ j : Nat, j ≤ n ∧ ulp_up n a u = 2 ^ j * u ∧ 2 ^ 23 * ulp_up n a u ≤ a ∧
        (a < 2 ^ 24 * ulp_up n a u ∨ j = n) := by
  induction n with
  | zero =>
    intro u _ h
    exact ⟨0, le_refl _, by simp [ulp_up], by simpa [ulp_up] using h, Or.inr rfl⟩
  | succ n ih =>
    intro u hu h
    by_cases hc : a ≥ 2 ^ 24 * u
    · obtain ⟨j, hj, he, hlo, hhi⟩ := ih (2 * u) (by linarith) (by linarith)
      refine ⟨j + 1, by omega, ?_, ?_, ?_⟩
      · simp only [ulp_up, if_pos hc, he]; ring
      · simpa only [ulp_up, if_pos hc] using hlo
      · rcases hhi with hhi | hhi
        · exact Or.inl (by simpa only [ulp_up, if_pos hc] using hhi)
        · exact Or.inr (by omega)
    · refine ⟨0, by omega, by simp [ulp_up, hc], by simpa [ulp_up, hc] using h, Or.inl ?_⟩
      simp only [ulp_up, if_neg hc]
      exact not_le.1 hc

theorem ulp_down_spec (n : Nat) (a : ℚ) :
    ∀ u : ℚ, 0 < u → a < 2 ^ 24 * u →
      ∃ j : Nat, j ≤ n ∧ ulp_down n a u = u / 2 ^ j ∧ a < 2 ^ 24 * ulp_down n a u ∧
        (2 ^ 23 * ulp_down n a u ≤ a ∨ j = n) := by
  induction n with
  | zero =>
    intro u _ h
    exact ⟨0, le_refl _, by simp [ulp_down], by simpa [ulp_down] using h, Or.inr rfl⟩
  | succ n ih =>
    intro u hu h
    by_cases hc : a < 2 ^ 23 * u
    · obtain ⟨j, hj, he, hhi, hlo⟩ := ih (u / 2) (by linarith) (by linarith)
      refine ⟨j + 1, by omega, ?_, ?_, ?_⟩
      · simp only [ulp_down, if_pos hc, he]; rw [pow_succ]; field_simp; left; ring
      · simpa only [ulp_down, if_pos hc] using hhi
      · rcases hlo with hlo | hlo
        · exact Or.inl (by simpa only [ulp_down, if_pos hc] using hlo)
        · exact Or.inr (by omega)
    · refine ⟨0, by omega, by simp [ulp_down, hc], by simpa [ulp_down, hc] using h, Or.inl ?_⟩
      simp only [ulp_down, if_neg hc]
      exact not_lt.1 hc

/-- The spacing `ulp32 x` is a power of two between `2^(-149)` and `2^104`, with
`2^23 * ulp32 x ≤ |x| < 2^24 * ulp32 x` except at the two ends of the range. -/
theorem ulp32_spec (x : ℚ) :
    ∃ k : ℤ, -149 ≤ k ∧ k ≤ 104 ∧ ulp32 x = (2 : ℚ) ^ k ∧
      (k = -149 ∨ 2 ^ 23 * ulp32 x ≤ |x|) ∧ (k = 104 ∨ |x| < 2 ^ 24 * ulp32 x) := by
  unfold ulp32
  by_cases hc : |x| ≥ 2 ^ 24
  · rw [if_pos hc]
    obtain ⟨j, hj, he, hlo, hhi⟩ := ulp_up_spec 104 |x| 1 one_pos (by linarith)
    refine ⟨(j : ℤ), by omega, by omega, ?_, Or.inr hlo, ?_⟩
    · rw [he, mul_one, zpow_natCast]
    · rcases hhi with hhi | hhi
      · exact Or.inr hhi
      · exact Or.inl (by omega)
  · rw [if_neg hc]
    obtain ⟨j, hj, he, hhi, hlo⟩ := ulp_down_spec 149 |x| 1 one_pos (by linarith)
    refine ⟨-(j : ℤ), by omega, by omega, ?_, ?_, Or.inr hhi⟩
    · rw [he, zpow_neg, zpow_natCast, one_div]
    · rcases hlo with hlo | hlo
      · exact Or.inr hlo
      · exact Or.inl (by omega)

theorem ulp32_pos (x : ℚ) : 0 < ulp32 x := by
  obtain ⟨k, -, -, he, -, -⟩ := ulp32_spec x
  rw [he]
  positivity

theorem ulp32_neg (x : ℚ) : ulp32 (-x) = ulp32 x := by
  unfold ulp32
  rw [abs_neg]

theorem two_zpow_succ_le (k l : ℤ) (h : l < k) : 2 * (2 : ℚ) ^ l ≤ (2 : ℚ) ^ k := by
  have h1 : (2 : ℚ) ^ (l + 1) ≤ (2 : ℚ) ^ k := zpow_le_zpow_right₀ (by norm_num) (by omega)
  rw [zpow_add_one₀ (by norm_num)] at h1
  linarith

/-- Two spacings that fit `a ≤ b` are ordered. -/
theorem spacing_le (a b u v : ℚ) (k l : ℤ) (hab : a ≤ b) (hu : u = (2 : ℚ) ^ k)
    (hv : v = (2 : ℚ) ^ l) (hk : -149 ≤ l) (hl : k ≤ 104)
    (hlo : k = -149 ∨ 2 ^ 23 * u ≤ a) (hhi : l = 104 ∨ b < 2 ^ 24 * v) : u ≤ v := by
  by_contra hcon
  have hlt : l < k := by
    by_contra h2
    have : (2 : ℚ) ^ k ≤ (2 : ℚ) ^ l := zpow_le_zpow_right₀ (by norm_num) (by omega)
    rw [hu, hv] at hcon
    exact hcon this
  have h2 := two_zpow_succ_le k l hlt
  rw [← hu, ← hv] at h2
  have h3 : 2 ^ 23 * u ≤ a := by
    rcases hlo with hlo | hlo
    · omega
    · exact hlo
  have h4 : b < 2 ^ 24 * v := by
    rcases hhi with hhi | hhi
    · omega
    · exact hhi
  nlinarith

end Rounding

section Rounding2

theorem round32_neg (x : ℚ) : round32 (-x) = -round32 x := by
  unfold round32
  by_cases h : x = 0
  · simp [h]
  · have h2 : ¬ -x = 0 := fun h3 => h (neg_eq_zero.1 h3)
    rw [if_neg h, if_neg h2, ulp32_neg, round_to_neg _ (ulp32_pos x)]

theorem round32_nonneg (x : ℚ) (h : 0 ≤ x) : 0 ≤ round32 x := by
  unfold round32
  split_ifs
  · exact le_refl _
  · have := le_round_to (ulp32 x) x (ulp32_pos x) 0 (by simpa using h)
    simpa using this

theorem round32_mono_pos (x y : ℚ) (hx : 0 < x) (h : x ≤ y) : round32 x ≤ round32 y := by
  have hy : 0 < y := lt_of_lt_of_le hx h
  unfold round32
  rw [if_neg (ne_of_gt hx), if_neg (ne_of_gt hy)]
  obtain ⟨k, hk1, hk2, hku, hklo, hkhi⟩ := ulp32_spec x
  obtain ⟨l, hl1, hl2, hlu, hllo, hlhi⟩ := ulp32_spec y
  rw [abs_of_pos hx] at hklo hkhi
  rw [abs_of_pos hy] at hllo hlhi
  have hle : ulp32 x ≤ ulp32 y := spacing_le x y _ _ k l h hku hlu hl1 hk2 hklo hlhi
  rcases eq_or_lt_of_le hle with heq | hlt
  · rw [heq]
    exact round_to_mono _ (ulp32_pos y) x y h
  · have hkl : k < l := by
      by_contra hcon
      have : (2 : ℚ) ^ l ≤ (2 : ℚ) ^ k := zpow_le_zpow_right₀ (by norm_num) (by omega)
      rw [hku, hlu] at hlt
      linarith
    have h2 := two_zpow_succ_le l k hkl
    rw [← hku, ← hlu] at h2
    have h3 : x < 2 ^ 24 * ulp32 x := by
      rcases hkhi with hkhi | hkhi
      · omega
      · exact hkhi
    have h4 : 2 ^ 23 * ulp32 y ≤ y := by
      rcases hllo with hllo | hllo
      · omega
      · exact hllo
    have h5 := round_to_le (ulp32 x) x (ulp32_pos x) (2 ^ 24) (by push_cast; linarith)
    have h6 := le_round_to (ulp32 y) y (ulp32_pos y) (2 ^ 23) (by push_cast; linarith)
    push_cast at h5 h6
    linarith

/-- Rounding to binary32 is monotone. -/
theorem round32_monotone : Monotone round32 := by
  intro x y h
  rcases lt_trichotomy 0 x with hx | hx | hx
  · exact round32_mono_pos x y hx h
  · rw [← hx] at h ⊢
    have : round32 0 = 0 := by simp [round32]
    rw [this]
    exact round32_nonneg y h
  · rcases le_or_lt 0 y with hy | hy
    · have h1 : 0 ≤ round32 (-x) := round32_nonneg (-x) (by linarith)
      rw [round32_neg] at h1
      have h2 := round32_nonneg y hy
      linarith
    · have h1 := round32_mono_pos (-y) (-x) (by linarith) (by linarith)
      rw [round32_neg, round32_neg] at h1
      linarith

theorem ulp32_eq (y u : ℚ) (k : ℤ) (hk1 : -149 ≤ k) (hk2 : k ≤ 104) (hu : u = (2 : ℚ) ^ k)
    (hlo : k = -149 ∨ 2 ^ 23 * u ≤ |y|) (hhi : k = 104 ∨ |y| < 2 ^ 24 * u) : ulp32 y = u := by
  obtain ⟨l, hl1, hl2, hlu, hllo, hlhi⟩ := ulp32_spec y
  exact le_antisymm
    (spacing_le |y| |y| _ _ l k (le_refl _) hlu hu hk1 hl2 hllo hhi)
    (spacing_le |y| |y| _ _ k l (le_refl _) hu hlu hl1 hk2 hlo hlhi)

theorem round32_of_ne (y : ℚ) (h : y ≠ 0) : round32 y = round_to (ulp32 y) y := by
  unfold round32
  rw [if_neg h]

theorem round32_idem_aux (x : ℚ) (hx : 0 < x) (n : Int)
    (hn : round32 x = (n : ℚ) * ulp32 x) : round32 (round32 x) = round32 x := by
  obtain ⟨k, hk1, hk2, hku, hklo, hkhi⟩ := ulp32_spec x
  rw [abs_of_pos hx] at hklo hkhi
  have hup := ulp32_pos x
  have hr : round32 x = round_to (ulp32 x) x := round32_of_ne x (ne_of_gt hx)
  have hy0 : 0 ≤ round32 x := round32_nonneg x (le_of_lt hx)
  rcases eq_or_lt_of_le hy0 with hz | hpos
  · rw [← hz]; simp [round32]
  · have hlo : k = -149 ∨ 2 ^ 23 * ulp32 x ≤ |round32 x| := by
      rcases hklo with hklo | hklo
      · exact Or.inl hklo
      · right
        rw [abs_of_pos hpos, hr]
        have := le_round_to (ulp32 x) x hup (2 ^ 23) (by push_cast; linarith)
        push_cast at this
        exact this
    have hhi : k = 104 ∨ round32 x ≤ 2 ^ 24 * ulp32 x := by
      rcases hkhi with hkhi | hkhi
      · exact Or.inl hkhi
      · right
        rw [hr]
        have := round_to_le (ulp32 x) x hup (2 ^ 24) (by push_cast; linarith)
        push_cast at this
        exact this
    by_cases hcar : k ≠ 104 ∧ round32 x = 2 ^ 24 * ulp32 x
    · obtain ⟨hk3, hcar⟩ := hcar
      have hu2 : ulp32 (round32 x) = 2 * ulp32 x := by
        refine ulp32_eq (round32 x) (2 * ulp32 x) (k + 1) (by omega) (by omega) ?_ ?_ ?_
        · rw [hku, zpow_add_one₀ (by norm_num)]; ring
        · right; rw [abs_of_pos hpos, hcar]; linarith
        · right; rw [abs_of_pos hpos, hcar]; linarith
      have hm : round32 x = ((2 ^ 23 : Int) : ℚ) * (2 * ulp32 x) := by
        rw [hcar]; push_cast; ring
      have h2u : 0 < 2 * ulp32 x := by linarith
      have h7 := round_to_mul (2 * ulp32 x) h2u (2 ^ 23)
      rw [← hm] at h7
      rw [round32_of_ne (round32 x) (ne_of_gt hpos), hu2]
      exact h7
    · have hu2 : ulp32 (round32 x) = ulp32 x := by
        refine ulp32_eq (round32 x) (ulp32 x) k hk1 hk2 hku hlo ?_
        rcases hhi with hhi | hhi
        · exact Or.inl hhi
        · by_cases hk3 : k = 104
          · exact Or.inl hk3
          · right
            rw [abs_of_pos hpos]
            exact lt_of_le_of_ne hhi (fun h => hcar ⟨hk3, h⟩)
      have h7 := round_to_mul (ulp32 x) hup n
      rw [← hn] at h7
      rw [round32_of_ne (round32 x) (ne_of_gt hpos), hu2]
      exact h7

theorem round32_idem_pos (x : ℚ) (hx : 0 < x) : round32 (round32 x) = round32 x := by
  have hr : round32 x = round_to (ulp32 x) x := round32_of_ne x (ne_of_gt hx)
  rcases round_to_cases (ulp32 x) x with hn | hn
  · exact round32_idem_aux x hx (Rat.floor (x / ulp32 x)) (hr.trans hn)
  · refine round32_idem_aux x hx (Rat.floor (x / ulp32 x) + 1) ?_
    rw [hr, hn]
    push_cast
    rfl

/-- Rounding to binary32 leaves a binary32 float alone. -/
theorem round32_idem (x : ℚ) : round32 (round32 x) = round32 x := by
  rcases lt_trichotomy 0 x with hx | hx | hx
  · exact round32_idem_pos x hx
  · rw [← hx]; simp [round32]
  · have h := round32_idem_pos (-x) (by linarith)
    rw [round32_neg, round32_neg] at h
    linarith

end Rounding2

section PidClaimsF

/-- C6 (as amended).  On floats, with the output limit enabled and `max_out` and
`output_max_rate` numbers `≥ 0`, for every rounding that is monotone, odd and
leaves floats alone (as rounding to binary32 is): whatever the mode, the other features and the inputs, a call
of `_calculate` from a controller whose previous output is NaN or in
`[-max_out, +max_out]` returns a value that is NaN or in that interval, stores it
as the new previous output and leaves mode, features, `max_out` and
`output_max_rate` as they were; hence every value returned by any sequence of
calls after `_reset`, or after `_init_cfg` with these settings, is NaN or lies in
`[-max_out, +max_out]`.  Without rounding and on numbers the float model is the
exact model, and there every returned value is a number in `[-max_out, +max_out]`. -/
theorem C6_output_limit_invariant (rnd : ℚ → ℚ) (hmono : Monotone rnd)
    (hodd : ∀ x, rnd (-x) = -rnd x) (hidem : ∀ x, rnd (rnd x) = rnd x) (pf : PIDf) (m r : ℚ)
    (hlim : has_bit pf.features_ PID_FEAT_OUTPUT_LIMIT) (hmax : pf.max_out_ = Flt.num m)
    (hm : 0 ≤ m) (hrep : rnd m = m) (hrate : pf.output_max_rate_ = Flt.num r) (hr : 0 ≤ r) :
    (∀ t a dt, within m pf._prev_output_ →
      within m (_calculate_f rnd pf t a dt).1 ∧
      (_calculate_f rnd pf t a dt).2._prev_output_ = (_calculate_f rnd pf t a dt).1 ∧
      (_calculate_f rnd pf t a dt).2.mode_ = pf.mode_ ∧
      (_calculate_f rnd pf t a dt).2.features_ = pf.features_ ∧
      (_calculate_f rnd pf t a dt).2.max_out_ = pf.max_out_ ∧
      (_calculate_f rnd pf t a dt).2.output_max_rate_ = pf.output_max_rate_) ∧
    (∀ inputs, ∀ o ∈ outputs_f rnd (_reset_f pf) inputs, within m o) ∧
    (∀ (p0 : PIDf) (mode : Nat) (kp ki kd sep db alpha : Flt) inputs,
      ∀ o ∈ outputs_f rnd (_init_cfg_f p0
          { mode := mode, features := pf.features_, kp := kp, ki := ki, kd := kd,
            max_out := pf.max_out_, integral_separation := sep, dead_band := db,
            diff_filter_alpha := alpha, output_max_rate := pf.output_max_rate_ }) inputs,
        within m o) ∧
    (∀ (p : PID) (t a dt : ℚ),
      calculate_run_f id p.toF (Flt.num t) (Flt.num a) (Flt.num dt) =
        (calculate_run p t a dt).toF) ∧
    (∀ p : PID, has_bit p.features_ PID_FEAT_OUTPUT_LIMIT → 0 ≤ p.max_out_ →
      0 ≤ p.output_max_rate_ →
      (∀ t a dt, -p.max_out_ ≤ p._prev_output_ ∧ p._prev_output_ ≤ p.max_out_ →
        -p.max_out_ ≤ (_calculate p t a dt).1 ∧ (_calculate p t a dt).1 ≤ p.max_out_) ∧
      (∀ inputs, ∀ o ∈ outputs (_reset p) inputs, -p.max_out_ ≤ o ∧ o ≤ p.max_out_) ∧
      (∀ (p0 : PID) (mode : Nat) (kp ki kd sep db alpha : ℚ) inputs,
        ∀ o ∈ outputs (_init_cfg p0
            { mode := mode, features := p.features_, kp := kp, ki := ki, kd := kd,
              max_out := p.max_out_, integral_separation := sep, dead_band := db,
              diff_filter_alpha := alpha, output_max_rate := p.output_max_rate_ }) inputs,
          -p.max_out_ ≤ o ∧ o ≤ p.max_out_)) := by
  have h0 : within m (Flt.num 0) := ⟨by linarith, hm⟩
  refine ⟨fun t a dt hprev =>
      ⟨calculate_f_within rnd hmono hodd hidem pf m r hlim hmax hm hrep hrate hr t a dt hprev,
        rfl, rfl, rfl, rfl, rfl⟩,
    fun inputs => outputs_f_within rnd hmono hodd hidem m r hm hrep hr (_reset_f pf) inputs
      hlim hmax hrate h0,
    fun p0 mode kp ki kd sep db alpha inputs =>
      outputs_f_within rnd hmono hodd hidem m r hm hrep hr (_init_cfg_f p0 _) inputs
        hlim hmax hrate h0,
    fun p t a dt => calculate_run_f_exact p t a dt,
    fun p hl hmx hrt => ⟨fun t a dt hprev => calculate_out_bounds p t a dt hl hmx hrt hprev,
      fun inputs => ?_, fun p0 mode kp ki kd sep db alpha inputs => ?_⟩⟩
  · exact outputs_bounds (_reset p) inputs hl hmx hrt
      ⟨by simpa [_reset] using hmx, by simpa [_reset] using hmx⟩
  · exact outputs_bounds (_init_cfg p0 _) inputs hl hmx hrt
      ⟨by simpa [_init_cfg, _init] using hmx, by simpa [_init_cfg, _init] using hmx⟩

/-- C6, an instance: the fresh P controller with the output limit 10, with
rounding to binary32, which is monotone, odd and leaves floats alone. -/
theorem C6_output_limit_invariant_witness :
    (∀ t a dt, within 10 limited_pid_f._prev_output_ →
      within 10 (_calculate_f round32 limited_pid_f t a dt).1 ∧
      (_calculate_f round32 limited_pid_f t a dt).2._prev_output_ =
        (_calculate_f round32 limited_pid_f t a dt).1 ∧
      (_calculate_f round32 limited_pid_f t a dt).2.mode_ = limited_pid_f.mode_ ∧
      (_calculate_f round32 limited_pid_f t a dt).2.features_ = limited_pid_f.features_ ∧
      (_calculate_f round32 limited_pid_f t a dt).2.max_out_ = limited_pid_f.max_out_ ∧
      (_calculate_f round32 limited_pid_f t a dt).2.output_max_rate_ =
        limited_pid_f.output_max_rate_) ∧
    (∀ inputs, ∀ o ∈ outputs_f round32 (_reset_f limited_pid_f) inputs, within 10 o) ∧
    (_calculate_f round32 limited_pid_f (Flt.num 25) (Flt.num 0) (Flt.num 1)).1 = Flt.num 10 ∧
    (_calculate_f round32 limited_pid_f (Flt.num 25) Flt.nan (Flt.num 1)).1 = Flt.nan :=
  have h := C6_output_limit_invariant round32 round32_monotone round32_neg round32_idem
    limited_pid_f 10 0 (by decide) rfl (by norm_num) (by decide!) rfl (le_refl 0)
  ⟨h.1, h.2.1, by decide!, by decide!⟩

/-- C6, as stated, fails: the fresh P controller with the output limit
(`max_out` 10, rate 0, previous output 0) is called with the measurement NaN.
The error and the proportional term are NaN, both comparisons of `PID_CLAMP`
are false for it, and the call returns NaN and stores it as previous output: the
test `|output| <= max_out` is false. -/
theorem C6_counterexample_nan_passes_the_limit :
    has_bit limited_pid_f.features_ PID_FEAT_OUTPUT_LIMIT ∧
      fge limited_pid_f.max_out_ (Flt.num 0) = true ∧
      fge limited_pid_f.output_max_rate_ (Flt.num 0) = true ∧
      fle (PID_ABS_f limited_pid_f._prev_output_) limited_pid_f.max_out_ = true ∧
      (_calculate_f round32 limited_pid_f (Flt.num 0) Flt.nan (Flt.num 1)).1 = Flt.nan ∧
      fle (PID_ABS_f (_calculate_f round32 limited_pid_f (Flt.num 0) Flt.nan (Flt.num 1)).1)
        limited_pid_f.max_out_ = false ∧
      (_calculate_f round32 limited_pid_f (Flt.num 0) Flt.nan
        (Flt.num 1)).2._prev_output_ = Flt.nan := by
  decide!

end PidClaimsF

section PidClaimsG

theorem calculate_out_le (p : PID) (t a dt : ℚ)
    (hlim : has_bit p.features_ PID_FEAT_OUTPUT_LIMIT) (hmax : 0 ≤ p.max_out_)
    (hrate : has_bit p.features_ PID_FEAT_OUTPUT_RATE_LIMIT ∧ dt > 0 → 0 ≤ p.output_max_rate_)
    (hprev : p._prev_output_ ≤ p.max_out_) :
    (calculate_run p t a dt).out ≤ p.max_out_ := by
  have hc : (calculate_run p t a dt).clamped ≤ p.max_out_ := by
    rw [calculate_run_clamped, if_pos hlim]
    exact (PID_CLAMP_bounds _ _ hmax).2
  rw [calculate_run_out]
  generalize (calculate_run p t a dt).clamped = c at hc ⊢
  split_ifs with h1 h2
  · obtain ⟨-, -, habs⟩ := h1
    have : PID_ABS (c - p._prev_output_) = c - p._prev_output_ := by
      unfold PID_ABS; rw [if_pos (le_of_lt h2)]
    rw [this] at habs
    linarith
  · have hmc : 0 ≤ p.output_max_rate_ * dt := mul_nonneg (hrate ⟨h1.1, h1.2.1⟩) (le_of_lt h1.2.1)
    linarith
  · exact hc

theorem calculate_run_total_sum (p : PID) (t a dt : ℚ) :
    (calculate_run p t a dt).total_output =
      (if has_bit p.mode_ PID_MODE_P then p.kp_ * (calculate_run p t a dt).err else 0) +
        (if has_bit p.mode_ PID_MODE_I ∧
            ¬ (has_bit p.features_ PID_FEAT_INTEGRAL_SEP ∧
              PID_ABS (calculate_run p t a dt).err > p.integral_separation_) then
          p.ki_ * (calculate_run p t a dt).integral_acc
        else 0) +
        (if has_bit p.mode_ PID_MODE_D then p.kd_ * (calculate_run p t a dt).diff else 0) +
        (if has_bit p.features_ PID_FEAT_FEEDFORWARD then p.ff_value_ else 0) := by
  rw [calculate_run_total, calculate_run_diff]
  by_cases hs : has_bit p.features_ PID_FEAT_INTEGRAL_SEP ∧
      PID_ABS (calculate_run p t a dt).err > p.integral_separation_
  · simp only [if_pos hs, not_true_eq_false, and_false, if_false]
    split_ifs <;> simp_all
  · simp only [if_neg hs, not_false_eq_true, and_true]
    split_ifs <;> simp_all

/-- C7 (as amended).  With I active and the output limit and anti-windup both
enabled, from a controller whose previous output is saturated at `+max_out`, a
call with positive error skips the accumulation step.  The accumulator after the
call is the accumulator before less the back-calculation correction
`(total_output - out) * (ki/kp) * dt`, applied when `|kp|` and `|ki|` exceed
`1e-6`; so it is no larger than before exactly when that correction is
non-negative or not applied.  When `max_out ≥ 0` and, where the rate limit acts,
`output_max_rate ≥ 0`, the returned output is `≤ max_out`; on floats, for a
rounding that is monotone, odd and leaves floats alone, it is `≤ max_out` or
NaN. -/
theorem C7_anti_windup_at_upper_limit (p : PID) (t a dt : ℚ)
    (_hI : has_bit p.mode_ PID_MODE_I) (hlim : has_bit p.features_ PID_FEAT_OUTPUT_LIMIT)
    (haw : has_bit p.features_ PID_FEAT_ANTI_WINDUP)
    (hsat : p._prev_output_ = p.max_out_) (herr : 0 < t - a) :
    (calculate_run p t a dt).integral_acc = p.integral_ ∧
      (_calculate p t a dt).2.integral_ =
        (if PID_ABS p.kp_ > 1 / 1000000 ∧ PID_ABS p.ki_ > 1 / 1000000 then
          p.integral_ -
            ((calculate_run p t a dt).total_output - (_calculate p t a dt).1) *
              (p.ki_ / p.kp_) * dt
        else p.integral_) ∧
      ((_calculate p t a dt).2.integral_ ≤ p.integral_ ↔
        (PID_ABS p.kp_ > 1 / 1000000 ∧ PID_ABS p.ki_ > 1 / 1000000 →
          0 ≤ ((calculate_run p t a dt).total_output - (_calculate p t a dt).1) *
            (p.ki_ / p.kp_) * dt)) ∧
      (0 ≤ p.max_out_ →
        (has_bit p.features_ PID_FEAT_OUTPUT_RATE_LIMIT ∧ dt > 0 → 0 ≤ p.output_max_rate_) →
        (_calculate p t a dt).1 ≤ p.max_out_) ∧
      (∀ (rnd : ℚ → ℚ) (pf : PIDf) (tf af dtf : Flt) (m r : ℚ), Monotone rnd →
        (∀ x, rnd (-x) = -rnd x) → (∀ x, rnd (rnd x) = rnd x) →
        has_bit pf.features_ PID_FEAT_OUTPUT_LIMIT → pf.max_out_ = Flt.num m → 0 ≤ m →
        rnd m = m → pf.output_max_rate_ = Flt.num r → 0 ≤ r →
        pf._prev_output_ = pf.max_out_ →
        (_calculate_f rnd pf tf af dtf).1 = Flt.nan ∨
          ∃ o, (_calculate_f rnd pf tf af dtf).1 = Flt.num o ∧ o ≤ m) := by
  have hacc : (calculate_run p t a dt).integral_acc = p.integral_ := by
    rw [calculate_run_integral_acc]
    have he : (calculate_run p t a dt).err = 0 ∨ 0 < (calculate_run p t a dt).err := by
      rw [calculate_run_err]
      split_ifs
      · exact Or.inl rfl
      · exact Or.inr herr
    rcases he with he | he
    · rw [he]; simp
    · have hcond : has_bit p.features_ PID_FEAT_ANTI_WINDUP ∧
          ((p._prev_output_ ≥ p.max_out_ ∧ (calculate_run p t a dt).err > 0) ∨
            (p._prev_output_ ≤ -p.max_out_ ∧ (calculate_run p t a dt).err < 0)) :=
        ⟨haw, Or.inl ⟨le_of_eq hsat.symm, he⟩⟩
      rw [if_pos hcond]; simp
  have hint : (_calculate p t a dt).2.integral_ =
      (if PID_ABS p.kp_ > 1 / 1000000 ∧ PID_ABS p.ki_ > 1 / 1000000 then
        p.integral_ -
          ((calculate_run p t a dt).total_output - (_calculate p t a dt).1) *
            (p.ki_ / p.kp_) * dt
      else p.integral_) := by
    show (calculate_run p t a dt).pid.integral_ = _
    rw [calculate_run_integral, hacc]
    by_cases hg : PID_ABS p.kp_ > 1 / 1000000 ∧ PID_ABS p.ki_ > 1 / 1000000
    · rw [if_pos ⟨⟨_hI, haw, hlim⟩, hg⟩, if_pos hg]
      rfl
    · rw [if_neg (fun h => hg h.2), if_neg hg]
  refine ⟨hacc, hint, ?_, fun hmax hrate => ?_, ?_⟩
  · rw [hint]
    by_cases hg : PID_ABS p.kp_ > 1 / 1000000 ∧ PID_ABS p.ki_ > 1 / 1000000
    · rw [if_pos hg]
      constructor
      · intro h _
        linarith
      · intro h
        have := h hg
        linarith
    · rw [if_neg hg]
      exact ⟨fun _ h => absurd h hg, fun _ => le_refl _⟩
  · exact calculate_out_le p t a dt hlim hmax hrate (le_of_eq hsat)
  · intro rnd pf tf af dtf m r hmono hodd hidem hl hmx hm hrep hrt hr hs
    have hprev : within m pf._prev_output_ := by
      rw [hs, hmx]
      exact ⟨by linarith, le_refl m⟩
    have hw := calculate_f_within rnd hmono hodd hidem pf m r hl hmx hm hrep hrt hr tf af dtf
      hprev
    show (calculate_run_f rnd pf tf af dtf).out = Flt.nan ∨
      ∃ o, (calculate_run_f rnd pf tf af dtf).out = Flt.num o ∧ o ≤ m
    cases hout : (calculate_run_f rnd pf tf af dtf).out with
    | nan => exact Or.inl rfl
    | num o =>
      rw [hout] at hw
      exact Or.inr ⟨o, rfl, hw.2⟩

/-- C7, an instance: the saturated controller (`max_out` 10, accumulator 20)
called with error 1: the unclamped output is 21, the returned output 10, and the
back-calculation takes 11 off the accumulator; on floats with rounding to
binary32 the returned output is 10 as well. -/
theorem C7_anti_windup_at_upper_limit_witness :
    (calculate_run saturated_pid 1 0 1).integral_acc = saturated_pid.integral_ ∧
      (_calculate saturated_pid 1 0 1).2.integral_ =
        (if PID_ABS saturated_pid.kp_ > 1 / 1000000 ∧
            PID_ABS saturated_pid.ki_ > 1 / 1000000 then
          saturated_pid.integral_ -
            ((calculate_run saturated_pid 1 0 1).total_output -
              (_calculate saturated_pid 1 0 1).1) *
              (saturated_pid.ki_ / saturated_pid.kp_) * 1
        else saturated_pid.integral_) ∧
      ((_calculate saturated_pid 1 0 1).2.integral_ ≤ saturated_pid.integral_ ↔
        (PID_ABS saturated_pid.kp_ > 1 / 1000000 ∧ PID_ABS saturated_pid.ki_ > 1 / 1000000 →
          0 ≤ ((calculate_run saturated_pid 1 0 1).total_output -
            (_calculate saturated_pid 1 0 1).1) *
            (saturated_pid.ki_ / saturated_pid.kp_) * 1)) ∧
      (0 ≤ saturated_pid.max_out_ →
        (has_bit saturated_pid.features_ PID_FEAT_OUTPUT_RATE_LIMIT ∧ (1 : ℚ) > 0 →
          0 ≤ saturated_pid.output_max_rate_) →
        (_calculate saturated_pid 1 0 1).1 ≤ saturated_pid.max_out_) ∧
      ((_calculate_f round32 saturated_pid.toF (Flt.num 1) (Flt.num 0) (Flt.num 1)).1 =
          Flt.nan ∨
        ∃ o, (_calculate_f round32 saturated_pid.toF (Flt.num 1) (Flt.num 0) (Flt.num 1)).1 =
          Flt.num o ∧ o ≤ 10) ∧
      (calculate_run saturated_pid 1 0 1).total_output = 21 ∧
      (_calculate saturated_pid 1 0 1).1 = 10 ∧
      (_calculate saturated_pid 1 0 1).2.integral_ = 9 ∧
      (_calculate_f round32 saturated_pid.toF (Flt.num 1) (Flt.num 0) (Flt.num 1)).1 =
        Flt.num 10 := by
  have h := C7_anti_windup_at_upper_limit saturated_pid 1 0 1 (by decide) (by decide)
    (by decide) (by decide) (by norm_num)
  refine ⟨h.1, h.2.1, h.2.2.1, h.2.2.2.1,
    h.2.2.2.2 round32 saturated_pid.toF (Flt.num 1) (Flt.num 0) (Flt.num 1) 10 0
      round32_monotone round32_neg round32_idem (by decide) rfl (by norm_num) (by decide!) rfl
      (le_refl 0) rfl, ?_, ?_, ?_, by decide!⟩ <;>
    norm_num +decide [_calculate, calculate_run, saturated_pid, blank_pid, PID_MODE_PI,
      PID_MODE_P, PID_MODE_I, PID_MODE_D, PID_FEAT_OUTPUT_LIMIT, PID_FEAT_ANTI_WINDUP,
      PID_FEAT_DEADBAND, PID_FEAT_INTEGRAL_SEP, PID_FEAT_DIFF_ON_MEAS, PID_FEAT_DIFF_FILTER,
      PID_FEAT_FEEDFORWARD, PID_FEAT_OUTPUT_RATE_LIMIT, PID_CLAMP, PID_ABS]

/-- C7, as stated, fails, in four ways.  `wound_pid` is reached from `_init_cfg` by
two calls, has I active, output limit and anti-windup enabled and its previous
output saturated at `+max_out = 10`; the call `_calculate(1, 0, 1)` has positive
error, and the back-calculation raises the accumulator from -40 to -11.  With
`max_out = -1` the output limit returns `-max_out = 1`, above `max_out`.  With
rate limiting and the rate -1 the output moves from 10 to 11.  On floats, with
`kp` NaN, the returned output is NaN and the test `output <= max_out` false. -/
theorem C7_counterexample_accumulator_grows :
    (has_bit wound_pid.mode_ PID_MODE_I ∧
      has_bit wound_pid.features_ PID_FEAT_OUTPUT_LIMIT ∧
      has_bit wound_pid.features_ PID_FEAT_ANTI_WINDUP ∧
      wound_pid._prev_output_ = wound_pid.max_out_ ∧
      wound_pid.max_out_ = 10 ∧
      (0 : ℚ) < 1 - 0 ∧
      wound_pid.integral_ = -40 ∧
      (_calculate wound_pid 1 0 1).2.integral_ = -11 ∧
      wound_pid.integral_ < (_calculate wound_pid 1 0 1).2.integral_) ∧
    (has_bit neg_max_pid.mode_ PID_MODE_I ∧
      has_bit neg_max_pid.features_ PID_FEAT_OUTPUT_LIMIT ∧
      has_bit neg_max_pid.features_ PID_FEAT_ANTI_WINDUP ∧
      neg_max_pid._prev_output_ = neg_max_pid.max_out_ ∧
      neg_max_pid.max_out_ = -1 ∧
      (_calculate neg_max_pid 1 0 1).1 = 1 ∧
      ¬ (_calculate neg_max_pid 1 0 1).1 ≤ neg_max_pid.max_out_) ∧
    (has_bit neg_rate_pid.mode_ PID_MODE_I ∧
      has_bit neg_rate_pid.features_ PID_FEAT_OUTPUT_LIMIT ∧
      has_bit neg_rate_pid.features_ PID_FEAT_ANTI_WINDUP ∧
      neg_rate_pid._prev_output_ = neg_rate_pid.max_out_ ∧
      neg_rate_pid.max_out_ = 10 ∧
      neg_rate_pid.output_max_rate_ = -1 ∧
      (_calculate neg_rate_pid 1 0 1).1 = 11 ∧
      ¬ (_calculate neg_rate_pid 1 0 1).1 ≤ neg_rate_pid.max_out_) ∧
    (has_bit nan_gain_pid_f.mode_ PID_MODE_I ∧
      has_bit nan_gain_pid_f.features_ PID_FEAT_OUTPUT_LIMIT ∧
      has_bit nan_gain_pid_f.features_ PID_FEAT_ANTI_WINDUP ∧
      nan_gain_pid_f._prev_output_ = nan_gain_pid_f.max_out_ ∧
      fgt (fsub round32 (Flt.num 1) (Flt.num 0)) (Flt.num 0) = true ∧
      (_calculate_f round32 nan_gain_pid_f (Flt.num 1) (Flt.num 0) (Flt.num 1)).1 = Flt.nan ∧
      fle (_calculate_f round32 nan_gain_pid_f (Flt.num 1) (Flt.num 0) (Flt.num 1)).1
        nan_gain_pid_f.max_out_ = false) := by
  refine ⟨?_, ?_, ?_, by decide!⟩
  · norm_num +decide [_calculate, calculate_run, wound_pid, _init_cfg, _init, blank_pid,
      PID_MODE_PI, PID_MODE_P, PID_MODE_I, PID_MODE_D, PID_FEAT_OUTPUT_LIMIT,
      PID_FEAT_ANTI_WINDUP, PID_FEAT_DEADBAND, PID_FEAT_INTEGRAL_SEP, PID_FEAT_DIFF_ON_MEAS,
      PID_FEAT_DIFF_FILTER, PID_FEAT_FEEDFORWARD, PID_FEAT_OUTPUT_RATE_LIMIT, PID_CLAMP, PID_ABS]
  · norm_num +decide [_calculate, calculate_run, neg_max_pid, saturated_pid, blank_pid,
      PID_MODE_PI, PID_MODE_P, PID_MODE_I, PID_MODE_D, PID_FEAT_OUTPUT_LIMIT,
      PID_FEAT_ANTI_WINDUP, PID_FEAT_DEADBAND, PID_FEAT_INTEGRAL_SEP, PID_FEAT_DIFF_ON_MEAS,
      PID_FEAT_DIFF_FILTER, PID_FEAT_FEEDFORWARD, PID_FEAT_OUTPUT_RATE_LIMIT, PID_CLAMP, PID_ABS]
  · norm_num +decide [_calculate, calculate_run, neg_rate_pid, saturated_pid, blank_pid,
      PID_MODE_PI, PID_MODE_P, PID_MODE_I, PID_MODE_D, PID_FEAT_OUTPUT_LIMIT,
      PID_FEAT_ANTI_WINDUP, PID_FEAT_DEADBAND, PID_FEAT_INTEGRAL_SEP, PID_FEAT_DIFF_ON_MEAS,
      PID_FEAT_DIFF_FILTER, PID_FEAT_FEEDFORWARD, PID_FEAT_OUTPUT_RATE_LIMIT, PID_CLAMP, PID_ABS]

end PidClaimsG

section PidClaimsH

/-- C21 (as amended).  In exact arithmetic, with output-rate limiting enabled,
`dt > 0` and `output_max_rate ≥ 0`: the value the limiter receives is the sum of
the proportional, integral, derivative and feedforward terms of the call, passed
through the output limit when that is enabled; the returned output differs from
the previous output by at most `output_max_rate * dt`; when the value received is
within that distance of the previous output it is returned unchanged, and
otherwise the result is the previous output moved by exactly
`output_max_rate * dt` towards it (three calls of a PD controller with rate 2
return 2, 1 and -2).  On floats the comparison and the move are rounded: the
result is the float sum of the previous output and plus or minus the float
product `output_max_rate * dt`, whatever the rounding; without rounding and on
numbers the float model is the exact model. -/
theorem C21_rate_limit (p : PID) (t a dt : ℚ)
    (hrl : has_bit p.features_ PID_FEAT_OUTPUT_RATE_LIMIT) (hdt : 0 < dt)
    (hrate : 0 ≤ p.output_max_rate_) :
    ((calculate_run p t a dt).total_output =
        (if has_bit p.mode_ PID_MODE_P then p.kp_ * (calculate_run p t a dt).err else 0) +
          (if has_bit p.mode_ PID_MODE_I ∧
              ¬ (has_bit p.features_ PID_FEAT_INTEGRAL_SEP ∧
                PID_ABS (calculate_run p t a dt).err > p.integral_separation_) then
            p.ki_ * (calculate_run p t a dt).integral_acc
          else 0) +
          (if has_bit p.mode_ PID_MODE_D then p.kd_ * (calculate_run p t a dt).diff else 0) +
          (if has_bit p.features_ PID_FEAT_FEEDFORWARD then p.ff_value_ else 0) ∧
      (calculate_run p t a dt).err =
        (if has_bit p.features_ PID_FEAT_DEADBAND ∧ PID_ABS (t - a) < p.dead_band_ then 0
        else t - a) ∧
      (calculate_run p t a dt).clamped =
        (if has_bit p.features_ PID_FEAT_OUTPUT_LIMIT then
          PID_CLAMP (calculate_run p t a dt).total_output (-p.max_out_) p.max_out_
        else (calculate_run p t a dt).total_output)) ∧
      |(_calculate p t a dt).1 - p._prev_output_| ≤ p.output_max_rate_ * dt ∧
      (|(calculate_run p t a dt).clamped - p._prev_output_| ≤ p.output_max_rate_ * dt →
        (_calculate p t a dt).1 = (calculate_run p t a dt).clamped) ∧
      (p.output_max_rate_ * dt < |(calculate_run p t a dt).clamped - p._prev_output_| →
        (p._prev_output_ < (calculate_run p t a dt).clamped →
          (_calculate p t a dt).1 = p._prev_output_ + p.output_max_rate_ * dt) ∧
        ((calculate_run p t a dt).clamped < p._prev_output_ →
          (_calculate p t a dt).1 = p._prev_output_ - p.output_max_rate_ * dt)) ∧
      ((calculate_run meas_pid 10 3 1).clamped = 7 ∧ (_calculate meas_pid 10 3 1).1 = 2 ∧
        (calculate_run meas_pid 4 3 1).clamped = 1 ∧ (_calculate meas_pid 4 3 1).1 = 1 ∧
        (calculate_run meas_pid (-10) 3 1).clamped = -13 ∧
        (_calculate meas_pid (-10) 3 1).1 = -2) ∧
      (∀ (rnd : ℚ → ℚ) (pf : PIDf) (tf af dtf : Flt),
        (_calculate_f rnd pf tf af dtf).1 =
          if has_bit pf.features_ PID_FEAT_OUTPUT_RATE_LIMIT ∧ fgt dtf (Flt.num 0) = true ∧
              fgt (PID_ABS_f (fsub rnd (calculate_run_f rnd pf tf af dtf).clamped
                pf._prev_output_)) (fmul rnd pf.output_max_rate_ dtf) = true then
            fadd rnd pf._prev_output_
              (if fgt (fsub rnd (calculate_run_f rnd pf tf af dtf).clamped pf._prev_output_)
                  (Flt.num 0) = true then
                fmul rnd pf.output_max_rate_ dtf
              else fneg (fmul rnd pf.output_max_rate_ dtf))
          else (calculate_run_f rnd pf tf af dtf).clamped) ∧
      calculate_run_f id p.toF (Flt.num t) (Flt.num a) (Flt.num dt) =
        (calculate_run p t a dt).toF := by
  have hlimit : |(_calculate p t a dt).1 - p._prev_output_| ≤ p.output_max_rate_ * dt ∧
      (|(calculate_run p t a dt).clamped - p._prev_output_| ≤ p.output_max_rate_ * dt →
        (_calculate p t a dt).1 = (calculate_run p t a dt).clamped) ∧
      (p.output_max_rate_ * dt < |(calculate_run p t a dt).clamped - p._prev_output_| →
        (p._prev_output_ < (calculate_run p t a dt).clamped →
          (_calculate p t a dt).1 = p._prev_output_ + p.output_max_rate_ * dt) ∧
        ((calculate_run p t a dt).clamped < p._prev_output_ →
          (_calculate p t a dt).1 = p._prev_output_ - p.output_max_rate_ * dt)) := by
    have hmc : 0 ≤ p.output_max_rate_ * dt := mul_nonneg hrate (le_of_lt hdt)
    have hout : (_calculate p t a dt).1 = (calculate_run p t a dt).out := rfl
    rw [hout, calculate_run_out, PID_ABS_eq_abs]
    generalize (calculate_run p t a dt).clamped = c
    by_cases hbig : p.output_max_rate_ * dt < |c - p._prev_output_|
    · have hcond : has_bit p.features_ PID_FEAT_OUTPUT_RATE_LIMIT ∧ dt > 0 ∧
          |c - p._prev_output_| > p.output_max_rate_ * dt := ⟨hrl, hdt, hbig⟩
      rw [if_pos hcond]
      refine ⟨?_, fun h => absurd hbig (not_lt.2 h), fun _ => ⟨fun h => ?_, fun h => ?_⟩⟩
      · split_ifs <;> simp [abs_of_nonneg hmc]
      · rw [if_pos (sub_pos.2 h)]
      · rw [if_neg (not_lt.2 (le_of_lt (sub_neg.2 h)))]; ring
    · have hcond : ¬ (has_bit p.features_ PID_FEAT_OUTPUT_RATE_LIMIT ∧ dt > 0 ∧
          |c - p._prev_output_| > p.output_max_rate_ * dt) := fun h => hbig h.2.2
      rw [if_neg hcond]
      exact ⟨not_lt.1 hbig, fun _ => rfl, fun h => absurd h hbig⟩
  have hvals : (calculate_run meas_pid 10 3 1).clamped = 7 ∧ (_calculate meas_pid 10 3 1).1 = 2 ∧
      (calculate_run meas_pid 4 3 1).clamped = 1 ∧ (_calculate meas_pid 4 3 1).1 = 1 ∧
      (calculate_run meas_pid (-10) 3 1).clamped = -13 ∧
      (_calculate meas_pid (-10) 3 1).1 = -2 := by
    norm_num +decide [_calculate, calculate_run, meas_pid, blank_pid, PID_MODE_PD,
      PID_MODE_P, PID_MODE_I, PID_MODE_D, PID_FEAT_OUTPUT_LIMIT, PID_FEAT_ANTI_WINDUP,
      PID_FEAT_DEADBAND, PID_FEAT_INTEGRAL_SEP, PID_FEAT_DIFF_ON_MEAS, PID_FEAT_DIFF_FILTER,
      PID_FEAT_FEEDFORWARD, PID_FEAT_OUTPUT_RATE_LIMIT, PID_CLAMP, PID_ABS]
  exact ⟨⟨calculate_run_total_sum p t a dt, calculate_run_err p t a dt,
    calculate_run_clamped p t a dt⟩, hlimit.1, hlimit.2.1, hlimit.2.2, hvals,
    fun rnd pf tf af dtf => calculate_run_f_out rnd pf tf af dtf,
    calculate_run_f_exact p t a dt⟩

/-- C21, an instance: the PD controller with rate 2 per second, previous output
0, asked for the target 10 at the measurement 3 with `dt` 1: the limiter receives
7 and returns 2. -/
theorem C21_rate_limit_witness :
    |(_calculate meas_pid 10 3 1).1 - meas_pid._prev_output_| ≤ meas_pid.output_max_rate_ * 1 ∧
      (|(calculate_run meas_pid 10 3 1).clamped - meas_pid._prev_output_| ≤
          meas_pid.output_max_rate_ * 1 →
        (_calculate meas_pid 10 3 1).1 = (calculate_run meas_pid 10 3 1).clamped) ∧
      (meas_pid.output_max_rate_ * 1 <
          |(calculate_run meas_pid 10 3 1).clamped - meas_pid._prev_output_| →
        (meas_pid._prev_output_ < (calculate_run meas_pid 10 3 1).clamped →
          (_calculate meas_pid 10 3 1).1 =
            meas_pid._prev_output_ + meas_pid.output_max_rate_ * 1) ∧
        ((calculate_run meas_pid 10 3 1).clamped < meas_pid._prev_output_ →
          (_calculate meas_pid 10 3 1).1 =
            meas_pid._prev_output_ - meas_pid.output_max_rate_ * 1)) ∧
      (calculate_run meas_pid 10 3 1).clamped = 7 ∧ (_calculate meas_pid 10 3 1).1 = 2 :=
  have h := C21_rate_limit meas_pid 10 3 1 (by decide) (by norm_num) (by norm_num [meas_pid])
  ⟨h.2.1, h.2.2.1, h.2.2.2.1, h.2.2.2.2.1.1, h.2.2.2.2.1.2.1⟩

/-- C21, as stated, fails in float arithmetic: the P controller with
output-rate limiting, rate 5 and previous output `1e8` is called with target
`2e8`, measurement 0 and `dt` 1.  The limiter receives `2e8`, more than 5 away,
and returns the float sum `1e8 + 5`, which is 100000008: the output differs from
the previous output by 8, more than `output_max_rate * dt = 5`. -/
theorem C21_counterexample_rounded_step :
    has_bit coarse_pid_f.features_ PID_FEAT_OUTPUT_RATE_LIMIT ∧
      coarse_pid_f.output_max_rate_ = Flt.num 5 ∧
      coarse_pid_f._prev_output_ = Flt.num 100000000 ∧
      round32 100000000 = 100000000 ∧ round32 200000000 = 200000000 ∧ round32 5 = 5 ∧
      (calculate_run_f round32 coarse_pid_f (Flt.num 200000000) (Flt.num 0)
        (Flt.num 1)).clamped = Flt.num 200000000 ∧
      fmul round32 coarse_pid_f.output_max_rate_ (Flt.num 1) = Flt.num 5 ∧
      (_calculate_f round32 coarse_pid_f (Flt.num 200000000) (Flt.num 0) (Flt.num 1)).1 =
        Flt.num 100000008 ∧
      fgt (PID_ABS_f (fsub round32
          (_calculate_f round32 coarse_pid_f (Flt.num 200000000) (Flt.num 0) (Flt.num 1)).1
          coarse_pid_f._prev_output_))
        (fmul round32 coarse_pid_f.output_max_rate_ (Flt.num 1)) = true ∧
      ((5 : ℚ) * 1 < |100000008 - 100000000|) := by
  refine ⟨by decide!, by decide!, by decide!, by decide!, by decide!, by decide!, by decide!,
    by decide!, by decide!, by decide!, by norm_num⟩

end PidClaimsH

end LiftCtl
